import Mathlib

/-! Migration.cc of memory-optimizer: threshold selection, page selection, page moving, the
tick, the occupancy probe and its statistics, and the parsing of the migrate mode.

A shallow embedding of `src/Migration.cc`.  C++ `int`/`long` values are `Int`,
`unsigned long`/`size_t` values are `Nat`; the places where the source converts
between them (`long quota = portion`, `quota -= refs_count[..]`, the `double`
ratio) are embedded with the conversion written out.
-/

namespace MemoryOptimizer

/-! ## Machine arithmetic -/

/-- Conversion of an integer to a 64-bit `long` (two's complement wrap). -/
def to_long (x : Int) : Int := (x + 2 ^ 63) % 2 ^ 64 - 2 ^ 63

/-- Conversion of an integer to a 32-bit `int` (two's complement wrap). -/
def to_int (x : Int) : Int := (x + 2 ^ 31) % 2 ^ 32 - 2 ^ 31

/-- Round a rational to the nearest integer, a tie going to the even neighbour. -/
def roundNE (q : ℚ) : ℤ :=
  let f := ⌊q⌋
  if q - f < 1 / 2 then f
  else if 1 / 2 < q - f then f + 1
  else if f % 2 = 0 then f else f + 1

/-- The `double` nearest to the rational `x` (binary64: 53 significant bits, round to nearest,
ties to even).  Every arithmetic operation on `double` in the source is the exact operation
followed by this rounding.  Exponent range is not modelled: the values the source computes
(ratios of counts, page counts times a ratio) stay far inside the normal range. -/
def fl (x : ℚ) : ℚ :=
  if x = 0 then 0
  else
    let ulp : ℚ := 2 ^ (Int.log 2 |x| - 52)
    roundNE (x / ulp) * ulp

/-- Conversion `(size_t) d` of a `double`: the fractional part is dropped.  The source's
behaviour is undefined when the truncated value is negative or does not fit 64 bits; the
model gives 0 for the former and wraps the latter. -/
def to_size_t (d : ℚ) : Nat := ⌊d⌋₊ % 2 ^ 64

/-! ## Data model -/

/-- Modelled from the spec: the page classes `ProcIdlePageType` of ProcIdlePages.h (that header
is not among the sources).  The four classes Migration.cc names: small (PTE) and large (PMD)
pages, each idle or accessed. -/
inductive ProcIdlePageType where
  | PTE_IDLE
  | PTE_ACCESSED
  | PMD_IDLE
  | PMD_ACCESSED
  deriving DecidableEq, Repr

open ProcIdlePageType

/-- Modelled from the spec: the test `type & PAGE_ACCESSED_MASK` (the macro is declared in the
missing ProcIdlePages.h); true exactly for the accessed classes. -/
def accessed : ProcIdlePageType → Bool
  | PTE_IDLE => false
  | PTE_ACCESSED => true
  | PMD_IDLE => false
  | PMD_ACCESSED => true

/-- Modelled from the spec: the enumeration `MigrateWhat` of Migration.h (not among the
sources), with the values the usage text gives: 0 none, 1 hot, 2 cold, 3 both. -/
inductive MigrateWhat where
  | MIGRATE_NONE
  | MIGRATE_HOT
  | MIGRATE_COLD
  | MIGRATE_BOTH
  deriving DecidableEq, Repr

/-- The integer value of a `MigrateWhat`. -/
def MigrateWhat.toNat : MigrateWhat → Nat
  | MIGRATE_NONE => 0
  | MIGRATE_HOT => 1
  | MIGRATE_COLD => 2
  | MIGRATE_BOTH => 3

open MigrateWhat

/-- The global `option` object (class `Option` of Option.h, not among the sources): the
fields Migration.cc reads, and the two node constants `Option::DRAM_NUMA_NODE` and
`Option::PMEM_NUMA_NODE`, which are taken as parameters. -/
structure Options where
  nr_walks : Int
  hot_min_refs : Int
  cold_max_refs : Int
  dram_percent : Int
  migrate_what : MigrateWhat
  DRAM_NUMA_NODE : Int
  PMEM_NUMA_NODE : Int
  deriving Repr

/-- The answers of the `ProcVmstat` collaborator that `get_threshold_refs` asks for:
`anon_capacity(node)` and `anon_capacity()`, both page counts (`unsigned long`). -/
structure ProcVmstat where
  anon_capacity_node : Int → Nat
  anon_capacity : Nat

/-- Modelled from the spec: `AddrSequence` (AddrSequence.h is not among the sources), the
ordered store of `(addr, payload)` pairs.  `entries` lists the pairs in the order the cursor
(`get_first`, then `get_next` until it reports the end) yields them; `addr` is the
`unsigned long` the cursor writes, `payload` the `uint8_t` reference count. -/
structure AddrSequence where
  entries : List (Nat × Nat)
  deriving Repr

/-- The `size()` query of the sequence. -/
def AddrSequence.size (s : AddrSequence) : Nat := s.entries.length

/-- The `empty()` query of the sequence. -/
def AddrSequence.empty (s : AddrSequence) : Bool := s.entries.isEmpty

/-- What `get_pagetype_refs(type)` returns: the sequence `page_refs` and the count of pages
per reference count, `refs_count`. -/
structure ProcIdleRefs where
  page_refs : AddrSequence
  refs_count : List Nat
  deriving Repr

/-- The fields of a `Migration` object (with its `ProcIdlePages` base) that Migration.cc uses. -/
structure Migration where
  pid : Int
  nr_walks : Int
  pagetype_refs : ProcIdlePageType → ProcIdleRefs
  pages_addr : ProcIdlePageType → List Nat
  migrate_status : List Int
  migrate_target_node : ProcIdlePageType → Int

/-- The constructor `Migration::Migration(pid_t n)`: idle classes go to the PMEM node,
accessed classes to the DRAM node; the address vectors and the status vector start empty.
The reference data of the `ProcIdlePages` base is a parameter. -/
def Migration.new (option : Options) (n : Int) (nr_walks : Int)
    (refs : ProcIdlePageType → ProcIdleRefs) : Migration where
  pid := n
  nr_walks := nr_walks
  pagetype_refs := refs
  pages_addr := fun _ => []
  migrate_status := []
  migrate_target_node := fun
    | PTE_IDLE => option.PMEM_NUMA_NODE
    | PTE_ACCESSED => option.DRAM_NUMA_NODE
    | PMD_IDLE => option.PMEM_NUMA_NODE
    | PMD_ACCESSED => option.DRAM_NUMA_NODE

/-! ## get_threshold_refs -/

/-- The `double ratio` of `get_threshold_refs` (lines 83-93).  A non-zero `dram_percent` gives
`dram_percent / 100.0` for a class whose target is the DRAM node and
`(100.0 - dram_percent) / 100.0` otherwise; `dram_percent == 0` asks the vmstat collaborator.
A division by a zero capacity is not a number in the source; the model gives 0 there. -/
def ratio (option : Options) (vmstat : ProcVmstat) (m : Migration)
    (type : ProcIdlePageType) : ℚ :=
  if option.dram_percent ≠ 0 then
    if m.migrate_target_node type = option.DRAM_NUMA_NODE then
      fl (fl option.dram_percent / 100)
    else
      fl (fl (100 - fl option.dram_percent) / 100)
  else
    fl (fl (vmstat.anon_capacity_node (m.migrate_target_node type)) / fl vmstat.anon_capacity)

/-- Line 96: `size_t portion = page_refs.size() * ratio`. -/
def portion (option : Options) (vmstat : ProcVmstat) (m : Migration)
    (type : ProcIdlePageType) : Nat :=
  to_size_t (fl (fl (m.pagetype_refs type).page_refs.size * ratio option vmstat m type))

/-- The loop of lines 104-108, `for (; min_refs > 1; --min_refs)`: returns `min_refs` as the
loop leaves it.  The first argument bounds the number of iterations; called with
`nr_walks` it is never exhausted, since `min_refs` starts at `nr_walks` and the loop stops at 1.
A read of `refs_count` outside the vector (undefined in the source) reads 0. -/
def hot_loop (refs_count : List Nat) : Nat → Int → Int → Int
  | 0, min_refs, _ => min_refs
  | fuel + 1, min_refs, quota =>
    if 1 < min_refs then
      let quota' := to_long (quota - refs_count.getD min_refs.toNat 0)
      if quota' ≤ 0 then min_refs
      else hot_loop refs_count fuel (min_refs - 1) quota'
    else min_refs

/-- The loop of lines 114-118, `for (; max_refs < nr_walks / 2; ++max_refs)`: returns
`max_refs` as the loop leaves it; `limit` is `nr_walks / 2`.  The first argument bounds the
number of iterations; called with `limit` it is never exhausted. -/
def cold_loop (refs_count : List Nat) (limit : Int) : Nat → Int → Int → Int
  | 0, max_refs, _ => max_refs
  | fuel + 1, max_refs, quota =>
    if max_refs < limit then
      let quota' := to_long (quota - refs_count.getD max_refs.toNat 0)
      if quota' ≤ 0 then max_refs
      else cold_loop refs_count limit fuel (max_refs + 1) quota'
    else max_refs

/-- `Migration::get_threshold_refs` (lines 59-125): the triple
`(min_refs, max_refs, returned value)`. -/
def get_threshold_refs (option : Options) (vmstat : ProcVmstat) (m : Migration)
    (type : ProcIdlePageType) : Int × Int × Nat :=
  let nr_walks := m.nr_walks
  if accessed type ∧ option.nr_walks = 0 then (nr_walks, nr_walks, 0)
  else if accessed type ∧ 0 < option.hot_min_refs then (option.hot_min_refs, nr_walks, 0)
  else if ¬ accessed type ∧ 0 ≤ option.cold_max_refs then (0, option.cold_max_refs, 0)
  else
    let refs_count := (m.pagetype_refs type).refs_count
    let portion := portion option vmstat m type
    let quota : Int := to_long portion
    if accessed type then
      let min_refs := hot_loop refs_count nr_walks.toNat nr_walks quota
      let min_refs := if min_refs < nr_walks then min_refs + 1 else min_refs
      (min_refs, nr_walks, portion)
    else
      let limit := Int.tdiv nr_walks 2
      let max_refs := cold_loop refs_count limit limit.toNat 0 quota
      (0, max_refs >>> (1 : Nat), portion)

/-! ## select_top_pages -/

/-- Modelled from the spec: `PAGE_SHIFT`, the page-size exponent of a 4 KiB page (the macro
is declared outside the sources). -/
def PAGE_SHIFT : Nat := 12

/-- The cursor loop of lines 150-157.  The first list holds the pairs the cursor has still to
yield (`get_first` yields its head, each `get_next` the following one, and the loop ends
when the cursor reports the end); the second is `pages_addr[type]`.  A pair whose count
lies in the band has its `addr` pushed to the back of the vector. -/
def select_loop (min_refs max_refs : Int) : List (Nat × Nat) → List Nat → List Nat
  | [], pages => pages
  | (addr, ref_count) :: rest, pages =>
    if min_refs ≤ (ref_count : Int) ∧ (ref_count : Int) ≤ max_refs then
      select_loop min_refs max_refs rest (pages ++ [addr])
    else
      select_loop min_refs max_refs rest pages

/-- The call `sort(pages_addr[type].begin(), pages_addr[type].end())`: ascending order. -/
def sort (pages : List Nat) : List Nat := pages.insertionSort (fun a b => a ≤ b)

/-- Lines 150-169 of `select_top_pages`, for a given band: the cursor loop, the test for an
empty vector, and the sort.  Returns the return value and the new `pages_addr[type]`. -/
def select_band (min_refs max_refs : Int) (page_refs : AddrSequence) (pages : List Nat) :
    Int × List Nat :=
  let pages := select_loop min_refs max_refs page_refs.entries pages
  if pages.isEmpty then (1, pages) else (0, sort pages)

/-- `Migration::select_top_pages` (lines 127-170): the return value and the object after
the call. -/
def select_top_pages (option : Options) (vmstat : ProcVmstat) (m : Migration)
    (type : ProcIdlePageType) : Int × Migration :=
  let page_refs := (m.pagetype_refs type).page_refs
  if page_refs.empty then (1, m)
  else
    let band := get_threshold_refs option vmstat m type
    let r := select_band band.1 band.2.1 page_refs (m.pages_addr type)
    (r.1, { m with pages_addr := Function.update m.pages_addr type r.2 })

/-! ## Moving pages -/

/-- One call of `move_pages(2)` as the source issues it: `nodes` is `none` for a `NULL`
destination array. -/
structure MoveCall where
  pid : Int
  count : Nat
  pages : List Nat
  nodes : Option (List Int)
  flags : Nat
  deriving DecidableEq, Repr

/-- What one `move_pages` call gives back: its return value and the status entries it wrote,
entry `j` for page `j` of the call. -/
structure MoveResult where
  ret : Int
  status : List Int
  deriving DecidableEq, Repr

/-- The kernel as the process sees it: the answer to a call, given the calls issued before. -/
abbrev Kernel := List MoveCall → MoveCall → MoveResult

/-- `MPOL_MF_MOVE` of numaif.h. -/
def MPOL_MF_MOVE : Nat := 1 <<< 1

/-- Line 18: `#define MPOL_MF_SW_YOUNG (1<<7)`. -/
def MPOL_MF_SW_YOUNG : Nat := 1 <<< 7

/-- `std::vector::resize(n, v)`: keep the first `n` entries, pad with `v` up to length `n`. -/
def resize {α : Type} (xs : List α) (n : Nat) (v : α) : List α :=
  xs.take n ++ List.replicate (n - xs.length) v

/-- The kernel writing the status entries `w` at `status[i]`, `status[i+1]`, ... -/
def write_at (status : List Int) (i : Nat) (w : List Int) : List Int :=
  status.take i ++ (w ++ status.drop (i + w.length))

/-- The batch loop of `__move_pages` (lines 223-235).  State: the offset `i`, the `nodes`
vector, `ret`, the status vector and the calls issued so far.  The first argument bounds the
number of iterations; `nr_pages` is enough, since `i` grows by `batch_size` each time. -/
def move_loop (kernel : Kernel) (pid : Int) (nr_pages : Nat) (addrs : List Nat) (node : Int)
    (batch_size : Nat) :
    Nat → Nat → List Int → Int → List Int → List MoveCall → Int × List Int × List MoveCall
  | 0, _, _, ret, status, trace => (ret, status, trace)
  | fuel + 1, i, nodes, ret, status, trace =>
    if i < nr_pages then
      let size := min batch_size (nr_pages - i)
      let nodes := resize nodes size node
      let call : MoveCall :=
        { pid := pid, count := size, pages := (addrs.drop i).take size, nodes := some nodes,
          flags := MPOL_MF_MOVE ||| MPOL_MF_SW_YOUNG }
      let r := kernel trace call
      let status := write_at status i (r.status.take size)
      let trace := trace ++ [call]
      if r.ret ≠ 0 then (r.ret, status, trace)
      else move_loop kernel pid nr_pages addrs node batch_size fuel (i + batch_size) nodes r.ret
        status trace
    else (ret, status, trace)

/-- `Migration::__move_pages` (lines 214-238): the return value, the status vector and the
calls issued, appended to those issued before. -/
def __move_pages (kernel : Kernel) (trace : List MoveCall) (migrate_status : List Int)
    (pid : Int) (nr_pages : Nat) (addrs : List Nat) (node : Int) :
    Int × List Int × List MoveCall :=
  let migrate_status := resize migrate_status nr_pages 0
  let batch_size := 1 <<< 12
  move_loop kernel pid nr_pages addrs node batch_size nr_pages 0 [] 0 migrate_status trace

/-- `Migration::do_move_pages` (lines 240-249). -/
def do_move_pages (kernel : Kernel) (trace : List MoveCall) (m : Migration)
    (type : ProcIdlePageType) : Int × Migration × List MoveCall :=
  let addrs := m.pages_addr type
  let r := __move_pages kernel trace m.migrate_status m.pid addrs.length addrs
    (m.migrate_target_node type)
  (r.1, { m with migrate_status := r.2.1 }, r.2.2)

/-- `Migration::migrate(ProcIdlePageType)` (lines 202-212): the return value, the object
afterwards and the `move_pages` calls issued, appended to those issued before. -/
def migrate_type (option : Options) (vmstat : ProcVmstat) (kernel : Kernel)
    (trace : List MoveCall) (m : Migration) (type : ProcIdlePageType) :
    Int × Migration × List MoveCall :=
  let s := select_top_pages option vmstat m type
  if s.1 ≠ 0 then (min s.1 0, s.2, trace)
  else
    let r := do_move_pages kernel trace s.2 type
    (to_int r.1, r.2.1, r.2.2)

/-- `Migration::migrate()` (lines 172-200), with the per-class pipeline `migrate(type)` as the
parameter `step` (from a state and a class to the return value and the next state).  Returns
`err`, the final state, and the log of the pipeline runs: each class processed with the value
its run returned, in the order of the runs. -/
def migrate_with {σ : Type} (step : σ → ProcIdlePageType → Int × σ)
    (migrate_what : MigrateWhat) (s : σ) : Int × σ × List (ProcIdlePageType × Int) :=
  let cold : Bool × Int × σ × List (ProcIdlePageType × Int) :=
    if migrate_what.toNat &&& MIGRATE_COLD.toNat ≠ 0 then
      let r₁ := step s PTE_IDLE
      if r₁.1 ≠ 0 then (true, r₁.1, r₁.2, [(PTE_IDLE, r₁.1)])
      else
        let r₂ := step r₁.2 PMD_IDLE
        if r₂.1 ≠ 0 then (true, r₂.1, r₂.2, [(PTE_IDLE, r₁.1), (PMD_IDLE, r₂.1)])
        else (false, r₂.1, r₂.2, [(PTE_IDLE, r₁.1), (PMD_IDLE, r₂.1)])
    else (false, 0, s, [])
  if cold.1 then (cold.2.1, cold.2.2.1, cold.2.2.2)
  else if migrate_what.toNat &&& MIGRATE_HOT.toNat ≠ 0 then
    let r₃ := step cold.2.2.1 PTE_ACCESSED
    if r₃.1 ≠ 0 then (r₃.1, r₃.2, cold.2.2.2 ++ [(PTE_ACCESSED, r₃.1)])
    else
      let r₄ := step r₃.2 PMD_ACCESSED
      (r₄.1, r₄.2, cold.2.2.2 ++ [(PTE_ACCESSED, r₃.1), (PMD_ACCESSED, r₄.1)])
  else (cold.2.1, cold.2.2.1, cold.2.2.2)

/-- `Migration::migrate()` on a `Migration` object: the state is the object together with the
`move_pages` calls issued so far, and the pipeline is `migrate(type)`. -/
def migrate (option : Options) (vmstat : ProcVmstat) (kernel : Kernel)
    (m : Migration) (trace : List MoveCall) :
    Int × (Migration × List MoveCall) × List (ProcIdlePageType × Int) :=
  migrate_with
    (fun (s : Migration × List MoveCall) type =>
      ((migrate_type option vmstat kernel s.2 s.1 type).1,
        (migrate_type option vmstat kernel s.2 s.1 type).2))
    option.migrate_what (m, trace)

/-! ## Statistics of a probe -/

/-- Modelled from the spec: `inc_count` of lib/stats.h (not among the sources), which adds one
to the count the map keeps for a key.  The map `status value -> count` is the list of its
entries. -/
def inc_count : List (Int × Nat) → Int → List (Int × Nat)
  | [], key => [(key, 1)]
  | (k, c) :: rest, key =>
    if k = key then (k, c + 1) :: rest else (k, c) :: inc_count rest key

/-- `Migration::calc_migrate_stats` (lines 251-259). -/
def calc_migrate_stats (migrate_status : List Int) : List (Int × Nat) :=
  migrate_status.foldl inc_count []

/-- Modelled from the spec: `percent` of lib/stats.h (not among the sources),
`100 * n / total` in integers. -/
def percent (n total : Nat) : Nat := 100 * n / total

/-- `Migration::dump_node_percent` (lines 298-315): the number printed first, and the number
printed in `(-..)` when `nr_err` is not 0.  `stats[0]` is 0 for a missing key; the loop of
lines 304-310 adds one to `nr_err` for every entry of the map whose key is negative. -/
def dump_node_percent (migrate_status : List Int) : Nat × Option Nat :=
  let stats := calc_migrate_stats migrate_status
  let nr_node0 := (stats.lookup 0).getD 0
  let nr_err := stats.foldl (fun nr_err kv => if kv.1 < 0 then nr_err + 1 else nr_err) 0
  (percent nr_node0 migrate_status.length,
    if nr_err ≠ 0 then some (percent nr_err migrate_status.length) else none)

/-! ## The occupancy probe -/

/-- Modelled from the spec: `proc_maps_entry` of ProcMaps.h (not among the sources), of which
Migration.cc reads the two `unsigned long` fields `start` and `end`. -/
structure proc_maps_entry where
  start : Nat
  end_ : Nat
  deriving Repr

/-- Modelled from the spec: `PAGE_SIZE`, the size of a 4 KiB page (the macro is declared
outside the sources). -/
def PAGE_SIZE : Nat := 1 <<< PAGE_SHIFT

/-- Conversion of a natural number to a 64-bit `unsigned long`. -/
def to_ulong (x : Nat) : Nat := x % 2 ^ 64

/-- The difference `a - b` of two `unsigned long` values. -/
def ulong_sub (a b : Nat) : Nat := (a + (2 ^ 64 - b % 2 ^ 64)) % 2 ^ 64

/-- The loop of `Migration::fill_addrs` (lines 292-295) over the entries from `p` to the last
one: each gets `start`, and `start` grows by `PAGE_SIZE`. -/
def fill_loop : List Nat → Nat → List Nat
  | [], _ => []
  | _ :: rest, start => start :: fill_loop rest (to_ulong (start + PAGE_SIZE))

/-- `Migration::fill_addrs` (lines 287-296). -/
def fill_addrs (addrs : List Nat) (start : Nat) : List Nat := fill_loop addrs start

/-- Line 325: `nr_pages = (vma.end - vma.start) >> PAGE_SHIFT`. -/
def vma_nr_pages (vma : proc_maps_entry) : Nat := ulong_sub vma.end_ vma.start >>> PAGE_SHIFT

/-- Lines 330-331: `slot_pages = nr_pages / nr_slots`, with `nr_slots = 10`. -/
def vma_slot_pages (vma : proc_maps_entry) : Nat := vma_nr_pages vma / 10

/-- The loop of lines 337-352, `for (int i = 0; i < nr_slots; ++i)`.  State: `i`, `err`, the
vector `addrs`, the status vector, the calls issued so far and the numbers
`dump_node_percent` has published.  The first argument bounds the number of iterations;
`nr_slots` is enough. -/
def probe_loop (kernel : Kernel) (pid : Int) (vma : proc_maps_entry) (slot_pages : Nat)
    (nr_slots : Nat) :
    Nat → Nat → Int → List Nat → List Int → List MoveCall → List (Nat × Option Nat) →
      Int × List Int × List MoveCall × List (Nat × Option Nat)
  | 0, _, err, _, status, trace, out => (err, status, trace, out)
  | fuel + 1, i, err, addrs, status, trace, out =>
    if i < nr_slots then
      let addrs := fill_addrs addrs (to_ulong (vma.start + i * addrs.length * PAGE_SIZE))
      let call : MoveCall :=
        { pid := pid, count := slot_pages, pages := addrs, nodes := none,
          flags := MPOL_MF_MOVE }
      let r := kernel trace call
      let status := write_at status 0 (r.status.take slot_pages)
      let err := to_int r.ret
      if err ≠ 0 then (err, status, trace ++ [call], out)
      else
        probe_loop kernel pid vma slot_pages nr_slots fuel (i + 1) err addrs status
          (trace ++ [call]) (out ++ [dump_node_percent status])
    else (err, status, trace, out)

/-- `Migration::dump_vma_nodes` (lines 317-355): the return value, the object afterwards, the
`move_pages` calls issued, appended to those issued before, and the numbers published by
`dump_node_percent`, one pair for each slot. -/
def dump_vma_nodes (kernel : Kernel) (trace : List MoveCall) (m : Migration)
    (vma : proc_maps_entry) : Int × Migration × List MoveCall × List (Nat × Option Nat) :=
  if ulong_sub vma.end_ vma.start < 1 <<< 30 then (0, m, trace, [])
  else
    let nr_slots := 10
    let slot_pages := vma_slot_pages vma
    let addrs : List Nat := resize [] slot_pages 0
    let migrate_status := resize m.migrate_status slot_pages 0
    let r := probe_loop kernel m.pid vma slot_pages nr_slots nr_slots 0 0 addrs migrate_status
      trace []
    (r.1, { m with migrate_status := r.2.1 }, r.2.2.1, r.2.2.2)

/-! ## parse_migrate_name -/

/-- Lines 22-27: `Migration::migrate_name_map`. -/
def migrate_name_map : List (String × MigrateWhat) :=
  [("none", MIGRATE_NONE), ("hot", MIGRATE_HOT), ("cold", MIGRATE_COLD), ("both", MIGRATE_BOTH)]

/-- `isdigit` of ctype.h: the decimal digits. -/
def isdigit (c : Char) : Bool := decide ('0' ≤ c ∧ c ≤ '9')

/-- `strtol (s, NULL, 10)` of the C library on a string that starts with a digit: the value
of its leading run of decimal digits, and `LONG_MAX` when that value does not fit a `long`. -/
def strtol (s : List Char) : Int :=
  min (((s.takeWhile isdigit).foldl (fun acc c => 10 * acc + (c.toNat - '0'.toNat)) 0 : Nat) : Int)
    (2 ^ 63 - 1)

/-- `atoi` of the C library on a string that starts with a digit, as glibc defines it,
`(int) strtol (s, NULL, 10)`.  For a digit run below `2 ^ 31` this is its value; a larger
value is narrowed to `int` (the C standard leaves that case undefined; glibc reads
`"4294967297"` as 1 and `"2147483648"` as `INT_MIN`). -/
def atoi (s : List Char) : Int := to_int (strtol s)

/-- The cast `(MigrateWhat)m` of an `int`: one of the four modes for `m` in `0 .. 3`.  Any
other `m` gives a value of the enumeration type that is none of the four modes; it is kept,
with its integer value, as `Except.error m`. -/
def MigrateWhat.of_int (m : Int) : Except Int MigrateWhat :=
  if m = 0 then Except.ok MIGRATE_NONE
  else if m = 1 then Except.ok MIGRATE_HOT
  else if m = 2 then Except.ok MIGRATE_COLD
  else if m = 3 then Except.ok MIGRATE_BOTH
  else Except.error m

/-- `Migration::parse_migrate_name` (lines 40-57): `Except.ok` of the mode returned, or
`Except.error m` when line 45 returns the cast of an `int m` outside `0 .. 3`.  `name[0]` of
an empty string is the terminating null character. -/
def parse_migrate_name (name : String) : Except Int MigrateWhat :=
  if isdigit (name.data.headD (Char.ofNat 0)) then
    let m : Int := atoi name.data
    if m ≤ (MIGRATE_BOTH.toNat : Int) then MigrateWhat.of_int m
    else Except.ok MIGRATE_NONE
  else
    match migrate_name_map.lookup name with
    | some what => Except.ok what
    | none => Except.ok MIGRATE_NONE

/-! ## Vocabulary of the statements -/

/-- The cumulative count `refs_count[a] + ... + refs_count[b]`. -/
def cum (refs_count : List Nat) (a b : Nat) : Nat :=
  ∑ i in Finset.Icc a b, refs_count.getD i 0

/-- The histogram invariant: `refs_count` has the entries `0 .. nr_walks`, and entry `i` is
the number of pages of `page_refs` whose reference count is `i`. -/
def refs_consistent (r : ProcIdleRefs) (nr_walks : Int) : Prop :=
  r.refs_count =
    (List.range (nr_walks.toNat + 1)).map (fun i => r.page_refs.entries.countP (fun p => p.2 = i))

instance (r : ProcIdleRefs) (nr_walks : Int) : Decidable (refs_consistent r nr_walks) := by
  unfold refs_consistent
  infer_instance

/-- The test of lines 152-153 on a pair of the histogram. -/
def in_band (min_refs max_refs : Int) (p : Nat × Nat) : Bool :=
  decide (min_refs ≤ (p.2 : Int) ∧ (p.2 : Int) ≤ max_refs)

/-- The index the downward scan is specified to stop at: `k` is the largest index in
`[2, nr_walks]` at which the cumulative count `refs_count[k] + ... + refs_count[nr_walks]`
reaches `portion`, or `k = 1` if there is no such index. -/
def is_scan_index (refs_count : List Nat) (nr_walks portion k : Nat) : Prop :=
  (2 ≤ k ∧ k ≤ nr_walks ∧ portion ≤ cum refs_count k nr_walks ∧
      ∀ j, k < j → j ≤ nr_walks → cum refs_count j nr_walks < portion) ∨
    (k = 1 ∧ ∀ j, 2 ≤ j → j ≤ nr_walks → cum refs_count j nr_walks < portion)

/-- The call `__move_pages` is specified to issue for the batch that starts at offset `off`:
at most `batch_size` addresses from there on, each with the destination `node`. -/
def batch_call (pid : Int) (nr_pages : Nat) (addrs : List Nat) (node : Int) (batch_size : Nat)
    (off : Nat) : MoveCall :=
  { pid := pid, count := min batch_size (nr_pages - off),
    pages := (addrs.drop off).take (min batch_size (nr_pages - off)),
    nodes := some (List.replicate (min batch_size (nr_pages - off)) node),
    flags := MPOL_MF_MOVE ||| MPOL_MF_SW_YOUNG }

/-- The first `L` batches from offset `i` on, in ascending offset order. -/
def batches (pid : Int) (nr_pages : Nat) (addrs : List Nat) (node : Int) (batch_size : Nat)
    (i L : Nat) : List MoveCall :=
  (List.range L).map (fun k => batch_call pid nr_pages addrs node batch_size (i + batch_size * k))

/-- The kernel primitive as a deterministic per-page function: every call returns 0 and writes
`status[j] = f (addr[j], node[j])`. -/
def per_page_kernel (f : Nat → Int → Int) : Kernel := fun _ call =>
  { ret := 0, status := List.zipWith f call.pages (call.nodes.getD []) }

/-- The classes `migrate()` is specified to process, in order: the idle classes when the COLD
bit of the mask is set, then the accessed classes when the HOT bit is set. -/
def enabled_classes (migrate_what : MigrateWhat) : List ProcIdlePageType :=
  (if migrate_what.toNat &&& MIGRATE_COLD.toNat ≠ 0 then [PTE_IDLE, PMD_IDLE] else []) ++
    (if migrate_what.toNat &&& MIGRATE_HOT.toNat ≠ 0 then [PTE_ACCESSED, PMD_ACCESSED] else [])

/-- Running the pipeline over a list of classes in order, stopping after the first run that
returns a non-zero value: the value of the last run (0 if there is none), the final state and
the log of the runs. -/
def run_classes {σ : Type} (step : σ → ProcIdlePageType → Int × σ) :
    List ProcIdlePageType → σ → Int × σ × List (ProcIdlePageType × Int)
  | [], s => (0, s, [])
  | [t], s => ((step s t).1, (step s t).2, [(t, (step s t).1)])
  | t :: t' :: ts, s =>
    if (step s t).1 ≠ 0 then ((step s t).1, (step s t).2, [(t, (step s t).1)])
    else
      ((run_classes step (t' :: ts) (step s t).2).1, (run_classes step (t' :: ts) (step s t).2).2.1,
        (t, (step s t).1) :: (run_classes step (t' :: ts) (step s t).2).2.2)

/-- The placement query the probe is specified to issue for slot `i`: `slot_pages` addresses,
the `j`-th being `vma.start + (i * slot_pages + j) * PAGE_SIZE`, with no destination. -/
def slot_call (pid : Int) (vma : proc_maps_entry) (slot_pages i : Nat) : MoveCall :=
  { pid := pid, count := slot_pages,
    pages := (List.range slot_pages).map (fun j => vma.start + (i * slot_pages + j) * PAGE_SIZE),
    nodes := none, flags := MPOL_MF_MOVE }

/-- The index the upward scan is specified to stop at: `k` is the least index in `[0, limit)`
at which the cumulative count `refs_count[0] + ... + refs_count[k]` reaches `portion`, or
`k = limit` if there is no such index. -/
def is_cold_index (refs_count : List Nat) (limit portion k : Nat) : Prop :=
  (k < limit ∧ portion ≤ cum refs_count 0 k ∧ ∀ j, j < k → cum refs_count 0 j < portion) ∨
    (k = limit ∧ ∀ j, j < limit → cum refs_count 0 j < portion)

/-- The portion line 96 is specified to give for `n` pages and the percentage `p`: the number
`P` is `floor(n * p / 100)` or one less, and it is `floor(n * p / 100)` whenever 100 does not
divide `n * p`. -/
def is_percent_portion (n : Nat) (p : Int) (P : Nat) : Prop :=
  (P : Int) ≤ n * p / 100 ∧ (n : Int) * p / 100 ≤ P + 1 ∧
    ((n : Int) * p % 100 ≠ 0 → (P : Int) = n * p / 100)

/-- The number a list of decimal digits spells, most significant digit first. -/
def decimal_value (ds : List Char) : Nat :=
  Nat.ofDigits 10 ((ds.map (fun c => c.toNat - '0'.toNat)).reverse)

/-! ## Concrete objects used in the examples -/

/-- An option object on the capacity path: no forced bound, `dram_percent` 50, DRAM is node 0
and PMEM node 1. -/
def ex_option : Options :=
  { nr_walks := 8, hot_min_refs := 0, cold_max_refs := -1, dram_percent := 50,
    migrate_what := MIGRATE_BOTH, DRAM_NUMA_NODE := 0, PMEM_NUMA_NODE := 1 }

/-- A vmstat answer in which every node holds all anonymous pages (ratio 1). -/
def ex_vmstat : ProcVmstat := { anon_capacity_node := fun _ => 1, anon_capacity := 1 }

/-- A vmstat answer in which no node holds an anonymous page (ratio 0). -/
def ex_vmstat_zero : ProcVmstat := { anon_capacity_node := fun _ => 0, anon_capacity := 1 }

/-- The histogram of the worked example: 1000 pages, 100 pages for each count but 7, and 200
pages of count 7. -/
def ex_refs_1000 : ProcIdleRefs :=
  { page_refs := ⟨(List.range 1000).map
      (fun i => (i, if i < 700 then i / 100 else if i < 900 then 7 else 8))⟩,
    refs_count := [100, 100, 100, 100, 100, 100, 100, 200, 100] }

/-- Three pages with the counts 8, 7 and 6, yielded in descending address order. -/
def ex_refs_hot : ProcIdleRefs :=
  { page_refs := ⟨[(30, 8), (20, 7), (10, 6)]⟩, refs_count := [0, 0, 0, 0, 0, 0, 1, 1, 1] }

/-- Six pages with the counts 0 to 5. -/
def ex_refs_cold : ProcIdleRefs :=
  { page_refs := ⟨[(1, 0), (2, 1), (3, 2), (4, 3), (5, 4), (6, 5)]⟩,
    refs_count := [1, 1, 1, 1, 1, 1, 0, 0, 0] }

/-- One page, of count 8, for which the cursor yields the address 4096. -/
def ex_refs_one : ProcIdleRefs :=
  { page_refs := ⟨[(4096, 8)]⟩, refs_count := [0, 0, 0, 0, 0, 0, 0, 0, 1] }

/-- A kernel that moves every page to the node asked for and reports success. -/
def ex_kernel : Kernel := fun _ call =>
  { ret := 0, status := (call.nodes.getD []).take call.count }

/-- A kernel that reports one page not moved (return value 1) on every call and writes no
status. -/
def ex_kernel_one : Kernel := fun _ _ => { ret := 1, status := [] }

/-- One hundred pages, all of count 8, at the addresses 4096, 8192, .... -/
def ex_refs_100 : ProcIdleRefs :=
  { page_refs := ⟨(List.range 100).map (fun i => (4096 * (i + 1), 8))⟩,
    refs_count := [0, 0, 0, 0, 0, 0, 0, 0, 100] }

/-! ## Rounding to `double` -/

theorem roundNE_intCast (z : ℤ) : roundNE (z : ℚ) = z := by
  simp [roundNE]

theorem floor_le_roundNE (q : ℚ) : ⌊q⌋ ≤ roundNE q := by
  unfold roundNE
  simp only
  split_ifs <;> omega

theorem roundNE_le_floor_succ (q : ℚ) : roundNE q ≤ ⌊q⌋ + 1 := by
  unfold roundNE
  simp only
  split_ifs <;> omega

theorem roundNE_mono {q₁ q₂ : ℚ} (h : q₁ ≤ q₂) : roundNE q₁ ≤ roundNE q₂ := by
  have hf : ⌊q₁⌋ ≤ ⌊q₂⌋ := Int.floor_mono h
  rcases lt_or_eq_of_le hf with hlt | heq
  · calc roundNE q₁ ≤ ⌊q₁⌋ + 1 := roundNE_le_floor_succ q₁
      _ ≤ ⌊q₂⌋ := hlt
      _ ≤ roundNE q₂ := floor_le_roundNE q₂
  · unfold roundNE
    simp only
    rw [heq]
    have h' : q₁ - (⌊q₂⌋ : ℚ) ≤ q₂ - (⌊q₂⌋ : ℚ) := by linarith
    split_ifs <;> first | omega | (exfalso; linarith)

theorem roundNE_le_of_le {q : ℚ} {z : ℤ} (h : q ≤ z) : roundNE q ≤ z := by
  have := roundNE_mono h
  rwa [roundNE_intCast] at this

theorem le_roundNE_of_le {q : ℚ} {z : ℤ} (h : (z : ℚ) ≤ q) : z ≤ roundNE q := by
  have := roundNE_mono h
  rwa [roundNE_intCast] at this

theorem fl_zero : fl 0 = 0 := by simp [fl]

theorem fl_of_pos {x : ℚ} (hx : 0 < x) :
    fl x = roundNE (x / 2 ^ (Int.log 2 x - 52)) * 2 ^ (Int.log 2 x - 52) := by
  simp [fl, hx.ne', abs_of_pos hx]

theorem fl_eq_of_bounds {x : ℚ} {e : ℤ} (h1 : (2 : ℚ) ^ e ≤ x) (h2 : x < 2 ^ (e + 1)) :
    fl x = roundNE (x / 2 ^ (e - 52)) * 2 ^ (e - 52) := by
  have hx : 0 < x := lt_of_lt_of_le (zpow_pos (by norm_num) e) h1
  have hlog : Int.log 2 x = e := by
    have a : e ≤ Int.log 2 x := (Int.zpow_le_iff_le_log (by norm_num) hx).1 (by exact_mod_cast h1)
    have b : Int.log 2 x < e + 1 := (Int.lt_zpow_iff_log_lt (by norm_num) hx).1 (by exact_mod_cast h2)
    omega
  rw [fl_of_pos hx, hlog]

theorem fl_nonneg {x : ℚ} (hx : 0 ≤ x) : 0 ≤ fl x := by
  rcases eq_or_lt_of_le hx with h | h
  · rw [← h, fl_zero]
  · rw [fl_of_pos h]
    have hu : (0 : ℚ) < 2 ^ (Int.log 2 x - 52) := zpow_pos (by norm_num) _
    have : (0 : ℤ) ≤ roundNE (x / 2 ^ (Int.log 2 x - 52)) :=
      le_roundNE_of_le (by simpa using div_nonneg hx hu.le)
    exact mul_nonneg (by exact_mod_cast this) hu.le

theorem two_zpow_le_fl {x : ℚ} (hx : 0 < x) : (2 : ℚ) ^ Int.log 2 x ≤ fl x := by
  rw [fl_of_pos hx]
  have hu : (0 : ℚ) < 2 ^ (Int.log 2 x - 52) := zpow_pos (by norm_num) _
  have h1 : (2 : ℚ) ^ Int.log 2 x ≤ x := by
    simpa using Int.zpow_log_le_self (b := 2) (by norm_num) hx
  have h2 : (2 : ℚ) ^ Int.log 2 x = ((2 ^ 52 : ℤ) : ℚ) * 2 ^ (Int.log 2 x - 52) := by
    have : (2 : ℚ) ^ (52 : ℤ) = ((2 ^ 52 : ℤ) : ℚ) := by norm_cast
    rw [← this, ← zpow_add₀ (by norm_num)]
    congr 1; ring
  have h3 : (2 ^ 52 : ℤ) ≤ roundNE (x / 2 ^ (Int.log 2 x - 52)) := by
    apply le_roundNE_of_le
    rw [le_div_iff₀ hu, ← h2]
    exact h1
  rw [h2]
  exact mul_le_mul_of_nonneg_right (by exact_mod_cast h3) hu.le

theorem fl_le_two_zpow {x : ℚ} (hx : 0 < x) : fl x ≤ (2 : ℚ) ^ (Int.log 2 x + 1) := by
  rw [fl_of_pos hx]
  have hu : (0 : ℚ) < 2 ^ (Int.log 2 x - 52) := zpow_pos (by norm_num) _
  have h1 : x < (2 : ℚ) ^ (Int.log 2 x + 1) := by
    simpa using Int.lt_zpow_succ_log_self (b := 2) (by norm_num) x
  have h2 : (2 : ℚ) ^ (Int.log 2 x + 1) = ((2 ^ 53 : ℤ) : ℚ) * 2 ^ (Int.log 2 x - 52) := by
    have : (2 : ℚ) ^ (53 : ℤ) = ((2 ^ 53 : ℤ) : ℚ) := by norm_cast
    rw [← this, ← zpow_add₀ (by norm_num)]
    congr 1; ring
  have h3 : roundNE (x / 2 ^ (Int.log 2 x - 52)) ≤ (2 ^ 53 : ℤ) := by
    apply roundNE_le_of_le
    rw [div_le_iff₀ hu, ← h2]
    exact h1.le
  rw [h2]
  exact mul_le_mul_of_nonneg_right (by exact_mod_cast h3) hu.le

theorem fl_mono {x y : ℚ} (hx : 0 ≤ x) (h : x ≤ y) : fl x ≤ fl y := by
  rcases eq_or_lt_of_le hx with h0 | h0
  · rw [← h0, fl_zero]
    exact fl_nonneg (le_trans hx h)
  · have hy : 0 < y := lt_of_lt_of_le h0 h
    have hlog : Int.log 2 x ≤ Int.log 2 y := Int.log_mono_right h0 h
    rcases lt_or_eq_of_le hlog with hlt | heq
    · calc fl x ≤ (2 : ℚ) ^ (Int.log 2 x + 1) := fl_le_two_zpow h0
        _ ≤ (2 : ℚ) ^ Int.log 2 y := zpow_le_zpow_right₀ (by norm_num) (by omega)
        _ ≤ fl y := two_zpow_le_fl hy
    · rw [fl_of_pos h0, fl_of_pos hy, heq]
      have hu : (0 : ℚ) < 2 ^ (Int.log 2 y - 52) := zpow_pos (by norm_num) _
      have : roundNE (x / 2 ^ (Int.log 2 y - 52)) ≤ roundNE (y / 2 ^ (Int.log 2 y - 52)) :=
        roundNE_mono (div_le_div_of_nonneg_right h hu.le)
      exact mul_le_mul_of_nonneg_right (by exact_mod_cast this) hu.le

theorem fl_dyadic (n : ℕ) (k : ℤ) (h : n < 2 ^ 53) : fl ((n : ℚ) * 2 ^ k) = (n : ℚ) * 2 ^ k := by
  rcases Nat.eq_zero_or_pos n with h0 | h0
  · simp [h0, fl_zero]
  · have hL : Nat.log 2 n < 53 := Nat.log_lt_of_lt_pow (by omega) h
    have h1 : 2 ^ Nat.log 2 n ≤ n := Nat.pow_log_le_self 2 (by omega)
    have h2 : n < 2 ^ (Nat.log 2 n + 1) := Nat.lt_pow_succ_log_self (by norm_num) n
    have hk : (0 : ℚ) < 2 ^ k := zpow_pos (by norm_num) _
    have b1 : (2 : ℚ) ^ ((Nat.log 2 n : ℤ) + k) ≤ (n : ℚ) * 2 ^ k := by
      rw [zpow_add₀ (by norm_num)]
      apply mul_le_mul_of_nonneg_right _ hk.le
      rw [zpow_natCast]
      exact_mod_cast h1
    have b2 : (n : ℚ) * 2 ^ k < (2 : ℚ) ^ ((Nat.log 2 n : ℤ) + k + 1) := by
      have : ((Nat.log 2 n : ℤ) + k + 1) = ((Nat.log 2 n + 1 : ℕ) : ℤ) + k := by push_cast; ring
      rw [this, zpow_add₀ (by norm_num)]
      apply mul_lt_mul_of_pos_right _ hk
      rw [zpow_natCast]
      exact_mod_cast h2
    rw [fl_eq_of_bounds b1 b2]
    have hu : (0 : ℚ) < 2 ^ ((Nat.log 2 n : ℤ) + k - 52) := zpow_pos (by norm_num) _
    have hq : (n : ℚ) * 2 ^ k / 2 ^ ((Nat.log 2 n : ℤ) + k - 52)
        = (((n * 2 ^ (52 - Nat.log 2 n) : ℕ) : ℤ) : ℚ) := by
      rw [div_eq_iff hu.ne']
      push_cast
      rw [mul_assoc, ← zpow_natCast, ← zpow_add₀ (by norm_num)]
      congr 2
      have : ((52 - Nat.log 2 n : ℕ) : ℤ) = 52 - (Nat.log 2 n : ℤ) := by omega
      rw [this]; ring
    rw [hq, roundNE_intCast, ← hq]
    exact div_mul_cancel₀ _ hu.ne'

theorem fl_natCast (n : ℕ) (h : n < 2 ^ 53) : fl (n : ℚ) = n := by
  simpa using fl_dyadic n 0 h

theorem fl_half : fl (1 / 2) = 1 / 2 := by
  have := fl_dyadic 1 (-1) (by norm_num)
  norm_num at this
  simpa using this

/-! ## Machine integers and the two scans -/

theorem to_long_eq {x : Int} (h1 : -2 ^ 63 ≤ x) (h2 : x < 2 ^ 63) : to_long x = x := by
  unfold to_long
  omega

theorem getD_lt_of_forall {rc : List Nat} {B : Nat} (hB : 0 < B) (h : ∀ c ∈ rc, c < B) (i : Nat) :
    rc.getD i 0 < B := by
  rcases Nat.lt_or_ge i rc.length with hi | hi
  · rw [List.getD_eq_getElem _ _ hi]
    exact h _ (List.getElem_mem _)
  · rw [List.getD_eq_default _ _ hi]
    exact hB

theorem hot_loop_le (rc : List Nat) :
    ∀ (fuel : Nat) (m q : Int), hot_loop rc fuel m q ≤ m := by
  intro fuel
  induction fuel with
  | zero => intro m q; simp [hot_loop]
  | succ k ih =>
    intro m q
    simp only [hot_loop]
    split_ifs with h1 h2
    · exact le_refl _
    · have := ih (m - 1) (to_long (q - ↑(rc.getD m.toNat 0)))
      omega
    · exact le_refl _

theorem hot_loop_ge (rc : List Nat) :
    ∀ (fuel : Nat) (m q : Int), 1 ≤ m → 1 ≤ hot_loop rc fuel m q := by
  intro fuel
  induction fuel with
  | zero => intro m q h; simpa [hot_loop] using h
  | succ k ih =>
    intro m q h
    simp only [hot_loop]
    split_ifs with h1 h2
    · exact h
    · exact ih _ _ (by omega)
    · exact h

theorem hot_loop_of_le_one (rc : List Nat) (fuel : Nat) (m q : Int) (h : m ≤ 1) :
    hot_loop rc fuel m q = m := by
  cases fuel with
  | zero => simp [hot_loop]
  | succ k => simp [hot_loop, not_lt.mpr h]

/-- The iteration bound of `hot_loop` is never what stops it: any two bounds of at least
`min_refs - 1` give the same result. -/
theorem hot_loop_fuel (rc : List Nat) :
    ∀ (f g : Nat) (m q : Int), m - 1 ≤ f → m - 1 ≤ g →
      hot_loop rc f m q = hot_loop rc g m q := by
  intro f
  induction f with
  | zero =>
    intro g m q hf _
    rw [hot_loop_of_le_one rc 0 m q (by omega), hot_loop_of_le_one rc g m q (by omega)]
  | succ k ih =>
    intro g m q hf hg
    cases g with
    | zero =>
      rw [hot_loop_of_le_one rc (k + 1) m q (by omega), hot_loop_of_le_one rc 0 m q (by omega)]
    | succ j =>
      simp only [hot_loop]
      split_ifs with h1 h2
      · rfl
      · exact ih j _ _ (by omega) (by omega)
      · rfl

theorem cold_loop_ge (rc : List Nat) (limit : Int) :
    ∀ (fuel : Nat) (m q : Int), m ≤ cold_loop rc limit fuel m q := by
  intro fuel
  induction fuel with
  | zero => intro m q; simp [cold_loop]
  | succ k ih =>
    intro m q
    simp only [cold_loop]
    split_ifs with h1 h2
    · exact le_refl _
    · have := ih (m + 1) (to_long (q - ↑(rc.getD m.toNat 0)))
      omega
    · exact le_refl _

theorem cold_loop_le (rc : List Nat) (limit : Int) :
    ∀ (fuel : Nat) (m q : Int), cold_loop rc limit fuel m q ≤ max m limit := by
  intro fuel
  induction fuel with
  | zero => intro m q; simp [cold_loop]
  | succ k ih =>
    intro m q
    simp only [cold_loop]
    split_ifs with h1 h2
    · exact le_max_left _ _
    · have := ih (m + 1) (to_long (q - ↑(rc.getD m.toNat 0)))
      have h3 : max (m + 1) limit = limit := max_eq_right (by omega)
      rw [h3] at this
      exact le_trans this (le_max_right _ _)
    · exact le_max_left _ _

theorem cold_loop_of_ge (rc : List Nat) (limit : Int) (fuel : Nat) (m q : Int) (h : limit ≤ m) :
    cold_loop rc limit fuel m q = m := by
  cases fuel with
  | zero => simp [cold_loop]
  | succ k => simp [cold_loop, not_lt.mpr h]

/-- The iteration bound of `cold_loop` is never what stops it. -/
theorem cold_loop_fuel (rc : List Nat) (limit : Int) :
    ∀ (f g : Nat) (m q : Int), limit - m ≤ f → limit - m ≤ g →
      cold_loop rc limit f m q = cold_loop rc limit g m q := by
  intro f
  induction f with
  | zero =>
    intro g m q hf _
    rw [cold_loop_of_ge rc limit 0 m q (by omega), cold_loop_of_ge rc limit g m q (by omega)]
  | succ k ih =>
    intro g m q hf hg
    cases g with
    | zero =>
      rw [cold_loop_of_ge rc limit (k + 1) m q (by omega),
        cold_loop_of_ge rc limit 0 m q (by omega)]
    | succ j =>
      simp only [cold_loop]
      split_ifs with h1 h2
      · rfl
      · exact ih j _ _ (by omega) (by omega)
      · rfl

/-- With counts and quota below `2 ^ 63` no subtraction wraps, and a larger quota lets the
downward scan go at least as far. -/
theorem hot_loop_anti (rc : List Nat) (hrc : ∀ c ∈ rc, c < 2 ^ 63) :
    ∀ (fuel : Nat) (m q₁ q₂ : Int), 0 ≤ q₁ → q₁ ≤ q₂ → q₂ < 2 ^ 63 →
      hot_loop rc fuel m q₂ ≤ hot_loop rc fuel m q₁ := by
  intro fuel
  induction fuel with
  | zero => intro m q₁ q₂ _ _ _; simp [hot_loop]
  | succ k ih =>
    intro m q₁ q₂ h0 h12 h2
    have hc : rc.getD m.toNat 0 < 2 ^ 63 := getD_lt_of_forall (by norm_num) hrc _
    have e1 : to_long (q₁ - ↑(rc.getD m.toNat 0)) = q₁ - ↑(rc.getD m.toNat 0) :=
      to_long_eq (by omega) (by omega)
    have e2 : to_long (q₂ - ↑(rc.getD m.toNat 0)) = q₂ - ↑(rc.getD m.toNat 0) :=
      to_long_eq (by omega) (by omega)
    simp only [hot_loop, e1, e2]
    split_ifs with h1 h3 h4 h4
    · exact le_refl _
    · omega
    · have := hot_loop_le rc k (m - 1) (q₂ - ↑(rc.getD m.toNat 0))
      omega
    · exact ih _ _ _ (by omega) (by omega) (by omega)
    · exact le_refl _

/-- With counts and quota below `2 ^ 63`, a larger quota lets the upward scan go at least as
far. -/
theorem cold_loop_mono (rc : List Nat) (limit : Int) (hrc : ∀ c ∈ rc, c < 2 ^ 63) :
    ∀ (fuel : Nat) (m q₁ q₂ : Int), 0 ≤ q₁ → q₁ ≤ q₂ → q₂ < 2 ^ 63 →
      cold_loop rc limit fuel m q₁ ≤ cold_loop rc limit fuel m q₂ := by
  intro fuel
  induction fuel with
  | zero => intro m q₁ q₂ _ _ _; simp [cold_loop]
  | succ k ih =>
    intro m q₁ q₂ h0 h12 h2
    have hc : rc.getD m.toNat 0 < 2 ^ 63 := getD_lt_of_forall (by norm_num) hrc _
    have e1 : to_long (q₁ - ↑(rc.getD m.toNat 0)) = q₁ - ↑(rc.getD m.toNat 0) :=
      to_long_eq (by omega) (by omega)
    have e2 : to_long (q₂ - ↑(rc.getD m.toNat 0)) = q₂ - ↑(rc.getD m.toNat 0) :=
      to_long_eq (by omega) (by omega)
    simp only [cold_loop, e1, e2]
    split_ifs with h1 h3 h4 h4
    · exact le_refl _
    · have := cold_loop_ge rc limit k (m + 1) (q₂ - ↑(rc.getD m.toNat 0))
      omega
    · omega
    · exact ih _ _ _ (by omega) (by omega) (by omega)
    · exact le_refl _

theorem cum_succ_left (rc : List Nat) {a b : Nat} (h : a ≤ b) :
    cum rc a b = rc.getD a 0 + cum rc (a + 1) b := by
  unfold cum
  rw [← Nat.Icc_insert_succ_left h, Finset.sum_insert (by simp)]

theorem cum_of_lt (rc : List Nat) {a b : Nat} (h : b < a) : cum rc a b = 0 := by
  unfold cum
  rw [Finset.Icc_eq_empty (by omega)]
  rfl

/-- What the downward scan computes, when no subtraction wraps: started at `m` with the quota
that is left after the buckets above `m`, none of which reached `portion`, it stops at the
largest index in `[2, m]` whose cumulative count reaches `portion`, or else at 1. -/
theorem hot_loop_spec (rc : List Nat) (hrc : ∀ c ∈ rc, c < 2 ^ 63) (N : Nat) (q0 : Int)
    (h0 : 0 ≤ q0) (h63 : q0 < 2 ^ 63) :
    ∀ (fuel m : Nat), m ≤ N → m ≤ fuel + 1 →
      (∀ j, m < j → j ≤ N → (cum rc j N : Int) < q0) →
      ∃ k : Nat, hot_loop rc fuel m (q0 - cum rc (m + 1) N) = k ∧ k ≤ m ∧ (1 ≤ m → 1 ≤ k) ∧
        (∀ j, k < j → j ≤ N → (cum rc j N : Int) < q0) ∧ (2 ≤ k → q0 ≤ cum rc k N) := by
  intro fuel
  induction fuel with
  | zero =>
    intro m _ hf hinv
    exact ⟨m, by simp [hot_loop], le_refl _, fun h => h, hinv, fun h => by omega⟩
  | succ f ih =>
    intro m hN hf hinv
    have hc : rc.getD m 0 < 2 ^ 63 := getD_lt_of_forall (by norm_num) hrc _
    have hq : (0 : Int) ≤ q0 - cum rc (m + 1) N := by
      rcases Nat.lt_or_ge m N with h | h
      · have := hinv (m + 1) (by omega) (by omega)
        omega
      · rw [cum_of_lt rc (by omega : N < m + 1)]
        simpa using h0
    have hcum : (cum rc m N : Int) = rc.getD m 0 + cum rc (m + 1) N := by
      rw [cum_succ_left rc hN]; push_cast; rfl
    have e : to_long (q0 - ↑(cum rc (m + 1) N) - ↑(rc.getD m 0)) = q0 - cum rc m N := by
      rw [to_long_eq (by omega) (by omega)]
      omega
    simp only [hot_loop, Int.toNat_ofNat, e]
    split_ifs with h1 h2
    · exact ⟨m, rfl, le_refl _, fun h => h, hinv, fun _ => by omega⟩
    · have hm : 2 ≤ m := by omega
      have hinv' : ∀ j, m - 1 < j → j ≤ N → (cum rc j N : Int) < q0 := by
        intro j hj hjN
        rcases Nat.eq_or_lt_of_le (by omega : m ≤ j) with h | h
        · rw [← h]; omega
        · exact hinv j h hjN
      obtain ⟨k, hk1, hk2, hk3, hk4, hk5⟩ := ih (m - 1) (by omega) (by omega) hinv'
      have e1 : ((m : Int) - 1) = ((m - 1 : Nat) : Int) := by omega
      have e2 : m - 1 + 1 = m := by omega
      rw [e2] at hk1
      rw [e1, hk1]
      exact ⟨k, rfl, by omega, fun _ => hk3 (by omega), hk4, hk5⟩
    · exact ⟨m, rfl, le_refl _, fun h => h, hinv, fun h => by omega⟩

theorem fl_fifty : fl 50 = 50 := by
  simpa using fl_natCast 50 (by norm_num)

theorem fl_hundred : fl 100 = 100 := by
  simpa using fl_natCast 100 (by norm_num)

theorem fl_one : fl 1 = 1 := by
  simpa using fl_natCast 1 (by norm_num)

theorem to_size_t_natCast (n : ℕ) (h : n < 2 ^ 64) : to_size_t (n : ℚ) = n := by
  unfold to_size_t
  rw [Nat.floor_natCast]
  exact Nat.mod_eq_of_lt h

/-- The portion of the worked example: 1000 pages at `dram_percent` 50 on the DRAM side. -/
theorem portion_example (option : Options) (vmstat : ProcVmstat) (m : Migration)
    (type : ProcIdlePageType) (hp : option.dram_percent = 50)
    (ht : m.migrate_target_node type = option.DRAM_NUMA_NODE)
    (hs : (m.pagetype_refs type).page_refs.size = 1000) :
    portion option vmstat m type = 500 := by
  have h1 : fl (50 / 100) = 1 / 2 := by
    have : (50 : ℚ) / 100 = 1 / 2 := by norm_num
    rw [this, fl_half]
  have h2 : fl (1000 : ℚ) = 1000 := by simpa using fl_natCast 1000 (by norm_num)
  have h3 : fl (500 : ℚ) = 500 := by simpa using fl_natCast 500 (by norm_num)
  have h4 : to_size_t (500 : ℚ) = 500 := by simpa using to_size_t_natCast 500 (by norm_num)
  have h5 : (1000 : ℚ) * (1 / 2) = 500 := by norm_num
  simp only [portion, ratio, hp, ht, hs]
  norm_num [fl_fifty, fl_half, h1, h2, h3, h4, h5]

/-! ## Claims on `get_threshold_refs` -/

/-- C1: for an accessed class on the capacity path (`option.nr_walks != 0`,
`hot_min_refs <= 0`, `nr_walks >= 1`) with `quota = portion` (the portion fits a `long`, and
so does every bucket), `get_threshold_refs` returns `max_refs = nr_walks` and the `min_refs`
of the downward scan with the `+1` correction: with `k` the largest index in `[2, nr_walks]`
whose cumulative count `refs_count[k] + ... + refs_count[nr_walks]` reaches `portion` (`k = 1`
if there is none), `min_refs` is `nr_walks` if `k = nr_walks` and `k + 1` otherwise.  In
particular 1000 pages with `refs_count = [100,100,100,100,100,100,100,200,100]`,
`nr_walks = 8` and `dram_percent = 50` give `(6, 8, 500)`. -/
theorem get_threshold_refs_accessed_scan (option : Options) (vmstat : ProcVmstat)
    (m : Migration) (type : ProcIdlePageType) :
    (accessed type = true → option.nr_walks ≠ 0 → option.hot_min_refs ≤ 0 → 1 ≤ m.nr_walks →
      portion option vmstat m type < 2 ^ 63 →
      (∀ c ∈ (m.pagetype_refs type).refs_count, c < 2 ^ 63) →
      ∃ k : Nat,
        is_scan_index (m.pagetype_refs type).refs_count m.nr_walks.toNat
          (portion option vmstat m type) k ∧
        get_threshold_refs option vmstat m type =
          (if (k : Int) = m.nr_walks then m.nr_walks else (k : Int) + 1, m.nr_walks,
            portion option vmstat m type)) ∧
    (accessed type = true → option.nr_walks ≠ 0 → option.hot_min_refs ≤ 0 →
      option.dram_percent = 50 → m.migrate_target_node type = option.DRAM_NUMA_NODE →
      m.nr_walks = 8 → (m.pagetype_refs type).page_refs.size = 1000 →
      (m.pagetype_refs type).refs_count = [100, 100, 100, 100, 100, 100, 100, 200, 100] →
      get_threshold_refs option vmstat m type = (6, 8, 500)) := by
  constructor
  · intro ha hn hh hN hp hrc
    have hq : to_long (portion option vmstat m type) = portion option vmstat m type :=
      to_long_eq (by omega) (by exact_mod_cast hp)
    have hNat : ((m.nr_walks.toNat : Nat) : Int) = m.nr_walks := Int.toNat_of_nonneg (by omega)
    obtain ⟨k, hk1, hk2, hk3, hk4, hk5⟩ :=
      hot_loop_spec (m.pagetype_refs type).refs_count hrc m.nr_walks.toNat
        (portion option vmstat m type) (by omega) (by exact_mod_cast hp)
        m.nr_walks.toNat m.nr_walks.toNat (le_refl _) (by omega)
        (fun j h1 h2 => by omega)
    rw [cum_of_lt _ (by omega : m.nr_walks.toNat < m.nr_walks.toNat + 1)] at hk1
    simp only [Nat.cast_zero, sub_zero, hNat] at hk1
    refine ⟨k, ?_, ?_⟩
    · rcases Nat.lt_or_ge k 2 with h | h
      · right
        have hk : 1 ≤ k := hk3 (by omega)
        refine ⟨by omega, fun j hj hjN => ?_⟩
        exact_mod_cast hk4 j (by omega) hjN
      · left
        refine ⟨h, hk2, ?_, fun j hj hjN => ?_⟩
        · exact_mod_cast hk5 h
        · exact_mod_cast hk4 j hj hjN
    · have hkN : (k : Int) ≤ m.nr_walks := by omega
      simp only [get_threshold_refs, ha, hn, hq, hk1]
      have hh' : ¬ (0 < option.hot_min_refs) := by omega
      simp only [hh', and_false, and_true, if_false, true_and, not_true_eq_false, false_and,
        if_true]
      by_cases hk : (k : Int) = m.nr_walks
      · simp [hk]
      · have : (k : Int) < m.nr_walks := lt_of_le_of_ne hkN hk
        simp [hk, this]
  · intro ha hn hh hp ht hN hs hrc
    have hh' : ¬ (0 < option.hot_min_refs) := by omega
    have hl : hot_loop [100, 100, 100, 100, 100, 100, 100, 200, 100] 8 8 (to_long 500) = 5 := by
      decide
    simp only [get_threshold_refs, ha, hn, hh', portion_example option vmstat m type hp ht hs,
      hN, hrc]
    simp [hl]

/-- An instance of C1: the worked example satisfies the conditions of both parts. -/
theorem get_threshold_refs_accessed_scan_witness :
    (∃ k : Nat,
      is_scan_index ex_refs_1000.refs_count 8
        (portion ex_option ex_vmstat (Migration.new ex_option 1 8 fun _ => ex_refs_1000)
          PTE_ACCESSED) k ∧
      get_threshold_refs ex_option ex_vmstat (Migration.new ex_option 1 8 fun _ => ex_refs_1000)
          PTE_ACCESSED =
        (if (k : Int) = 8 then (8 : Int) else (k : Int) + 1, (8 : Int),
          portion ex_option ex_vmstat (Migration.new ex_option 1 8 fun _ => ex_refs_1000)
            PTE_ACCESSED)) ∧
    get_threshold_refs ex_option ex_vmstat (Migration.new ex_option 1 8 fun _ => ex_refs_1000)
      PTE_ACCESSED = (6, 8, 500) := by
  have hs : ((Migration.new ex_option 1 8 fun _ => ex_refs_1000).pagetype_refs
      PTE_ACCESSED).page_refs.size = 1000 := by
    simp [Migration.new, ex_refs_1000, AddrSequence.size]
  have hp : portion ex_option ex_vmstat (Migration.new ex_option 1 8 fun _ => ex_refs_1000)
      PTE_ACCESSED < 2 ^ 63 := by
    rw [portion_example _ _ _ _ rfl rfl hs]
    norm_num
  exact ⟨(get_threshold_refs_accessed_scan ex_option ex_vmstat
      (Migration.new ex_option 1 8 fun _ => ex_refs_1000) PTE_ACCESSED).1 rfl (by decide)
      (by decide) (by decide) hp (by decide),
    (get_threshold_refs_accessed_scan ex_option ex_vmstat
      (Migration.new ex_option 1 8 fun _ => ex_refs_1000) PTE_ACCESSED).2 rfl (by decide)
      (by decide) rfl rfl rfl hs rfl⟩

/-- C2: forced bounds override the capacity path, for every histogram and every
`dram_percent`: an idle class with `cold_max_refs >= 0` gets `(0, cold_max_refs, 0)`, and an
accessed class with `hot_min_refs > 0` and `option.nr_walks != 0` gets
`(hot_min_refs, nr_walks, 0)`. -/
theorem get_threshold_refs_forced (option : Options) (vmstat : ProcVmstat) (m : Migration)
    (type : ProcIdlePageType) :
    (accessed type = false → 0 ≤ option.cold_max_refs →
      get_threshold_refs option vmstat m type = (0, option.cold_max_refs, 0)) ∧
    (accessed type = true → 0 < option.hot_min_refs → option.nr_walks ≠ 0 →
      get_threshold_refs option vmstat m type = (option.hot_min_refs, m.nr_walks, 0)) := by
  constructor
  · intro ha hc
    simp [get_threshold_refs, ha, hc]
  · intro ha hh hn
    simp [get_threshold_refs, ha, hh, hn]

/-- An instance of C2: `cold_max_refs = 0` on an idle class gives `(0, 0, 0)`, and
`hot_min_refs = 5` on an accessed class gives `(5, 8, 0)`. -/
theorem get_threshold_refs_forced_witness :
    get_threshold_refs { ex_option with cold_max_refs := 0 } ex_vmstat
        (Migration.new ex_option 1 8 fun _ => ex_refs_hot) PTE_IDLE = (0, 0, 0) ∧
    get_threshold_refs { ex_option with hot_min_refs := 5 } ex_vmstat
        (Migration.new ex_option 1 8 fun _ => ex_refs_hot) PMD_ACCESSED = (5, 8, 0) :=
  ⟨(get_threshold_refs_forced _ _ _ _).1 rfl (by decide),
    (get_threshold_refs_forced _ _ _ _).2 rfl (by decide) (by decide)⟩

/-- C3 as stated fails: with `nr_walks = 8` the override `hot_min_refs = 9` is returned as it
is, so `min_refs = 9 > max_refs = 8`. -/
theorem get_threshold_refs_band_counterexample :
    get_threshold_refs { ex_option with hot_min_refs := 9 } ex_vmstat
        (Migration.new ex_option 1 8 fun _ => ex_refs_hot) PTE_ACCESSED = (9, 8, 0) ∧
    ¬ ((get_threshold_refs { ex_option with hot_min_refs := 9 } ex_vmstat
          (Migration.new ex_option 1 8 fun _ => ex_refs_hot) PTE_ACCESSED).1 ≤
        (get_threshold_refs { ex_option with hot_min_refs := 9 } ex_vmstat
          (Migration.new ex_option 1 8 fun _ => ex_refs_hot) PTE_ACCESSED).2.1) := by
  decide

/-- C3, amended: for every class, configuration and histogram with `nr_walks >= 0` (so for
every `nr_walks` in `[1, 255]`), if the forced bound of the class does not exceed `nr_walks`
(`hot_min_refs <= nr_walks` for an accessed class, `cold_max_refs <= nr_walks` for an idle
class; both hold on the capacity path), then `0 <= min_refs <= max_refs <= nr_walks`. -/
theorem get_threshold_refs_band (option : Options) (vmstat : ProcVmstat) (m : Migration)
    (type : ProcIdlePageType) (h0 : 0 ≤ m.nr_walks)
    (hhot : accessed type = true → option.hot_min_refs ≤ m.nr_walks)
    (hcold : accessed type = false → option.cold_max_refs ≤ m.nr_walks) :
    0 ≤ (get_threshold_refs option vmstat m type).1 ∧
    (get_threshold_refs option vmstat m type).1 ≤ (get_threshold_refs option vmstat m type).2.1 ∧
    (get_threshold_refs option vmstat m type).2.1 ≤ m.nr_walks := by
  have hle := hot_loop_le (m.pagetype_refs type).refs_count m.nr_walks.toNat m.nr_walks
    (to_long (portion option vmstat m type))
  have hge : 0 ≤ hot_loop (m.pagetype_refs type).refs_count m.nr_walks.toNat m.nr_walks
      (to_long (portion option vmstat m type)) := by
    rcases lt_or_ge m.nr_walks 1 with h | h
    · rw [hot_loop_of_le_one _ _ _ _ (by omega)]
      exact h0
    · have := hot_loop_ge (m.pagetype_refs type).refs_count m.nr_walks.toNat m.nr_walks
        (to_long (portion option vmstat m type)) h
      omega
  have hlim : Int.tdiv m.nr_walks 2 = m.nr_walks / 2 := Int.tdiv_eq_ediv h0 (by decide)
  have hcge := cold_loop_ge (m.pagetype_refs type).refs_count (Int.tdiv m.nr_walks 2)
    (Int.tdiv m.nr_walks 2).toNat 0 (to_long (portion option vmstat m type))
  have hcle := cold_loop_le (m.pagetype_refs type).refs_count (Int.tdiv m.nr_walks 2)
    (Int.tdiv m.nr_walks 2).toNat 0 (to_long (portion option vmstat m type))
  have hmax : max 0 (Int.tdiv m.nr_walks 2) = m.nr_walks / 2 := by
    rw [hlim]; exact max_eq_right (by omega)
  rw [hmax] at hcle
  unfold get_threshold_refs
  simp only
  split_ifs with h1 h2 h3 h4 h5 <;> dsimp only
  · exact ⟨h0, le_refl _, le_refl _⟩
  · exact ⟨le_of_lt h2.2, hhot h2.1, le_refl _⟩
  · exact ⟨le_refl _, h3.2, hcold (by simpa using h3.1)⟩
  · exact ⟨by omega, by omega, le_refl _⟩
  · exact ⟨hge, hle, le_refl _⟩
  · simp only [Int.shiftRight_eq_div_pow]
    refine ⟨le_refl _, ?_, ?_⟩
    · exact Int.ediv_nonneg hcge (by norm_num)
    · have h2 : ((2 ^ 1 : Nat) : Int) = 2 := by norm_num
      rw [h2]
      omega

/-- An instance of C3 amended, on the capacity path of an accessed class. -/
theorem get_threshold_refs_band_witness :
    0 ≤ (get_threshold_refs ex_option ex_vmstat
        (Migration.new ex_option 1 8 fun _ => ex_refs_hot) PTE_ACCESSED).1 ∧
    (get_threshold_refs ex_option ex_vmstat
        (Migration.new ex_option 1 8 fun _ => ex_refs_hot) PTE_ACCESSED).1 ≤
      (get_threshold_refs ex_option ex_vmstat
        (Migration.new ex_option 1 8 fun _ => ex_refs_hot) PTE_ACCESSED).2.1 ∧
    (get_threshold_refs ex_option ex_vmstat
        (Migration.new ex_option 1 8 fun _ => ex_refs_hot) PTE_ACCESSED).2.1 ≤ 8 :=
  get_threshold_refs_band ex_option ex_vmstat (Migration.new ex_option 1 8 fun _ => ex_refs_hot)
    PTE_ACCESSED (by decide) (fun _ => by decide) (fun h => by simp [accessed] at h)

/-! ## Claims on `select_top_pages` -/

theorem select_loop_eq (min_refs max_refs : Int) :
    ∀ (l : List (Nat × Nat)) (pages : List Nat),
      select_loop min_refs max_refs l pages =
        pages ++ (l.filter (in_band min_refs max_refs)).map Prod.fst := by
  intro l
  induction l with
  | nil => intro pages; simp [select_loop]
  | cons p rest ih =>
    intro pages
    obtain ⟨addr, ref_count⟩ := p
    by_cases h : min_refs ≤ (ref_count : Int) ∧ (ref_count : Int) ≤ max_refs
    · have hb : in_band min_refs max_refs (addr, ref_count) = true := by simp [in_band, h]
      simp [select_loop, h, ih, List.filter_cons, hb]
    · have hb : in_band min_refs max_refs (addr, ref_count) = false := by simp [in_band, h]
      simp only [select_loop, h, if_false, ih, List.filter_cons, hb]
      simp

theorem sort_perm (l : List Nat) : (sort l).Perm l :=
  List.perm_insertionSort _ l

theorem sort_sorted (l : List Nat) : (sort l).Sorted (fun a b => a ≤ b) :=
  List.sorted_insertionSort _ l

/-- Lines 150-169 leave in the vector its former content and the in-band addresses, in some
order. -/
theorem select_band_perm (min_refs max_refs : Int) (page_refs : AddrSequence)
    (pages : List Nat) :
    (select_band min_refs max_refs page_refs pages).2.Perm
      (pages ++ (page_refs.entries.filter (in_band min_refs max_refs)).map Prod.fst) := by
  unfold select_band
  simp only [select_loop_eq]
  split_ifs with h
  · exact List.Perm.refl _
  · exact sort_perm _

theorem select_band_fst (min_refs max_refs : Int) (page_refs : AddrSequence)
    (pages : List Nat) :
    (select_band min_refs max_refs page_refs pages).1 =
      if pages ++ (page_refs.entries.filter (in_band min_refs max_refs)).map Prod.fst = []
      then 1 else 0 := by
  unfold select_band
  simp only [select_loop_eq, List.isEmpty_iff]
  split_ifs <;> rfl

/-- Lines 150-169 leave the vector sorted: its former content followed by the in-band
addresses, put in ascending order. -/
theorem select_band_snd (min_refs max_refs : Int) (page_refs : AddrSequence)
    (pages : List Nat) :
    (select_band min_refs max_refs page_refs pages).2 =
      sort (pages ++ (page_refs.entries.filter (in_band min_refs max_refs)).map Prod.fst) := by
  unfold select_band
  simp only [select_loop_eq]
  split_ifs with h
  · rw [List.isEmpty_iff] at h
    rw [h]
    rfl
  · rfl

/-- The thresholds do not depend on the address vectors or the status vector. -/
theorem get_threshold_refs_congr (option : Options) (vmstat : ProcVmstat) (m m' : Migration)
    (type : ProcIdlePageType) (h1 : m'.nr_walks = m.nr_walks)
    (h2 : m'.pagetype_refs = m.pagetype_refs)
    (h3 : m'.migrate_target_node = m.migrate_target_node) :
    get_threshold_refs option vmstat m' type = get_threshold_refs option vmstat m type := by
  simp only [get_threshold_refs, portion, ratio, h1, h2, h3]

theorem select_top_pages_pages (option : Options) (vmstat : ProcVmstat) (m : Migration)
    (type : ProcIdlePageType) :
    (select_top_pages option vmstat m type).2.pages_addr type =
      if (m.pagetype_refs type).page_refs.empty then m.pages_addr type
      else (select_band (get_threshold_refs option vmstat m type).1
        (get_threshold_refs option vmstat m type).2.1 (m.pagetype_refs type).page_refs
        (m.pages_addr type)).2 := by
  unfold select_top_pages
  simp only
  split_ifs with h
  · rfl
  · simp

theorem select_top_pages_perm (option : Options) (vmstat : ProcVmstat) (m : Migration)
    (type : ProcIdlePageType) :
    ((select_top_pages option vmstat m type).2.pages_addr type).Perm
      (m.pages_addr type ++
        ((m.pagetype_refs type).page_refs.entries.filter
          (in_band (get_threshold_refs option vmstat m type).1
            (get_threshold_refs option vmstat m type).2.1)).map Prod.fst) := by
  rw [select_top_pages_pages]
  split_ifs with h
  · have : (m.pagetype_refs type).page_refs.entries = [] := by
      simpa [AddrSequence.empty, List.isEmpty_iff] using h
    simp [this]
  · exact select_band_perm _ _ _ _

/-- From an empty vector, `select_top_pages` leaves the in-band addresses in ascending
order. -/
theorem select_top_pages_of_empty (option : Options) (vmstat : ProcVmstat) (m : Migration)
    (type : ProcIdlePageType) (hempty : m.pages_addr type = []) :
    (select_top_pages option vmstat m type).2.pages_addr type =
      sort (((m.pagetype_refs type).page_refs.entries.filter
        (in_band (get_threshold_refs option vmstat m type).1
          (get_threshold_refs option vmstat m type).2.1)).map Prod.fst) := by
  rw [select_top_pages_pages]
  split_ifs with h
  · have : (m.pagetype_refs type).page_refs.entries = [] := by
      simpa [AddrSequence.empty, List.isEmpty_iff] using h
    rw [hempty, this]
    rfl
  · rw [select_band_snd, hempty, List.nil_append]

/-- C4 as stated fails: the cursor yields the pair `(4096, 8)`, which lies in the band
`(8, 8)`; the address pushed is the cursor value `4096`, not `4096 << PAGE_SHIFT`. -/
theorem select_top_pages_emits_counterexample :
    get_threshold_refs { ex_option with hot_min_refs := 8 } ex_vmstat
        (Migration.new ex_option 1 8 fun _ => ex_refs_one) PTE_ACCESSED = (8, 8, 0) ∧
    (select_top_pages { ex_option with hot_min_refs := 8 } ex_vmstat
        (Migration.new ex_option 1 8 fun _ => ex_refs_one) PTE_ACCESSED).2.pages_addr
        PTE_ACCESSED = [4096] ∧
    (select_top_pages { ex_option with hot_min_refs := 8 } ex_vmstat
        (Migration.new ex_option 1 8 fun _ => ex_refs_one) PTE_ACCESSED).2.pages_addr
        PTE_ACCESSED ≠
      (ex_refs_one.page_refs.entries.filter (in_band 8 8)).map (fun p => p.1 <<< PAGE_SHIFT) := by
  decide

/-- C4, amended: for every class and histogram, starting from an empty address vector,
`select_top_pages` leaves in `pages_addr[type]` exactly one address for each histogram pair
`(addr, count)` with `min_refs <= count <= max_refs` and none for any other pair, and each
address is the value `addr` the cursor yields, as it is (no shift is applied); the vector is
these addresses in ascending order. -/
theorem select_top_pages_emits (option : Options) (vmstat : ProcVmstat) (m : Migration)
    (type : ProcIdlePageType) (hempty : m.pages_addr type = []) :
    ((select_top_pages option vmstat m type).2.pages_addr type).Perm
        (((m.pagetype_refs type).page_refs.entries.filter
          (in_band (get_threshold_refs option vmstat m type).1
            (get_threshold_refs option vmstat m type).2.1)).map Prod.fst) ∧
    (select_top_pages option vmstat m type).2.pages_addr type =
      sort (((m.pagetype_refs type).page_refs.entries.filter
        (in_band (get_threshold_refs option vmstat m type).1
          (get_threshold_refs option vmstat m type).2.1)).map Prod.fst) := by
  constructor
  · have := select_top_pages_perm option vmstat m type
    rwa [hempty, List.nil_append] at this
  · exact select_top_pages_of_empty option vmstat m type hempty

/-- An instance of C4 amended: a fresh object over the three-page histogram. -/
theorem select_top_pages_emits_witness :
    ((select_top_pages ex_option ex_vmstat (Migration.new ex_option 1 8 fun _ => ex_refs_hot)
        PTE_ACCESSED).2.pages_addr PTE_ACCESSED).Perm
      ((ex_refs_hot.page_refs.entries.filter
        (in_band
          (get_threshold_refs ex_option ex_vmstat
            (Migration.new ex_option 1 8 fun _ => ex_refs_hot) PTE_ACCESSED).1
          (get_threshold_refs ex_option ex_vmstat
            (Migration.new ex_option 1 8 fun _ => ex_refs_hot) PTE_ACCESSED).2.1)).map
        Prod.fst) ∧
    (select_top_pages ex_option ex_vmstat (Migration.new ex_option 1 8 fun _ => ex_refs_hot)
        PTE_ACCESSED).2.pages_addr PTE_ACCESSED =
      sort ((ex_refs_hot.page_refs.entries.filter
        (in_band
          (get_threshold_refs ex_option ex_vmstat
            (Migration.new ex_option 1 8 fun _ => ex_refs_hot) PTE_ACCESSED).1
          (get_threshold_refs ex_option ex_vmstat
            (Migration.new ex_option 1 8 fun _ => ex_refs_hot) PTE_ACCESSED).2.1)).map
        Prod.fst) :=
  select_top_pages_emits ex_option ex_vmstat (Migration.new ex_option 1 8 fun _ => ex_refs_hot)
    PTE_ACCESSED rfl

/-- C5 as stated fails: the histogram has the single address 4096, the vector holds `[4096]`
before the call, and the call leaves `[4096, 4096]`, which is not strictly ascending. -/
theorem select_top_pages_sorted_counterexample :
    (ex_refs_one.page_refs.entries.map Prod.fst).Nodup ∧
    (select_top_pages { ex_option with hot_min_refs := 8 } ex_vmstat
        { Migration.new ex_option 1 8 fun _ => ex_refs_one with pages_addr := fun _ => [4096] }
        PTE_ACCESSED).2.pages_addr PTE_ACCESSED = [4096, 4096] ∧
    ¬ ((select_top_pages { ex_option with hot_min_refs := 8 } ex_vmstat
        { Migration.new ex_option 1 8 fun _ => ex_refs_one with pages_addr := fun _ => [4096] }
        PTE_ACCESSED).2.pages_addr PTE_ACCESSED).Sorted (fun a b => a < b) := by
  decide

/-- C5, amended: for every class and every histogram with unique page addresses, the vector
`pages_addr[type]` left by `select_top_pages` is strictly ascending when the vector was empty
before the call; whatever it held before, it is left in ascending order (repeats allowed)
when the histogram is not empty. -/
theorem select_top_pages_sorted (option : Options) (vmstat : ProcVmstat) (m : Migration)
    (type : ProcIdlePageType)
    (hnodup : ((m.pagetype_refs type).page_refs.entries.map Prod.fst).Nodup) :
    (m.pages_addr type = [] →
      ((select_top_pages option vmstat m type).2.pages_addr type).Sorted (fun a b => a < b)) ∧
    ((m.pagetype_refs type).page_refs.empty = false →
      ((select_top_pages option vmstat m type).2.pages_addr type).Sorted (fun a b => a ≤ b)) := by
  constructor
  · intro hempty
    have heq := select_top_pages_of_empty option vmstat m type hempty
    have hperm := select_top_pages_perm option vmstat m type
    rw [hempty, List.nil_append] at hperm
    have hsub : (((m.pagetype_refs type).page_refs.entries.filter
          (in_band (get_threshold_refs option vmstat m type).1
            (get_threshold_refs option vmstat m type).2.1)).map Prod.fst).Nodup :=
      hnodup.sublist (List.Sublist.map _ (List.filter_sublist _))
    have hnd : ((select_top_pages option vmstat m type).2.pages_addr type).Nodup :=
      hperm.nodup_iff.mpr hsub
    have hs : ((select_top_pages option vmstat m type).2.pages_addr type).Sorted
        (fun a b => a ≤ b) := by
      rw [heq]; exact sort_sorted _
    exact hs.lt_of_le hnd
  · intro hne
    rw [select_top_pages_pages, hne]
    simp only [Bool.false_eq_true, if_false]
    rw [select_band_snd]
    exact sort_sorted _

/-- An instance of C5 amended: a fresh object over the three-page histogram. -/
theorem select_top_pages_sorted_witness :
    ((ex_refs_hot.page_refs.entries.map Prod.fst).Nodup ∧
      (Migration.new ex_option 1 8 fun _ => ex_refs_hot).pages_addr PTE_ACCESSED = [] ∧
      ex_refs_hot.page_refs.empty = false) ∧
    ((select_top_pages ex_option ex_vmstat (Migration.new ex_option 1 8 fun _ => ex_refs_hot)
        PTE_ACCESSED).2.pages_addr PTE_ACCESSED).Sorted (fun a b => a < b) ∧
    ((select_top_pages ex_option ex_vmstat (Migration.new ex_option 1 8 fun _ => ex_refs_hot)
        PTE_ACCESSED).2.pages_addr PTE_ACCESSED).Sorted (fun a b => a ≤ b) :=
  ⟨⟨by decide, rfl, rfl⟩,
    (select_top_pages_sorted ex_option ex_vmstat
      (Migration.new ex_option 1 8 fun _ => ex_refs_hot) PTE_ACCESSED (by decide)).1 rfl,
    (select_top_pages_sorted ex_option ex_vmstat
      (Migration.new ex_option 1 8 fun _ => ex_refs_hot) PTE_ACCESSED (by decide)).2 rfl⟩

/-- C6 as stated fails: on a fresh object whose histogram holds the single address 4096, the
first call leaves `[4096]` and the second call, with the histogram unchanged, leaves
`[4096, 4096]`. -/
theorem select_top_pages_twice_counterexample :
    (select_top_pages { ex_option with hot_min_refs := 8 } ex_vmstat
        (Migration.new ex_option 1 8 fun _ => ex_refs_one) PTE_ACCESSED).2.pages_addr
        PTE_ACCESSED = [4096] ∧
    (select_top_pages { ex_option with hot_min_refs := 8 } ex_vmstat
        (select_top_pages { ex_option with hot_min_refs := 8 } ex_vmstat
          (Migration.new ex_option 1 8 fun _ => ex_refs_one) PTE_ACCESSED).2
        PTE_ACCESSED).2.pages_addr PTE_ACCESSED = [4096, 4096] ∧
    (select_top_pages { ex_option with hot_min_refs := 8 } ex_vmstat
        (select_top_pages { ex_option with hot_min_refs := 8 } ex_vmstat
          (Migration.new ex_option 1 8 fun _ => ex_refs_one) PTE_ACCESSED).2
        PTE_ACCESSED).2.pages_addr PTE_ACCESSED ≠
      (select_top_pages { ex_option with hot_min_refs := 8 } ex_vmstat
        (Migration.new ex_option 1 8 fun _ => ex_refs_one) PTE_ACCESSED).2.pages_addr
        PTE_ACCESSED := by
  decide

theorem select_top_pages_refs (option : Options) (vmstat : ProcVmstat) (m : Migration)
    (type : ProcIdlePageType) :
    (select_top_pages option vmstat m type).2.nr_walks = m.nr_walks ∧
    (select_top_pages option vmstat m type).2.pagetype_refs = m.pagetype_refs ∧
    (select_top_pages option vmstat m type).2.migrate_target_node = m.migrate_target_node := by
  unfold select_top_pages
  simp only
  split_ifs <;> exact ⟨rfl, rfl, rfl⟩

/-- C6, amended: for every class, configuration, histogram and prior content of the vector,
calling `select_top_pages` twice in a row with the histogram unchanged leaves after the
second call what the first call left plus every selected address once more (the vector is
not cleared between the calls); the value after the second call equals the value after the
first exactly when no page's count lies in the band. -/
theorem select_top_pages_twice (option : Options) (vmstat : ProcVmstat) (m : Migration)
    (type : ProcIdlePageType) :
    (∀ a, ((select_top_pages option vmstat (select_top_pages option vmstat m type).2
          type).2.pages_addr type).count a =
        ((select_top_pages option vmstat m type).2.pages_addr type).count a +
          (((m.pagetype_refs type).page_refs.entries.filter
            (in_band (get_threshold_refs option vmstat m type).1
              (get_threshold_refs option vmstat m type).2.1)).map Prod.fst).count a) ∧
    ((select_top_pages option vmstat (select_top_pages option vmstat m type).2
          type).2.pages_addr type = (select_top_pages option vmstat m type).2.pages_addr type ↔
      (m.pagetype_refs type).page_refs.entries.filter
        (in_band (get_threshold_refs option vmstat m type).1
          (get_threshold_refs option vmstat m type).2.1) = []) := by
  obtain ⟨h1, h2, h3⟩ := select_top_pages_refs option vmstat m type
  have hperm2 := select_top_pages_perm option vmstat (select_top_pages option vmstat m type).2 type
  rw [get_threshold_refs_congr option vmstat m _ type h1 h2 h3, h2] at hperm2
  have hcount : ∀ a, ((select_top_pages option vmstat (select_top_pages option vmstat m type).2
          type).2.pages_addr type).count a =
        ((select_top_pages option vmstat m type).2.pages_addr type).count a +
          (((m.pagetype_refs type).page_refs.entries.filter
            (in_band (get_threshold_refs option vmstat m type).1
              (get_threshold_refs option vmstat m type).2.1)).map Prod.fst).count a := by
    intro a
    rw [hperm2.count_eq, List.count_append]
  refine ⟨hcount, ?_, ?_⟩
  · intro heq
    have hmap : ((m.pagetype_refs type).page_refs.entries.filter
        (in_band (get_threshold_refs option vmstat m type).1
          (get_threshold_refs option vmstat m type).2.1)).map Prod.fst = [] := by
      rw [List.eq_nil_iff_forall_not_mem]
      intro a ha
      have hc := hcount a
      rw [heq] at hc
      have := List.count_pos_iff.mpr ha
      omega
    exact List.map_eq_nil_iff.mp hmap
  · intro hnil
    rw [select_top_pages_pages option vmstat (select_top_pages option vmstat m type).2 type,
      get_threshold_refs_congr option vmstat m _ type h1 h2 h3, h2]
    split_ifs with he
    · rfl
    · rw [select_band_snd, hnil, List.map_nil, List.append_nil]
      rw [select_top_pages_pages, if_neg he, select_band_snd]
      exact (sort_sorted _).insertionSort_eq

/-- C7: round trip.  For every histogram whose counts all lie in `[0, nr_walks]`, lines
150-162 run with the band `(0, nr_walks)` from an empty vector return every address of the
histogram: the output has `page_refs.size()` entries, it holds the histogram's addresses
(each as often as the cursor yields it), and so each address exactly once when the
histogram's addresses are unique. -/
theorem select_band_round_trip (page_refs : AddrSequence) (nr_walks : Int)
    (h : ∀ p ∈ page_refs.entries, (p.2 : Int) ≤ nr_walks) :
    (select_band 0 nr_walks page_refs []).2.length = page_refs.size ∧
    (select_band 0 nr_walks page_refs []).2.Perm (page_refs.entries.map Prod.fst) ∧
    ((page_refs.entries.map Prod.fst).Nodup →
      ∀ a ∈ page_refs.entries.map Prod.fst, (select_band 0 nr_walks page_refs []).2.count a = 1) := by
  have hall : page_refs.entries.filter (in_band 0 nr_walks) = page_refs.entries := by
    rw [List.filter_eq_self]
    intro p hp
    simp [in_band, h p hp]
  have hperm : (select_band 0 nr_walks page_refs []).2.Perm (page_refs.entries.map Prod.fst) := by
    have := select_band_perm 0 nr_walks page_refs []
    rwa [hall, List.nil_append] at this
  refine ⟨?_, hperm, ?_⟩
  · rw [hperm.length_eq, List.length_map]
    rfl
  · intro hnd a ha
    rw [hperm.count_eq]
    exact List.count_eq_one_of_mem hnd ha

/-- An instance of C7: the three-page histogram with `nr_walks = 8`; all three addresses
come back, the address 10 once. -/
theorem select_band_round_trip_witness :
    (∀ p ∈ ex_refs_hot.page_refs.entries, (p.2 : Int) ≤ 8) ∧
    (select_band 0 8 ex_refs_hot.page_refs []).2.length = ex_refs_hot.page_refs.size ∧
    (select_band 0 8 ex_refs_hot.page_refs []).2.Perm
      (ex_refs_hot.page_refs.entries.map Prod.fst) ∧
    (select_band 0 8 ex_refs_hot.page_refs []).2.count 10 = 1 :=
  ⟨by decide, (select_band_round_trip ex_refs_hot.page_refs 8 (by decide)).1,
    (select_band_round_trip ex_refs_hot.page_refs 8 (by decide)).2.1,
    (select_band_round_trip ex_refs_hot.page_refs 8 (by decide)).2.2 (by decide) 10
      (by decide)⟩

/-! ## Monotonicity of the selection in `dram_percent` -/

theorem fl_percent_bounds (p : Int) (h0 : 0 ≤ p) (h100 : p ≤ 100) :
    0 ≤ fl (p : ℚ) ∧ fl (p : ℚ) ≤ 100 := by
  have hp : (0 : ℚ) ≤ (p : ℚ) := by exact_mod_cast h0
  refine ⟨fl_nonneg hp, ?_⟩
  have := fl_mono hp (by exact_mod_cast h100 : (p : ℚ) ≤ 100)
  rwa [fl_hundred] at this

/-- The DRAM-side ratio `dram_percent / 100.0` grows with `dram_percent` and stays in
`[0, 1]`. -/
theorem dram_ratio_mono (p₁ p₂ : Int) (h0 : 0 ≤ p₁) (h12 : p₁ ≤ p₂) (h2 : p₂ ≤ 100) :
    0 ≤ fl (fl (p₁ : ℚ) / 100) ∧ fl (fl (p₁ : ℚ) / 100) ≤ fl (fl (p₂ : ℚ) / 100) ∧
      fl (fl (p₂ : ℚ) / 100) ≤ 1 := by
  obtain ⟨a1, _⟩ := fl_percent_bounds p₁ h0 (by omega)
  obtain ⟨_, b2⟩ := fl_percent_bounds p₂ (by omega) h2
  have hm : fl (p₁ : ℚ) ≤ fl (p₂ : ℚ) :=
    fl_mono (by exact_mod_cast h0) (by exact_mod_cast h12)
  have q1 : (0 : ℚ) ≤ fl (p₁ : ℚ) / 100 := div_nonneg a1 (by norm_num)
  refine ⟨fl_nonneg q1, fl_mono q1 (div_le_div_of_nonneg_right hm (by norm_num)), ?_⟩
  have : fl (fl (p₂ : ℚ) / 100) ≤ fl 1 :=
    fl_mono (div_nonneg (le_trans a1 hm) (by norm_num)) (by rw [div_le_one (by norm_num)]; exact b2)
  rwa [fl_one] at this

/-- The other side's ratio `(100.0 - dram_percent) / 100.0` shrinks as `dram_percent` grows
and stays in `[0, 1]`. -/
theorem pmem_ratio_anti (p₁ p₂ : Int) (h0 : 0 ≤ p₁) (h12 : p₁ ≤ p₂) (h2 : p₂ ≤ 100) :
    0 ≤ fl (fl (100 - fl (p₂ : ℚ)) / 100) ∧
      fl (fl (100 - fl (p₂ : ℚ)) / 100) ≤ fl (fl (100 - fl (p₁ : ℚ)) / 100) ∧
      fl (fl (100 - fl (p₁ : ℚ)) / 100) ≤ 1 := by
  obtain ⟨a1, _⟩ := fl_percent_bounds p₁ h0 (by omega)
  obtain ⟨_, b2⟩ := fl_percent_bounds p₂ (by omega) h2
  have hm : fl (p₁ : ℚ) ≤ fl (p₂ : ℚ) :=
    fl_mono (by exact_mod_cast h0) (by exact_mod_cast h12)
  have c2 : (0 : ℚ) ≤ 100 - fl (p₂ : ℚ) := by linarith
  have d2 : 0 ≤ fl (100 - fl (p₂ : ℚ)) := fl_nonneg c2
  have hm' : fl (100 - fl (p₂ : ℚ)) ≤ fl (100 - fl (p₁ : ℚ)) := fl_mono c2 (by linarith)
  have e1 : fl (100 - fl (p₁ : ℚ)) ≤ 100 := by
    have := fl_mono (by linarith : (0 : ℚ) ≤ 100 - fl (p₁ : ℚ))
      (by linarith : 100 - fl (p₁ : ℚ) ≤ 100)
    rwa [fl_hundred] at this
  have q2 : (0 : ℚ) ≤ fl (100 - fl (p₂ : ℚ)) / 100 := div_nonneg d2 (by norm_num)
  refine ⟨fl_nonneg q2, fl_mono q2 (div_le_div_of_nonneg_right hm' (by norm_num)), ?_⟩
  have : fl (fl (100 - fl (p₁ : ℚ)) / 100) ≤ fl 1 :=
    fl_mono (div_nonneg (le_trans d2 hm') (by norm_num))
      (by rw [div_le_one (by norm_num)]; exact e1)
  rwa [fl_one] at this

/-- Line 96 is monotone in the ratio, and for a ratio in `[0, 1]` and at most `2 ^ 52` pages
the portion is at most `2 ^ 52`. -/
theorem portion_le_of_ratio (n : Nat) (hn : n ≤ 2 ^ 52) (r₁ r₂ : ℚ) (h0 : 0 ≤ r₁)
    (h12 : r₁ ≤ r₂) (h1 : r₂ ≤ 1) :
    to_size_t (fl (fl (n : ℚ) * r₁)) ≤ to_size_t (fl (fl (n : ℚ) * r₂)) ∧
      to_size_t (fl (fl (n : ℚ) * r₂)) ≤ 2 ^ 52 := by
  have hn0 : (0 : ℚ) ≤ fl (n : ℚ) := fl_nonneg (by positivity)
  have hn1 : fl (n : ℚ) ≤ 2 ^ 52 := by
    have h := fl_mono (by positivity : (0 : ℚ) ≤ (n : ℚ))
      (by exact_mod_cast hn : (n : ℚ) ≤ ((2 ^ 52 : ℕ) : ℚ))
    rw [fl_natCast (2 ^ 52) (by norm_num)] at h
    exact_mod_cast h
  have ha : fl (fl (n : ℚ) * r₁) ≤ fl (fl (n : ℚ) * r₂) :=
    fl_mono (mul_nonneg hn0 h0) (mul_le_mul_of_nonneg_left h12 hn0)
  have hb : fl (fl (n : ℚ) * r₂) ≤ ((2 ^ 52 : ℕ) : ℚ) := by
    have h := fl_mono (mul_nonneg hn0 (le_trans h0 h12))
      (by
        have : fl (n : ℚ) * r₂ ≤ 2 ^ 52 * 1 :=
          mul_le_mul hn1 h1 (le_trans h0 h12) (by positivity)
        push_cast
        linarith : fl (n : ℚ) * r₂ ≤ ((2 ^ 52 : ℕ) : ℚ))
    rwa [fl_natCast (2 ^ 52) (by norm_num)] at h
  have hfa : ⌊fl (fl (n : ℚ) * r₁)⌋₊ ≤ ⌊fl (fl (n : ℚ) * r₂)⌋₊ := Nat.floor_mono ha
  have hfb : ⌊fl (fl (n : ℚ) * r₂)⌋₊ ≤ 2 ^ 52 := by
    have := Nat.floor_mono hb
    rwa [Nat.floor_natCast] at this
  unfold to_size_t
  rw [Nat.mod_eq_of_lt (by omega), Nat.mod_eq_of_lt (by omega)]
  exact ⟨hfa, hfb⟩

theorem get_threshold_refs_accessed_eq (option : Options) (vmstat : ProcVmstat) (m : Migration)
    (type : ProcIdlePageType) (ha : accessed type = true) (hn : option.nr_walks ≠ 0)
    (hh : option.hot_min_refs ≤ 0) :
    get_threshold_refs option vmstat m type =
      (if hot_loop (m.pagetype_refs type).refs_count m.nr_walks.toNat m.nr_walks
            (to_long (portion option vmstat m type)) < m.nr_walks
        then hot_loop (m.pagetype_refs type).refs_count m.nr_walks.toNat m.nr_walks
            (to_long (portion option vmstat m type)) + 1
        else hot_loop (m.pagetype_refs type).refs_count m.nr_walks.toNat m.nr_walks
            (to_long (portion option vmstat m type)),
        m.nr_walks, portion option vmstat m type) := by
  have hh' : ¬ (0 < option.hot_min_refs) := by omega
  simp [get_threshold_refs, ha, hn, hh']

theorem get_threshold_refs_idle_eq (option : Options) (vmstat : ProcVmstat) (m : Migration)
    (type : ProcIdlePageType) (ha : accessed type = false) (hc : option.cold_max_refs < 0) :
    get_threshold_refs option vmstat m type =
      (0, cold_loop (m.pagetype_refs type).refs_count (Int.tdiv m.nr_walks 2)
          (Int.tdiv m.nr_walks 2).toNat 0 (to_long (portion option vmstat m type)) >>> (1 : Nat),
        portion option vmstat m type) := by
  have hc' : ¬ (0 ≤ option.cold_max_refs) := by omega
  simp [get_threshold_refs, ha, hc']

theorem select_loop_length (min_refs max_refs : Int) (l : List (Nat × Nat)) :
    (select_loop min_refs max_refs l []).length = l.countP (in_band min_refs max_refs) := by
  rw [select_loop_eq, List.nil_append, List.length_map, List.countP_eq_length_filter]

/-- A wider band selects at least as many pages. -/
theorem select_loop_length_mono (l : List (Nat × Nat)) {a₁ b₁ a₂ b₂ : Int} (ha : a₂ ≤ a₁)
    (hb : b₁ ≤ b₂) :
    (select_loop a₁ b₁ l []).length ≤ (select_loop a₂ b₂ l []).length := by
  rw [select_loop_length, select_loop_length]
  apply List.countP_mono_left
  intro p _ hp
  simp only [in_band, decide_eq_true_eq] at hp ⊢
  omega

theorem refs_consistent_lt (r : ProcIdleRefs) (nr_walks : Int) (h : refs_consistent r nr_walks)
    (hsize : r.page_refs.size ≤ 2 ^ 52) : ∀ c ∈ r.refs_count, c < 2 ^ 63 := by
  intro c hc
  unfold refs_consistent at h
  rw [h, List.mem_map] at hc
  obtain ⟨i, _, rfl⟩ := hc
  have := List.countP_le_length (fun p : Nat × Nat => decide (p.2 = i)) (l := r.page_refs.entries)
  unfold AddrSequence.size at hsize
  omega

/-- The corrected `min_refs` of lines 102-110 does not grow when the portion grows. -/
theorem hot_min_refs_anti (rc : List Nat) (hrc : ∀ c ∈ rc, c < 2 ^ 63) (N : Int) (P₁ P₂ : Nat)
    (h12 : P₁ ≤ P₂) (h2 : P₂ ≤ 2 ^ 52) :
    (if hot_loop rc N.toNat N (to_long P₂) < N then hot_loop rc N.toNat N (to_long P₂) + 1
      else hot_loop rc N.toNat N (to_long P₂)) ≤
    (if hot_loop rc N.toNat N (to_long P₁) < N then hot_loop rc N.toNat N (to_long P₁) + 1
      else hot_loop rc N.toNat N (to_long P₁)) := by
  have l1 : to_long (P₁ : Int) = P₁ := to_long_eq (by omega) (by omega)
  have l2 : to_long (P₂ : Int) = P₂ := to_long_eq (by omega) (by omega)
  have hanti := hot_loop_anti rc hrc N.toNat N P₁ P₂ (by omega) (by omega) (by omega)
  have hle := hot_loop_le rc N.toNat N P₁
  rw [l1, l2]
  split_ifs <;> omega

/-- C8 as stated fails at `dram_percent = 0`, which the code reads as unset: the ratio then
comes from vmstat (here 1, giving portion 3 and the band `(7, 8)` with two pages), while
`dram_percent = 50` gives portion 1 and the band `(8, 8)` with one page. -/
theorem hot_selection_monotone_counterexample :
    get_threshold_refs { ex_option with dram_percent := 0 } ex_vmstat
        (Migration.new ex_option 1 8 fun _ => ex_refs_hot) PTE_ACCESSED = (7, 8, 3) ∧
    get_threshold_refs { ex_option with dram_percent := 50 } ex_vmstat
        (Migration.new ex_option 1 8 fun _ => ex_refs_hot) PTE_ACCESSED = (8, 8, 1) ∧
    (select_loop 8 8 ex_refs_hot.page_refs.entries []).length <
      (select_loop 7 8 ex_refs_hot.page_refs.entries []).length := by
  have h3 : fl (3 : ℚ) = 3 := by simpa using fl_natCast 3 (by norm_num)
  have h32 : fl (3 / 2 : ℚ) = 3 / 2 := by
    have := fl_dyadic 3 (-1) (by norm_num)
    norm_num at this
    simpa using this
  have hf : ⌊(3 / 2 : ℚ)⌋₊ = 1 := by
    rw [Nat.floor_eq_iff (by norm_num)]
    constructor <;> norm_num
  have p0 : portion { ex_option with dram_percent := 0 } ex_vmstat
      (Migration.new ex_option 1 8 fun _ => ex_refs_hot) PTE_ACCESSED = 3 := by
    simp only [portion, ratio, ex_vmstat, Migration.new, ex_refs_hot, AddrSequence.size]
    norm_num [fl_one, h3, to_size_t]
  have p50 : portion { ex_option with dram_percent := 50 } ex_vmstat
      (Migration.new ex_option 1 8 fun _ => ex_refs_hot) PTE_ACCESSED = 1 := by
    simp only [portion, ratio, ex_option, Migration.new, ex_refs_hot, AddrSequence.size]
    norm_num [fl_fifty, fl_half, h3, h32, to_size_t, hf]
  refine ⟨?_, ?_, by decide⟩
  · rw [get_threshold_refs_accessed_eq { ex_option with dram_percent := 0 } ex_vmstat
      (Migration.new ex_option 1 8 fun _ => ex_refs_hot) PTE_ACCESSED rfl (by decide)
      (by decide), p0]
    decide
  · rw [get_threshold_refs_accessed_eq { ex_option with dram_percent := 50 } ex_vmstat
      (Migration.new ex_option 1 8 fun _ => ex_refs_hot) PTE_ACCESSED rfl (by decide)
      (by decide), p50]
    decide

/-- C8, amended: for every accessed class on the capacity path whose target is the DRAM node
(as the constructor sets it), every fixed histogram (`refs_count` consistent with
`page_refs`, at most `2 ^ 52` pages) and every two `dram_percent` values
`1 <= p1 <= p2 <= 100`, the number of pages the cursor loop selects with the band chosen
under `p2` is at least the number selected with the band chosen under `p1`. -/
theorem hot_selection_monotone (option : Options) (vmstat : ProcVmstat) (m : Migration)
    (type : ProcIdlePageType) (p₁ p₂ : Int) (hacc : accessed type = true)
    (hnw : option.nr_walks ≠ 0) (hhot : option.hot_min_refs ≤ 0)
    (htarget : m.migrate_target_node type = option.DRAM_NUMA_NODE)
    (hcons : refs_consistent (m.pagetype_refs type) m.nr_walks)
    (hsize : (m.pagetype_refs type).page_refs.size ≤ 2 ^ 52)
    (h1 : 1 ≤ p₁) (h12 : p₁ ≤ p₂) (h2 : p₂ ≤ 100) :
    (select_loop (get_threshold_refs { option with dram_percent := p₁ } vmstat m type).1
        (get_threshold_refs { option with dram_percent := p₁ } vmstat m type).2.1
        (m.pagetype_refs type).page_refs.entries []).length ≤
      (select_loop (get_threshold_refs { option with dram_percent := p₂ } vmstat m type).1
        (get_threshold_refs { option with dram_percent := p₂ } vmstat m type).2.1
        (m.pagetype_refs type).page_refs.entries []).length := by
  have hrc := refs_consistent_lt _ _ hcons hsize
  obtain ⟨r0, r12, r1⟩ := dram_ratio_mono p₁ p₂ (by omega) h12 h2
  obtain ⟨q12, q2⟩ := portion_le_of_ratio _ hsize _ _ r0 r12 r1
  have e1 : portion { option with dram_percent := p₁ } vmstat m type =
      to_size_t (fl (fl ((m.pagetype_refs type).page_refs.size : ℚ) * fl (fl (p₁ : ℚ) / 100))) := by
    have : p₁ ≠ 0 := by omega
    simp [portion, ratio, this, htarget]
  have e2 : portion { option with dram_percent := p₂ } vmstat m type =
      to_size_t (fl (fl ((m.pagetype_refs type).page_refs.size : ℚ) * fl (fl (p₂ : ℚ) / 100))) := by
    have : p₂ ≠ 0 := by omega
    simp [portion, ratio, this, htarget]
  rw [← e1, ← e2] at q12
  rw [← e2] at q2
  rw [get_threshold_refs_accessed_eq { option with dram_percent := p₁ } vmstat m type hacc hnw
      hhot,
    get_threshold_refs_accessed_eq { option with dram_percent := p₂ } vmstat m type hacc hnw
      hhot]
  dsimp only
  exact select_loop_length_mono _ (hot_min_refs_anti _ hrc m.nr_walks _ _ q12 q2)
    (le_refl m.nr_walks)

/-- An instance of C8 amended: the three-page histogram under `dram_percent` 25 and 50. -/
theorem hot_selection_monotone_witness :
    (refs_consistent ex_refs_hot 8 ∧ ex_refs_hot.page_refs.size ≤ 2 ^ 52) ∧
    (select_loop
        (get_threshold_refs { ex_option with dram_percent := 25 } ex_vmstat
          (Migration.new ex_option 1 8 fun _ => ex_refs_hot) PTE_ACCESSED).1
        (get_threshold_refs { ex_option with dram_percent := 25 } ex_vmstat
          (Migration.new ex_option 1 8 fun _ => ex_refs_hot) PTE_ACCESSED).2.1
        ex_refs_hot.page_refs.entries []).length ≤
      (select_loop
        (get_threshold_refs { ex_option with dram_percent := 50 } ex_vmstat
          (Migration.new ex_option 1 8 fun _ => ex_refs_hot) PTE_ACCESSED).1
        (get_threshold_refs { ex_option with dram_percent := 50 } ex_vmstat
          (Migration.new ex_option 1 8 fun _ => ex_refs_hot) PTE_ACCESSED).2.1
        ex_refs_hot.page_refs.entries []).length :=
  ⟨⟨by decide, by decide⟩,
    hot_selection_monotone ex_option ex_vmstat (Migration.new ex_option 1 8 fun _ => ex_refs_hot)
      PTE_ACCESSED 25 50 rfl (by decide) (by decide) rfl (by decide) (by decide) (by decide)
      (by decide) (by decide)⟩

/-- The `max_refs` of lines 112-119 does not shrink when the portion grows. -/
theorem cold_max_refs_mono (rc : List Nat) (hrc : ∀ c ∈ rc, c < 2 ^ 63) (limit : Int)
    (P₁ P₂ : Nat) (h12 : P₁ ≤ P₂) (h2 : P₂ ≤ 2 ^ 52) :
    cold_loop rc limit limit.toNat 0 (to_long P₁) >>> (1 : Nat) ≤
      cold_loop rc limit limit.toNat 0 (to_long P₂) >>> (1 : Nat) := by
  have l1 : to_long (P₁ : Int) = P₁ := to_long_eq (by omega) (by omega)
  have l2 : to_long (P₂ : Int) = P₂ := to_long_eq (by omega) (by omega)
  have hmono := cold_loop_mono rc limit hrc limit.toNat 0 P₁ P₂ (by omega) (by omega) (by omega)
  rw [l1, l2, Int.shiftRight_eq_div_pow, Int.shiftRight_eq_div_pow]
  exact Int.ediv_le_ediv (by norm_num) hmono

/-- C9 as stated fails at `dram_percent = 0`, which the code reads as unset: the ratio then
comes from vmstat (here 0, giving portion 0 and the band `(0, 0)` with one page), while
`dram_percent = 50` gives portion 3 and the band `(0, 1)` with two pages. -/
theorem cold_selection_monotone_counterexample :
    get_threshold_refs { ex_option with dram_percent := 0 } ex_vmstat_zero
        (Migration.new ex_option 1 8 fun _ => ex_refs_cold) PTE_IDLE = (0, 0, 0) ∧
    get_threshold_refs { ex_option with dram_percent := 50 } ex_vmstat_zero
        (Migration.new ex_option 1 8 fun _ => ex_refs_cold) PTE_IDLE = (0, 1, 3) ∧
    (select_loop 0 0 ex_refs_cold.page_refs.entries []).length <
      (select_loop 0 1 ex_refs_cold.page_refs.entries []).length := by
  have h6 : fl (6 : ℚ) = 6 := by simpa using fl_natCast 6 (by norm_num)
  have h3 : fl (3 : ℚ) = 3 := by simpa using fl_natCast 3 (by norm_num)
  have p0 : portion { ex_option with dram_percent := 0 } ex_vmstat_zero
      (Migration.new ex_option 1 8 fun _ => ex_refs_cold) PTE_IDLE = 0 := by
    simp only [portion, ratio, ex_vmstat_zero, Migration.new, ex_refs_cold, AddrSequence.size]
    norm_num [fl_one, fl_zero, h6, to_size_t]
  have p50 : portion { ex_option with dram_percent := 50 } ex_vmstat_zero
      (Migration.new ex_option 1 8 fun _ => ex_refs_cold) PTE_IDLE = 3 := by
    simp only [portion, ratio, ex_option, Migration.new, ex_refs_cold, AddrSequence.size]
    norm_num [fl_fifty, fl_half, h6, h3, to_size_t]
  refine ⟨?_, ?_, by decide⟩
  · rw [get_threshold_refs_idle_eq { ex_option with dram_percent := 0 } ex_vmstat_zero
      (Migration.new ex_option 1 8 fun _ => ex_refs_cold) PTE_IDLE rfl (by decide), p0]
    decide
  · rw [get_threshold_refs_idle_eq { ex_option with dram_percent := 50 } ex_vmstat_zero
      (Migration.new ex_option 1 8 fun _ => ex_refs_cold) PTE_IDLE rfl (by decide), p50]
    decide

/-- C9, amended: for every idle class on the capacity path (`cold_max_refs < 0`) whose target
is the PMEM node (as the constructor sets it, the PMEM node not being the DRAM node), every
fixed histogram (`refs_count` consistent with `page_refs`, at most `2 ^ 52` pages) and every
two `dram_percent` values `1 <= p1 <= p2 <= 100`, the number of pages the cursor loop selects
with the band chosen under `p2` is at most the number selected with the band chosen under
`p1`. -/
theorem cold_selection_monotone (option : Options) (vmstat : ProcVmstat) (m : Migration)
    (type : ProcIdlePageType) (p₁ p₂ : Int) (hacc : accessed type = false)
    (hcold : option.cold_max_refs < 0)
    (htarget : m.migrate_target_node type = option.PMEM_NUMA_NODE)
    (hnodes : option.PMEM_NUMA_NODE ≠ option.DRAM_NUMA_NODE)
    (hcons : refs_consistent (m.pagetype_refs type) m.nr_walks)
    (hsize : (m.pagetype_refs type).page_refs.size ≤ 2 ^ 52)
    (h1 : 1 ≤ p₁) (h12 : p₁ ≤ p₂) (h2 : p₂ ≤ 100) :
    (select_loop (get_threshold_refs { option with dram_percent := p₂ } vmstat m type).1
        (get_threshold_refs { option with dram_percent := p₂ } vmstat m type).2.1
        (m.pagetype_refs type).page_refs.entries []).length ≤
      (select_loop (get_threshold_refs { option with dram_percent := p₁ } vmstat m type).1
        (get_threshold_refs { option with dram_percent := p₁ } vmstat m type).2.1
        (m.pagetype_refs type).page_refs.entries []).length := by
  have hrc := refs_consistent_lt _ _ hcons hsize
  obtain ⟨r0, r12, r1⟩ := pmem_ratio_anti p₁ p₂ (by omega) h12 h2
  obtain ⟨q12, q2⟩ := portion_le_of_ratio _ hsize _ _ r0 r12 r1
  have e1 : portion { option with dram_percent := p₁ } vmstat m type =
      to_size_t (fl (fl ((m.pagetype_refs type).page_refs.size : ℚ) *
        fl (fl (100 - fl (p₁ : ℚ)) / 100))) := by
    have : p₁ ≠ 0 := by omega
    simp [portion, ratio, this, htarget, hnodes]
  have e2 : portion { option with dram_percent := p₂ } vmstat m type =
      to_size_t (fl (fl ((m.pagetype_refs type).page_refs.size : ℚ) *
        fl (fl (100 - fl (p₂ : ℚ)) / 100))) := by
    have : p₂ ≠ 0 := by omega
    simp [portion, ratio, this, htarget, hnodes]
  rw [← e1, ← e2] at q12
  rw [← e1] at q2
  rw [get_threshold_refs_idle_eq { option with dram_percent := p₁ } vmstat m type hacc hcold,
    get_threshold_refs_idle_eq { option with dram_percent := p₂ } vmstat m type hacc hcold]
  dsimp only
  exact select_loop_length_mono _ (le_refl (0 : Int))
    (cold_max_refs_mono _ hrc (Int.tdiv m.nr_walks 2) _ _ q12 q2)

/-- An instance of C9 amended: the six-page histogram under `dram_percent` 25 and 50. -/
theorem cold_selection_monotone_witness :
    (refs_consistent ex_refs_cold 8 ∧ ex_refs_cold.page_refs.size ≤ 2 ^ 52) ∧
    (select_loop
        (get_threshold_refs { ex_option with dram_percent := 50 } ex_vmstat
          (Migration.new ex_option 1 8 fun _ => ex_refs_cold) PTE_IDLE).1
        (get_threshold_refs { ex_option with dram_percent := 50 } ex_vmstat
          (Migration.new ex_option 1 8 fun _ => ex_refs_cold) PTE_IDLE).2.1
        ex_refs_cold.page_refs.entries []).length ≤
      (select_loop
        (get_threshold_refs { ex_option with dram_percent := 25 } ex_vmstat
          (Migration.new ex_option 1 8 fun _ => ex_refs_cold) PTE_IDLE).1
        (get_threshold_refs { ex_option with dram_percent := 25 } ex_vmstat
          (Migration.new ex_option 1 8 fun _ => ex_refs_cold) PTE_IDLE).2.1
        ex_refs_cold.page_refs.entries []).length :=
  ⟨⟨by decide, by decide⟩,
    cold_selection_monotone ex_option ex_vmstat
      (Migration.new ex_option 1 8 fun _ => ex_refs_cold) PTE_IDLE 25 50 rfl (by decide) rfl
      (by decide) (by decide) (by decide) (by decide) (by decide) (by decide)⟩

/-! ## Claims on `migrate(type)` -/

/-- C10 as stated fails when the vector is not empty before the call: the histogram is not
empty, no count lies in the band `(8, 8)`, the vector holds the address 4096 from before;
`select_top_pages` returns 0 and `migrate(type)` issues a `move_pages` call for that address. -/
theorem migrate_type_skip_counterexample :
    get_threshold_refs { ex_option with hot_min_refs := 8 } ex_vmstat
        { Migration.new ex_option 1 8 fun _ => ex_refs_cold with pages_addr := fun _ => [4096] }
        PTE_ACCESSED = (8, 8, 0) ∧
    ex_refs_cold.page_refs.entries.filter (in_band 8 8) = [] ∧
    (migrate_type { ex_option with hot_min_refs := 8 } ex_vmstat ex_kernel []
        { Migration.new ex_option 1 8 fun _ => ex_refs_cold with pages_addr := fun _ => [4096] }
        PTE_ACCESSED).2.2 =
      [{ pid := 1, count := 1, pages := [4096], nodes := some [0], flags := 130 }] := by
  decide

/-- C10, amended: for every class, if the histogram is empty then `select_top_pages` returns
1 and changes nothing, and `migrate(type)` returns 0 without issuing a `move_pages` call;
and if `pages_addr[type]` is empty before the call and no page's count falls in the
threshold band, then `select_top_pages` selects nothing and `migrate(type)` returns 0 without
issuing a `move_pages` call. -/
theorem migrate_type_skip (option : Options) (vmstat : ProcVmstat) (kernel : Kernel)
    (trace : List MoveCall) (m : Migration) (type : ProcIdlePageType) :
    ((m.pagetype_refs type).page_refs.empty = true →
      select_top_pages option vmstat m type = (1, m) ∧
      migrate_type option vmstat kernel trace m type = (0, m, trace)) ∧
    (m.pages_addr type = [] →
      (∀ p ∈ (m.pagetype_refs type).page_refs.entries,
        in_band (get_threshold_refs option vmstat m type).1
          (get_threshold_refs option vmstat m type).2.1 p = false) →
      (select_top_pages option vmstat m type).2.pages_addr type = [] ∧
      (migrate_type option vmstat kernel trace m type).1 = 0 ∧
      (migrate_type option vmstat kernel trace m type).2.1.pages_addr type = [] ∧
      (migrate_type option vmstat kernel trace m type).2.2 = trace) := by
  constructor
  · intro he
    have hs : select_top_pages option vmstat m type = (1, m) := by
      simp [select_top_pages, he]
    refine ⟨hs, ?_⟩
    simp [migrate_type, hs]
  · intro hempty hband
    have hfilter : (m.pagetype_refs type).page_refs.entries.filter
        (in_band (get_threshold_refs option vmstat m type).1
          (get_threshold_refs option vmstat m type).2.1) = [] := by
      rw [List.filter_eq_nil_iff]
      intro p hp
      simp [hband p hp]
    have hpages : (select_top_pages option vmstat m type).2.pages_addr type = [] := by
      rw [select_top_pages_of_empty option vmstat m type hempty, hfilter]
      rfl
    have hret : (select_top_pages option vmstat m type).1 = 1 := by
      unfold select_top_pages
      simp only
      split_ifs with h
      · rfl
      · simp only [select_band_fst, hempty, hfilter]
        simp
    refine ⟨hpages, ?_, ?_, ?_⟩ <;> simp [migrate_type, hret, hpages]

/-- An instance of C10 amended: an empty histogram, and a fresh object over the six-page
histogram with the forced band `(8, 8)`, in which no count lies. -/
theorem migrate_type_skip_witness :
    (select_top_pages ex_option ex_vmstat
        (Migration.new ex_option 1 8 fun _ => { page_refs := ⟨[]⟩, refs_count := [] })
        PTE_ACCESSED =
      (1, Migration.new ex_option 1 8 fun _ => { page_refs := ⟨[]⟩, refs_count := [] }) ∧
    migrate_type ex_option ex_vmstat ex_kernel []
        (Migration.new ex_option 1 8 fun _ => { page_refs := ⟨[]⟩, refs_count := [] })
        PTE_ACCESSED =
      (0, Migration.new ex_option 1 8 fun _ => { page_refs := ⟨[]⟩, refs_count := [] }, [])) ∧
    ((select_top_pages { ex_option with hot_min_refs := 8 } ex_vmstat
        (Migration.new ex_option 1 8 fun _ => ex_refs_cold) PTE_ACCESSED).2.pages_addr
        PTE_ACCESSED = [] ∧
      (migrate_type { ex_option with hot_min_refs := 8 } ex_vmstat ex_kernel []
        (Migration.new ex_option 1 8 fun _ => ex_refs_cold) PTE_ACCESSED).1 = 0 ∧
      (migrate_type { ex_option with hot_min_refs := 8 } ex_vmstat ex_kernel []
        (Migration.new ex_option 1 8 fun _ => ex_refs_cold) PTE_ACCESSED).2.1.pages_addr
        PTE_ACCESSED = [] ∧
      (migrate_type { ex_option with hot_min_refs := 8 } ex_vmstat ex_kernel []
        (Migration.new ex_option 1 8 fun _ => ex_refs_cold) PTE_ACCESSED).2.2 = []) :=
  ⟨(migrate_type_skip ex_option ex_vmstat ex_kernel []
      (Migration.new ex_option 1 8 fun _ => { page_refs := ⟨[]⟩, refs_count := [] })
      PTE_ACCESSED).1 rfl,
    (migrate_type_skip { ex_option with hot_min_refs := 8 } ex_vmstat ex_kernel []
      (Migration.new ex_option 1 8 fun _ => ex_refs_cold) PTE_ACCESSED).2 rfl (by decide)⟩

/-! ## Claims on `__move_pages` -/

theorem resize_replicate {α : Type} (s n : Nat) (v : α) :
    resize (List.replicate s v) n v = List.replicate n v := by
  unfold resize
  rw [List.take_replicate, List.length_replicate, ← List.replicate_add]
  congr 1
  omega

theorem resize_length {α : Type} (xs : List α) (n : Nat) (v : α) : (resize xs n v).length = n := by
  unfold resize
  rw [List.length_append, List.length_take, List.length_replicate]
  omega

theorem write_at_length (status : List Int) (i : Nat) (w : List Int)
    (h : i + w.length ≤ status.length) : (write_at status i w).length = status.length := by
  unfold write_at
  simp only [List.length_append, List.length_take, List.length_drop]
  omega

theorem write_at_below (status : List Int) (i : Nat) (w : List Int) (p : Nat) (hp : p < i)
    (hi : i ≤ status.length) : (write_at status i w)[p]? = status[p]? := by
  unfold write_at
  rw [List.getElem?_append_left (by rw [List.length_take]; omega), List.getElem?_take_of_lt hp]

theorem write_at_written (status : List Int) (i : Nat) (w : List Int) (j : Nat)
    (hj : j < w.length) (hi : i ≤ status.length) : (write_at status i w)[i + j]? = w[j]? := by
  unfold write_at
  have hl : (status.take i).length = i := by rw [List.length_take]; omega
  rw [List.getElem?_append_right (by omega), hl, Nat.add_sub_cancel_left,
    List.getElem?_append_left hj]

theorem batches_zero (pid : Int) (n : Nat) (addrs : List Nat) (node : Int) (B i : Nat) :
    batches pid n addrs node B i 0 = [] := rfl

theorem batches_succ_left (pid : Int) (n : Nat) (addrs : List Nat) (node : Int) (B i L : Nat) :
    batches pid n addrs node B i (L + 1) =
      batch_call pid n addrs node B i :: batches pid n addrs node B (i + B) L := by
  unfold batches
  rw [List.range_succ_eq_map, List.map_cons, List.map_map]
  refine congrArg₂ List.cons (by simp) ?_
  apply List.map_congr_left
  intro k _
  have : i + B * (k + 1) = i + B + B * k := by rw [Nat.mul_succ]; omega
  simp only [Function.comp, Nat.succ_eq_add_one, this]

theorem batches_length (pid : Int) (n : Nat) (addrs : List Nat) (node : Int) (B i L : Nat) :
    (batches pid n addrs node B i L).length = L := by
  simp [batches]

/-- What the batch loop does, for any kernel.  Started at offset `i`, it issues the first `L`
batches from `i` on, for some `L`: every call before the last one issued returned 0, the
value returned is the result of the last call issued (the initial `ret` if there is none),
all batches are issued when that value is 0, entries below `i` are not touched, and what
each call wrote in its slice is still there at the end. -/
theorem move_loop_spec (kernel : Kernel) (pid : Int) (n : Nat) (addrs : List Nat) (node : Int)
    (B : Nat) (hB : 0 < B) :
    ∀ (fuel i s : Nat) (ret0 : Int) (status : List Int) (trace0 : List MoveCall),
      status.length = n → n ≤ i + B * fuel →
      ∃ L : Nat,
        (move_loop kernel pid n addrs node B fuel i (List.replicate s node) ret0 status
            trace0).2.2 = trace0 ++ batches pid n addrs node B i L ∧
        (move_loop kernel pid n addrs node B fuel i (List.replicate s node) ret0 status
            trace0).2.1.length = n ∧
        (∀ k, k < L → i + B * k < n) ∧
        (∀ k, k + 1 < L →
          (kernel (trace0 ++ batches pid n addrs node B i k)
            (batch_call pid n addrs node B (i + B * k))).ret = 0) ∧
        (L = 0 →
          (move_loop kernel pid n addrs node B fuel i (List.replicate s node) ret0 status
            trace0).1 = ret0 ∧
          (move_loop kernel pid n addrs node B fuel i (List.replicate s node) ret0 status
            trace0).2.1 = status) ∧
        (0 < L →
          (move_loop kernel pid n addrs node B fuel i (List.replicate s node) ret0 status
            trace0).1 =
          (kernel (trace0 ++ batches pid n addrs node B i (L - 1))
            (batch_call pid n addrs node B (i + B * (L - 1)))).ret) ∧
        ((L = 0 ∨ (move_loop kernel pid n addrs node B fuel i (List.replicate s node) ret0
            status trace0).1 = 0) → n ≤ i + B * L) ∧
        (∀ p, p < i →
          (move_loop kernel pid n addrs node B fuel i (List.replicate s node) ret0 status
            trace0).2.1[p]? = status[p]?) ∧
        (∀ k j, k < L →
          j < ((kernel (trace0 ++ batches pid n addrs node B i k)
            (batch_call pid n addrs node B (i + B * k))).status.take
              (min B (n - (i + B * k)))).length →
          (move_loop kernel pid n addrs node B fuel i (List.replicate s node) ret0 status
            trace0).2.1[i + B * k + j]? =
          ((kernel (trace0 ++ batches pid n addrs node B i k)
            (batch_call pid n addrs node B (i + B * k))).status.take
              (min B (n - (i + B * k))))[j]?) := by
  intro fuel
  induction fuel with
  | zero =>
    intro i s ret0 status trace0 hlen hfuel
    refine ⟨0, ?_, ?_, ?_, ?_, ?_, ?_, ?_, ?_, ?_⟩
    · simp [move_loop, batches_zero]
    · simpa [move_loop] using hlen
    · intro k hk; omega
    · intro k hk; omega
    · intro _; simp [move_loop]
    · intro h; omega
    · intro _; omega
    · intro p _; simp [move_loop]
    · intro k j hk; omega
  | succ f ih =>
    intro i s ret0 status trace0 hlen hfuel
    by_cases hin : i < n
    · -- one batch is issued
      have hw : i + ((kernel trace0 (batch_call pid n addrs node B i)).status.take
          (min B (n - i))).length ≤ status.length := by
        rw [List.length_take]; omega
      have hstep : move_loop kernel pid n addrs node B (f + 1) i (List.replicate s node) ret0
          status trace0 =
          if (kernel trace0 (batch_call pid n addrs node B i)).ret ≠ 0 then
            ((kernel trace0 (batch_call pid n addrs node B i)).ret,
              write_at status i ((kernel trace0 (batch_call pid n addrs node B i)).status.take
                (min B (n - i))),
              trace0 ++ [batch_call pid n addrs node B i])
          else move_loop kernel pid n addrs node B f (i + B) (List.replicate (min B (n - i)) node)
            (kernel trace0 (batch_call pid n addrs node B i)).ret
            (write_at status i ((kernel trace0 (batch_call pid n addrs node B i)).status.take
              (min B (n - i))))
            (trace0 ++ [batch_call pid n addrs node B i]) := by
        simp only [move_loop, hin, if_true, resize_replicate, batch_call]
      rw [hstep]
      by_cases hret : (kernel trace0 (batch_call pid n addrs node B i)).ret ≠ 0
      · rw [if_pos hret]
        refine ⟨1, ?_, ?_, ?_, ?_, ?_, ?_, ?_, ?_, ?_⟩
        · simp [batches_succ_left, batches_zero]
        · simp only; rw [write_at_length _ _ _ hw]; exact hlen
        · intro k hk
          have : k = 0 := by omega
          subst this; simpa using hin
        · intro k hk; omega
        · intro h; omega
        · intro _; simp [batches_zero]
        · intro h
          rcases h with h | h
          · omega
          · exact absurd h hret
        · intro p hp
          exact write_at_below _ _ _ _ hp (by omega)
        · intro k j hk hj
          have : k = 0 := by omega
          subst this
          simp only [batches_zero, List.append_nil, Nat.mul_zero, Nat.add_zero] at hj ⊢
          exact write_at_written _ _ _ _ hj (by omega)
      · rw [if_neg hret]
        have hret0 : (kernel trace0 (batch_call pid n addrs node B i)).ret = 0 := by
          simpa using hret
        have hlen1 : (write_at status i
            ((kernel trace0 (batch_call pid n addrs node B i)).status.take
              (min B (n - i)))).length = n := by
          rw [write_at_length _ _ _ hw]; exact hlen
        have hfuel1 : n ≤ i + B + B * f := by
          rw [Nat.mul_succ] at hfuel; omega
        obtain ⟨L, h1, h2, h3, h4, h5, h6, h7, h8, h9⟩ :=
          ih (i + B) (min B (n - i)) (kernel trace0 (batch_call pid n addrs node B i)).ret
            (write_at status i ((kernel trace0 (batch_call pid n addrs node B i)).status.take
              (min B (n - i)))) (trace0 ++ [batch_call pid n addrs node B i]) hlen1 hfuel1
        have hshift : ∀ k, trace0 ++ batches pid n addrs node B i (k + 1) =
            (trace0 ++ [batch_call pid n addrs node B i]) ++
              batches pid n addrs node B (i + B) k := by
          intro k
          rw [batches_succ_left, List.append_assoc]
          rfl
        have hoff : ∀ k, i + B * (k + 1) = i + B + B * k := by
          intro k; rw [Nat.mul_succ]; omega
        refine ⟨L + 1, ?_, h2, ?_, ?_, ?_, ?_, ?_, ?_, ?_⟩
        · rw [h1, hshift]
        · intro k hk
          rcases k with _ | k
          · simpa using hin
          · rw [hoff]; exact h3 k (by omega)
        · intro k hk
          rcases k with _ | k
          · simpa [batches_zero] using hret0
          · rw [hshift, hoff]; exact h4 k (by omega)
        · intro h; omega
        · intro _
          rcases Nat.eq_zero_or_pos L with hL | hL
          · subst hL
            rw [(h5 rfl).1]
            simp [batches_zero]
          · rw [h6 hL]
            have : L + 1 - 1 = (L - 1) + 1 := by omega
            rw [this, hshift, hoff]
        · intro h
          have := h7 (by
            rcases h with h | h
            · omega
            · exact Or.inr h)
          rw [Nat.mul_succ]; omega
        · intro p hp
          rw [h8 p (by omega)]
          exact write_at_below _ _ _ _ hp (by omega)
        · intro k j hk hj
          rcases k with _ | k
          · simp only [batches_zero, List.append_nil, Nat.mul_zero, Nat.add_zero] at hj ⊢
            have hjB : j < B := by
              rw [List.length_take] at hj; omega
            rw [h8 (i + j) (by omega)]
            exact write_at_written _ _ _ _ hj (by omega)
          · rw [hshift, hoff] at hj ⊢
            exact h9 k j (by omega) hj
    · -- the loop is over
      have hstep : move_loop kernel pid n addrs node B (f + 1) i (List.replicate s node) ret0
          status trace0 = (ret0, status, trace0) := by
        simp only [move_loop, hin, if_false]
      rw [hstep]
      refine ⟨0, ?_, ?_, ?_, ?_, ?_, ?_, ?_, ?_, ?_⟩
      · simp [batches_zero]
      · exact hlen
      · intro k hk; omega
      · intro k hk; omega
      · intro _; exact ⟨rfl, rfl⟩
      · intro h; omega
      · intro _; omega
      · intro p _; rfl
      · intro k j hk; omega

theorem batch_size_eq : (1 <<< 12 : Nat) = 4096 := by decide

/-- `__move_pages` for any kernel: the calls issued are the first `L` batches, every call
before the last one issued returned 0, the value returned is the result of the last call
issued (0 if there is none), all batches are issued when that value is 0, the status vector
has `nr_pages` entries and holds what each call wrote in its slice. -/
theorem move_pages_spec (kernel : Kernel) (trace : List MoveCall) (migrate_status : List Int)
    (pid : Int) (n : Nat) (addrs : List Nat) (node : Int) :
    ∃ L : Nat,
      (__move_pages kernel trace migrate_status pid n addrs node).2.2 =
        trace ++ batches pid n addrs node 4096 0 L ∧
      (__move_pages kernel trace migrate_status pid n addrs node).2.1.length = n ∧
      (∀ k, k < L → 4096 * k < n) ∧
      (∀ k, k + 1 < L →
        (kernel (trace ++ batches pid n addrs node 4096 0 k)
          (batch_call pid n addrs node 4096 (4096 * k))).ret = 0) ∧
      (L = 0 → (__move_pages kernel trace migrate_status pid n addrs node).1 = 0) ∧
      (0 < L →
        (__move_pages kernel trace migrate_status pid n addrs node).1 =
        (kernel (trace ++ batches pid n addrs node 4096 0 (L - 1))
          (batch_call pid n addrs node 4096 (4096 * (L - 1)))).ret) ∧
      ((L = 0 ∨ (__move_pages kernel trace migrate_status pid n addrs node).1 = 0) →
        n ≤ 4096 * L) ∧
      (∀ k j, k < L →
        j < ((kernel (trace ++ batches pid n addrs node 4096 0 k)
          (batch_call pid n addrs node 4096 (4096 * k))).status.take
            (min 4096 (n - 4096 * k))).length →
        (__move_pages kernel trace migrate_status pid n addrs node).2.1[4096 * k + j]? =
        ((kernel (trace ++ batches pid n addrs node 4096 0 k)
          (batch_call pid n addrs node 4096 (4096 * k))).status.take
            (min 4096 (n - 4096 * k)))[j]?) := by
  obtain ⟨L, h1, h2, h3, h4, h5, h6, h7, _, h9⟩ :=
    move_loop_spec kernel pid n addrs node 4096 (by norm_num) n 0 0 0
      (resize migrate_status n 0) trace (resize_length _ _ _) (by omega)
  simp only [Nat.zero_add] at h1 h2 h3 h4 h5 h6 h7 h9
  have e : __move_pages kernel trace migrate_status pid n addrs node =
      move_loop kernel pid n addrs node 4096 n 0 (List.replicate 0 node) 0
        (resize migrate_status n 0) trace := by
    simp only [__move_pages, batch_size_eq, List.replicate_zero]
  rw [e]
  exact ⟨L, h1, h2, h3, h4, fun h => (h5 h).1, h6, h7, h9⟩

/-- The number of batches issued when the last result is 0: `ceil(n / 4096)`. -/
theorem batches_count {n L : Nat} (h3 : ∀ k, k < L → 4096 * k < n) (h7 : n ≤ 4096 * L) :
    L = (n + 4095) / 4096 := by
  rcases Nat.eq_zero_or_pos L with hL | hL
  · subst hL
    have : n = 0 := by omega
    subst this
    rfl
  · have := h3 (L - 1) (by omega)
    omega

/-- The sizes of the batches that cover `[i, n)` add up to `n - i`. -/
theorem batches_count_sum (pid : Int) (n : Nat) (addrs : List Nat) (node : Int) (B : Nat) :
    ∀ (L i : Nat), (∀ k, k < L → i + B * k < n) → n ≤ i + B * L →
      ((batches pid n addrs node B i L).map MoveCall.count).sum = n - i := by
  intro L
  induction L with
  | zero =>
    intro i _ h
    simp only [batches_zero, List.map_nil, List.sum_nil]
    omega
  | succ L ih =>
    intro i h3 h7
    have hi : i < n := by simpa using h3 0 (by omega)
    have h3' : ∀ k, k < L → i + B + B * k < n := by
      intro k hk
      have := h3 (k + 1) (by omega)
      rw [Nat.mul_succ] at this
      omega
    have h7' : n ≤ i + B + B * L := by
      rw [Nat.mul_succ] at h7; omega
    rw [batches_succ_left, List.map_cons, List.sum_cons, ih (i + B) h3' h7']
    simp only [batch_call]
    omega

/-- C11: batch partition.  For every `n` addresses, when every `move_pages` call succeeds
(returns 0), `__move_pages` returns 0 and issues exactly `ceil(n / 4096)` calls, call `k`
over the slice that starts at offset `4096 * k` (consecutive slices, ascending offsets);
every call but the last has size 4096, the sizes add up to `n`, and the status vector has
`n` entries afterwards.  For `n = 10000` the sizes are 4096, 4096, 1808. -/
theorem move_pages_partition (kernel : Kernel) (h0 : ∀ t c, (kernel t c).ret = 0)
    (trace : List MoveCall) (migrate_status : List Int) (pid : Int) (n : Nat)
    (addrs : List Nat) (node : Int) :
    (__move_pages kernel trace migrate_status pid n addrs node).1 = 0 ∧
    (__move_pages kernel trace migrate_status pid n addrs node).2.2 =
      trace ++ (List.range ((n + 4095) / 4096)).map
        (fun k => batch_call pid n addrs node 4096 (4096 * k)) ∧
    (∀ k, k + 1 < (n + 4095) / 4096 →
      (batch_call pid n addrs node 4096 (4096 * k)).count = 4096) ∧
    (((List.range ((n + 4095) / 4096)).map
        (fun k => batch_call pid n addrs node 4096 (4096 * k))).map MoveCall.count).sum = n ∧
    (__move_pages kernel trace migrate_status pid n addrs node).2.1.length = n ∧
    (n = 10000 →
      ((List.range ((n + 4095) / 4096)).map
        (fun k => batch_call pid n addrs node 4096 (4096 * k))).map MoveCall.count =
        [4096, 4096, 1808]) := by
  obtain ⟨L, h1, h2, h3, _, h5, h6, h7, _⟩ :=
    move_pages_spec kernel trace migrate_status pid n addrs node
  have hret : (__move_pages kernel trace migrate_status pid n addrs node).1 = 0 := by
    rcases Nat.eq_zero_or_pos L with hL | hL
    · exact h5 hL
    · rw [h6 hL]; exact h0 _ _
  have hL : L = (n + 4095) / 4096 := batches_count h3 (h7 (Or.inr hret))
  have hb : batches pid n addrs node 4096 0 L = (List.range ((n + 4095) / 4096)).map
      (fun k => batch_call pid n addrs node 4096 (4096 * k)) := by
    rw [hL]
    simp only [batches, Nat.zero_add]
  refine ⟨hret, by rw [h1, hb], ?_, ?_, h2, ?_⟩
  · intro k hk
    simp only [batch_call]
    omega
  · rw [← hb]
    have := batches_count_sum pid n addrs node 4096 L 0
      (by simpa using h3) (by simpa using h7 (Or.inr hret))
    simpa using this
  · intro hn
    subst hn
    have hK : (10000 + 4095) / 4096 = 3 := by norm_num
    rw [hK]
    rfl

/-- An instance of C11: 10000 addresses and the kernel that always succeeds give three calls
of the sizes 4096, 4096 and 1808. -/
theorem move_pages_partition_witness :
    (__move_pages ex_kernel [] [] 1 10000 ((List.range 10000).map fun j => 4096 * j) 0).1 = 0 ∧
    ((__move_pages ex_kernel [] [] 1 10000 ((List.range 10000).map fun j => 4096 * j)
        0).2.2.map MoveCall.count) = [4096, 4096, 1808] ∧
    (__move_pages ex_kernel [] [] 1 10000 ((List.range 10000).map fun j => 4096 * j)
        0).2.1.length = 10000 := by
  have h := move_pages_partition ex_kernel (fun _ _ => rfl) [] [] 1 10000
    ((List.range 10000).map fun j => 4096 * j) 0
  refine ⟨h.1, ?_, h.2.2.2.2.1⟩
  rw [h.2.1, List.nil_append]
  exact h.2.2.2.2.2 rfl

/-- C12 as stated fails for a positive result: with 5000 addresses (two batches) and a kernel
whose calls return 1, no batch returns a negative result, yet the loop stops after the first
call (`if (ret)` at line 231) and `__move_pages` returns 1, not 0. -/
theorem move_pages_failure_counterexample :
    (__move_pages ex_kernel_one [] [] 1 5000 ((List.range 5000).map fun j => 4096 * j) 0).1 = 1 ∧
    (__move_pages ex_kernel_one [] [] 1 5000 ((List.range 5000).map fun j => 4096 * j)
      0).2.2.length = 1 ∧
    (5000 + 4095) / 4096 = 2 := by
  obtain ⟨L, h1, _, h3, h4, _, h6, h7, _⟩ :=
    move_pages_spec ex_kernel_one [] [] 1 5000 ((List.range 5000).map fun j => 4096 * j) 0
  have hL1 : L = 1 := by
    rcases Nat.lt_or_ge L 2 with h | h
    · rcases Nat.eq_zero_or_pos L with h0 | h0
      · have := h7 (Or.inl h0)
        omega
      · omega
    · have := h4 0 (by omega)
      simp [ex_kernel_one] at this
  subst hL1
  refine ⟨?_, ?_, by norm_num⟩
  · rw [h6 (by omega)]
    rfl
  · rw [h1, List.nil_append, batches_length]

/-- C12, amended: whole-call failure.  For every address list and every kernel (every
sequence of batch results): the calls issued are the first `L` batches for some
`L <= ceil(n / 4096)`; if a batch's call returns a non-zero result `r` (negative or
positive), that call is the last one issued and `__move_pages` returns `r`; what each issued
call wrote in its slice of the status vector is still there at the end, so the entries of
the earlier batches are left unchanged; and if every call issued returns 0, all
`ceil(n / 4096)` batches are issued and `__move_pages` returns 0. -/
theorem move_pages_failure (kernel : Kernel) (trace : List MoveCall)
    (migrate_status : List Int) (pid : Int) (n : Nat) (addrs : List Nat) (node : Int) :
    ∃ L : Nat,
      L ≤ (n + 4095) / 4096 ∧
      (__move_pages kernel trace migrate_status pid n addrs node).2.2 =
        trace ++ batches pid n addrs node 4096 0 L ∧
      (∀ k, k < L →
        (kernel (trace ++ batches pid n addrs node 4096 0 k)
          (batch_call pid n addrs node 4096 (4096 * k))).ret ≠ 0 →
        L = k + 1 ∧
        (__move_pages kernel trace migrate_status pid n addrs node).1 =
          (kernel (trace ++ batches pid n addrs node 4096 0 k)
            (batch_call pid n addrs node 4096 (4096 * k))).ret) ∧
      (__move_pages kernel trace migrate_status pid n addrs node).2.1.length = n ∧
      (∀ k j, k < L →
        j < ((kernel (trace ++ batches pid n addrs node 4096 0 k)
          (batch_call pid n addrs node 4096 (4096 * k))).status.take
            (min 4096 (n - 4096 * k))).length →
        (__move_pages kernel trace migrate_status pid n addrs node).2.1[4096 * k + j]? =
        ((kernel (trace ++ batches pid n addrs node 4096 0 k)
          (batch_call pid n addrs node 4096 (4096 * k))).status.take
            (min 4096 (n - 4096 * k)))[j]?) ∧
      ((∀ k, k < L →
        (kernel (trace ++ batches pid n addrs node 4096 0 k)
          (batch_call pid n addrs node 4096 (4096 * k))).ret = 0) →
        L = (n + 4095) / 4096 ∧
        (__move_pages kernel trace migrate_status pid n addrs node).1 = 0) := by
  obtain ⟨L, h1, h2, h3, h4, h5, h6, h7, h9⟩ :=
    move_pages_spec kernel trace migrate_status pid n addrs node
  have hLK : L ≤ (n + 4095) / 4096 := by
    rcases Nat.eq_zero_or_pos L with hL | hL
    · omega
    · have := h3 (L - 1) (by omega)
      omega
  refine ⟨L, hLK, h1, ?_, h2, h9, ?_⟩
  · intro k hk hret
    have hk1 : L = k + 1 := by
      rcases Nat.lt_or_ge (k + 1) L with h | h
      · exact absurd (h4 k h) hret
      · omega
    refine ⟨hk1, ?_⟩
    rw [h6 (by omega)]
    have : L - 1 = k := by omega
    rw [this]
  · intro hall
    have hret : (__move_pages kernel trace migrate_status pid n addrs node).1 = 0 := by
      rcases Nat.eq_zero_or_pos L with hL | hL
      · exact h5 hL
      · rw [h6 hL]; exact hall _ (by omega)
    exact ⟨batches_count h3 (h7 (Or.inr hret)), hret⟩

/-- An instance of C12: with 5000 addresses and calls that return 1, the first call is the
last one issued and `__move_pages` returns 1; with calls that return 0, `__move_pages`
returns 0. -/
theorem move_pages_failure_witness :
    (__move_pages ex_kernel_one [] [] 1 5000 ((List.range 5000).map fun j => 4096 * j) 0).1 = 1 ∧
    (__move_pages ex_kernel [] [] 1 5000 ((List.range 5000).map fun j => 4096 * j) 0).1 = 0 := by
  constructor
  · obtain ⟨L, _, _, hfail, _, _, hall⟩ := move_pages_failure ex_kernel_one [] [] 1 5000
      ((List.range 5000).map fun j => 4096 * j) 0
    rcases Nat.eq_zero_or_pos L with h | h
    · have := (hall (fun k hk => by omega)).1
      rw [h] at this
      norm_num at this
    · exact (hfail 0 h (by simp [ex_kernel_one])).2
  · obtain ⟨L, _, _, _, _, _, hall⟩ := move_pages_failure ex_kernel [] [] 1 5000
      ((List.range 5000).map fun j => 4096 * j) 0
    exact (hall (fun k _ => rfl)).2

theorem zipWith_replicate_right {α β γ : Type} (f : α → β → γ) (c : β) :
    ∀ (l : List α), List.zipWith f l (List.replicate l.length c) = l.map (fun a => f a c) := by
  intro l
  induction l with
  | nil => rfl
  | cons a l ih => simp [List.replicate_succ, ih]

theorem batch_call_pages_length (pid : Int) (addrs : List Nat) (node : Int) (B off : Nat) :
    (batch_call pid addrs.length addrs node B off).pages.length =
      min B (addrs.length - off) := by
  simp only [batch_call, List.length_take, List.length_drop]
  omega

/-- What a per-page kernel writes for a batch: `f` of each address of the slice and `node`. -/
theorem per_page_kernel_batch (f : Nat → Int → Int) (t : List MoveCall) (pid : Int)
    (addrs : List Nat) (node : Int) (B off : Nat) :
    (per_page_kernel f t (batch_call pid addrs.length addrs node B off)).status =
      ((addrs.drop off).take (min B (addrs.length - off))).map (fun a => f a node) := by
  have hl := batch_call_pages_length pid addrs node B off
  simp only [per_page_kernel, batch_call, Option.getD_some] at hl ⊢
  have hr : List.replicate (min B (addrs.length - off)) node =
      List.replicate ((addrs.drop off).take (min B (addrs.length - off))).length node := by
    rw [hl]
  rw [hr, zipWith_replicate_right]

theorem batches_nodes (pid : Int) (n : Nat) (addrs : List Nat) (node : Int) (B i L : Nat) :
    ∀ c ∈ batches pid n addrs node B i L, c.nodes = some (List.replicate c.count node) := by
  intro c hc
  simp only [batches, List.mem_map] at hc
  obtain ⟨k, _, rfl⟩ := hc
  rfl

/-- C13: batching transparency.  With the kernel primitive a deterministic per-page function
that writes `status[j] = f (addr[j], node[j])` and returns 0, the status vector `__move_pages`
produces over the `n` addresses is `status[i] = f (addrs[i], target_node)` for every `i < n`,
which is what a single call over all `n` addresses with every destination `target_node`
writes; and every batch's destination vector has the batch's length and every element
`target_node`. -/
theorem move_pages_transparent (f : Nat → Int → Int) (trace : List MoveCall)
    (migrate_status : List Int) (pid : Int) (addrs : List Nat) (node : Int) :
    (__move_pages (per_page_kernel f) trace migrate_status pid addrs.length addrs node).2.1 =
      addrs.map (fun a => f a node) ∧
    (__move_pages (per_page_kernel f) trace migrate_status pid addrs.length addrs node).2.1 =
      (per_page_kernel f trace
        { pid := pid, count := addrs.length, pages := addrs,
          nodes := some (List.replicate addrs.length node),
          flags := MPOL_MF_MOVE ||| MPOL_MF_SW_YOUNG }).status ∧
    (∀ c ∈ (__move_pages (per_page_kernel f) trace migrate_status pid addrs.length addrs
        node).2.2.drop trace.length,
      c.nodes = some (List.replicate c.count node)) := by
  obtain ⟨L, h1, h2, h3, _, h5, h6, h7, h9⟩ :=
    move_pages_spec (per_page_kernel f) trace migrate_status pid addrs.length addrs node
  have hret : (__move_pages (per_page_kernel f) trace migrate_status pid addrs.length addrs
      node).1 = 0 := by
    rcases Nat.eq_zero_or_pos L with hL | hL
    · exact h5 hL
    · rw [h6 hL]; rfl
  have hcover : addrs.length ≤ 4096 * L := h7 (Or.inr hret)
  have hmain : (__move_pages (per_page_kernel f) trace migrate_status pid addrs.length addrs
      node).2.1 = addrs.map (fun a => f a node) := by
    apply List.ext_getElem?
    intro p
    rcases Nat.lt_or_ge p addrs.length with hp | hp
    · have hk : p / 4096 < L := by omega
      have hdecomp : 4096 * (p / 4096) + p % 4096 = p := Nat.div_add_mod p 4096
      have hsize : p % 4096 < min 4096 (addrs.length - 4096 * (p / 4096)) := by omega
      have hw := h9 (p / 4096) (p % 4096) hk (by
        rw [per_page_kernel_batch, List.length_take, List.length_map, List.length_take,
          List.length_drop]
        omega)
      rw [hdecomp] at hw
      rw [hw, per_page_kernel_batch, List.getElem?_take_of_lt hsize, List.getElem?_map,
        List.getElem?_take_of_lt hsize, List.getElem?_drop, hdecomp, List.getElem?_map]
    · rw [List.getElem?_eq_none (by rw [h2]; exact hp),
        List.getElem?_eq_none (by rw [List.length_map]; exact hp)]
  refine ⟨hmain, ?_, ?_⟩
  · rw [hmain]
    simp only [per_page_kernel, Option.getD_some]
    rw [zipWith_replicate_right]
  · rw [h1, List.drop_left]
    exact batches_nodes _ _ _ _ _ _ _

/-- An instance of C13: three addresses and the per-page function that answers the node asked
for. -/
theorem move_pages_transparent_witness :
    (__move_pages (per_page_kernel fun _ node => node) [] [] 1 3 [4096, 8192, 12288] 1).2.1 =
      [1, 1, 1] :=
  (move_pages_transparent (fun _ node => node) [] [] 1 [4096, 8192, 12288] 1).1

/-! ## Claims on `migrate()` -/

/-- The properties of a run over a list of classes that stops after the first failure. -/
theorem run_classes_props {σ : Type} (step : σ → ProcIdlePageType → Int × σ) :
    ∀ (l : List ProcIdlePageType) (s : σ),
      ((run_classes step l s).2.2.map Prod.fst) <+: l ∧
      (∀ k x, k + 1 < (run_classes step l s).2.2.length →
        (run_classes step l s).2.2[k]? = some x → x.2 = 0) ∧
      (run_classes step l s).1 = (((run_classes step l s).2.2.getLast?).map Prod.snd).getD 0 ∧
      ((run_classes step l s).1 = 0 → (run_classes step l s).2.2.map Prod.fst = l) := by
  intro l
  induction l with
  | nil =>
    intro s
    refine ⟨by simp [run_classes], ?_, by simp [run_classes], fun _ => by simp [run_classes]⟩
    intro k x hk
    simp [run_classes] at hk
  | cons t ts ih =>
    intro s
    cases ts with
    | nil =>
      refine ⟨by simp [run_classes], ?_, by simp [run_classes], fun _ => by simp [run_classes]⟩
      intro k x hk
      simp [run_classes] at hk
    | cons t' ts =>
      obtain ⟨i1, i2, i3, i4⟩ := ih (step s t).2
      by_cases h : (step s t).1 = 0
      · have e : run_classes step (t :: t' :: ts) s =
            ((run_classes step (t' :: ts) (step s t).2).1,
              (run_classes step (t' :: ts) (step s t).2).2.1,
              (t, (step s t).1) :: (run_classes step (t' :: ts) (step s t).2).2.2) := by
          simp [run_classes, h]
        rw [e]
        refine ⟨?_, ?_, ?_, ?_⟩
        · simp only [List.map_cons]
          exact (List.prefix_cons_inj t).mpr i1
        · intro k x hk hx
          rcases k with _ | k
          · simp only [List.getElem?_cons_zero, Option.some.injEq] at hx
            rw [← hx]; exact h
          · simp only [List.getElem?_cons_succ] at hx
            simp only [List.length_cons] at hk
            exact i2 k x (by omega) hx
        · simp only
          rcases hl : (run_classes step (t' :: ts) (step s t).2).2.2 with _ | ⟨y, ys⟩
          · rw [hl] at i3
            simp only [List.getLast?_nil, Option.map_none', Option.getD_none] at i3
            simp [i3, h]
          · rw [hl] at i3
            rw [i3, List.getLast?_cons_cons]
        · intro h0
          simp only [List.map_cons]
          rw [i4 h0]
      · have e : run_classes step (t :: t' :: ts) s =
            ((step s t).1, (step s t).2, [(t, (step s t).1)]) := by
          simp [run_classes, h]
        rw [e]
        refine ⟨?_, ?_, by simp, fun h0 => absurd h0 h⟩
        · simp
        · intro k x hk
          simp at hk

theorem migrate_with_eq {σ : Type} (step : σ → ProcIdlePageType → Int × σ)
    (migrate_what : MigrateWhat) (s : σ) :
    migrate_with step migrate_what s = run_classes step (enabled_classes migrate_what) s := by
  cases migrate_what
  · rfl
  · by_cases h3 : (step s PTE_ACCESSED).1 = 0 <;>
      simp [migrate_with, enabled_classes, run_classes, MigrateWhat.toNat, h3]
  · by_cases h1 : (step s PTE_IDLE).1 = 0 <;>
      by_cases h2 : (step (step s PTE_IDLE).2 PMD_IDLE).1 = 0 <;>
      simp [migrate_with, enabled_classes, run_classes, MigrateWhat.toNat, h1, h2]
  · by_cases h1 : (step s PTE_IDLE).1 = 0 <;>
      by_cases h2 : (step (step s PTE_IDLE).2 PMD_IDLE).1 = 0 <;>
      by_cases h3 : (step (step (step s PTE_IDLE).2 PMD_IDLE).2 PTE_ACCESSED).1 = 0 <;>
      simp [migrate_with, enabled_classes, run_classes, MigrateWhat.toNat, h1, h2, h3]

/-- C15: tick ordering and abort.  For every `migrate_what` mask and every pipeline (every
outcome of the per-class runs), `migrate()` runs the pipeline over the classes
`[PTE_IDLE, PMD_IDLE, PTE_ACCESSED, PMD_ACCESSED]` restricted to the mask (idle classes iff
the COLD bit is set, accessed classes iff the HOT bit is set), in this order, stopping after
the first run that returns a non-zero value: the classes processed are a prefix of that
list, every run but the last one returned 0, the value returned is that of the last run (0 if
no class was processed), and when it is 0 every enabled class was processed. -/
theorem migrate_order {σ : Type} (step : σ → ProcIdlePageType → Int × σ)
    (migrate_what : MigrateWhat) (s : σ) :
    migrate_with step migrate_what s = run_classes step (enabled_classes migrate_what) s ∧
    ((migrate_with step migrate_what s).2.2.map Prod.fst) <+: enabled_classes migrate_what ∧
    (∀ k x, k + 1 < (migrate_with step migrate_what s).2.2.length →
      (migrate_with step migrate_what s).2.2[k]? = some x → x.2 = 0) ∧
    (migrate_with step migrate_what s).1 =
      (((migrate_with step migrate_what s).2.2.getLast?).map Prod.snd).getD 0 ∧
    ((migrate_with step migrate_what s).1 = 0 →
      (migrate_with step migrate_what s).2.2.map Prod.fst = enabled_classes migrate_what) := by
  have e := migrate_with_eq step migrate_what s
  obtain ⟨p1, p2, p3, p4⟩ := run_classes_props step (enabled_classes migrate_what) s
  rw [e]
  exact ⟨rfl, p1, p2, p3, p4⟩

/-- An instance of C15: a pipeline that returns 0 for every class processes all four classes
under the mask `MIGRATE_BOTH`, and one that fails on `PMD_IDLE` stops there. -/
theorem migrate_order_witness :
    ((migrate_with (fun (s : Nat) _ => ((0 : Int), s + 1)) MIGRATE_BOTH 0).2.2.map Prod.fst =
      [PTE_IDLE, PMD_IDLE, PTE_ACCESSED, PMD_ACCESSED]) ∧
    migrate_with (fun (s : Nat) type => (if type = PMD_IDLE then (-1 : Int) else 0, s + 1))
      MIGRATE_BOTH 0 = (-1, 2, [(PTE_IDLE, 0), (PMD_IDLE, -1)]) :=
  ⟨(migrate_order (fun (s : Nat) _ => ((0 : Int), s + 1)) MIGRATE_BOTH 0).2.2.2.2 rfl,
    ((migrate_order (fun (s : Nat) type => (if type = PMD_IDLE then (-1 : Int) else 0, s + 1))
      MIGRATE_BOTH 0).1).trans rfl⟩

/-! ## Claims on `dump_node_percent` -/

theorem inc_count_keys (key : Int) :
    ∀ (s : List (Int × Nat)),
      (inc_count s key).map Prod.fst =
        if key ∈ s.map Prod.fst then s.map Prod.fst else s.map Prod.fst ++ [key] := by
  intro s
  induction s with
  | nil => simp [inc_count]
  | cons kc rest ih =>
    obtain ⟨k, c⟩ := kc
    by_cases h : k = key
    · simp [inc_count, h]
    · have h' : ¬ key = k := fun e => h e.symm
      simp only [inc_count, h, if_false, List.map_cons, ih, List.mem_cons, h', false_or]
      split_ifs <;> simp

theorem lookup_cons_self (k : Int) (c : Nat) (rest : List (Int × Nat)) :
    List.lookup k ((k, c) :: rest) = some c := by
  simp [List.lookup]

theorem lookup_cons_ne {x k : Int} (h : x ≠ k) (c : Nat) (rest : List (Int × Nat)) :
    List.lookup x ((k, c) :: rest) = List.lookup x rest := by
  have hb : (x == k) = false := by simpa using h
  simp [List.lookup, hb]

theorem inc_count_lookup (key x : Int) :
    ∀ (s : List (Int × Nat)),
      ((inc_count s key).lookup x).getD 0 =
        (s.lookup x).getD 0 + if x = key then 1 else 0 := by
  intro s
  induction s with
  | nil =>
    by_cases h : x = key
    · subst h
      simp [inc_count, lookup_cons_self]
    · simp [inc_count, lookup_cons_ne h, h]
  | cons kc rest ih =>
    obtain ⟨k, c⟩ := kc
    by_cases h : k = key
    · subst h
      by_cases hx : x = k
      · subst hx
        simp [inc_count, lookup_cons_self]
      · simp [inc_count, lookup_cons_ne hx, hx]
    · by_cases hx : x = k
      · subst hx
        have : ¬ x = key := h
        simp [inc_count, h, lookup_cons_self, this]
      · simp only [inc_count, h, if_false, lookup_cons_ne hx]
        exact ih

theorem stats_keys (l : List Int) :
    ∀ (s : List (Int × Nat)), (s.map Prod.fst).Nodup →
      ((l.foldl inc_count s).map Prod.fst).Nodup ∧
      ∀ x, x ∈ (l.foldl inc_count s).map Prod.fst ↔ x ∈ s.map Prod.fst ∨ x ∈ l := by
  induction l with
  | nil => intro s hs; simp [hs]
  | cons a l ih =>
    intro s hs
    have hnd : ((inc_count s a).map Prod.fst).Nodup := by
      rw [inc_count_keys]
      split_ifs with h
      · exact hs
      · exact List.Nodup.append hs (List.nodup_singleton a) (by simpa using h)
    obtain ⟨i1, i2⟩ := ih (inc_count s a) hnd
    refine ⟨i1, fun x => ?_⟩
    rw [List.foldl_cons, i2, inc_count_keys]
    split_ifs with h
    · constructor
      · rintro (h1 | h1)
        · exact Or.inl h1
        · exact Or.inr (List.mem_cons_of_mem _ h1)
      · rintro (h1 | h1)
        · exact Or.inl h1
        · rcases List.mem_cons.mp h1 with h2 | h2
          · subst h2; exact Or.inl h
          · exact Or.inr h2
    · simp only [List.mem_append, List.mem_singleton, List.mem_cons]
      tauto

theorem stats_lookup (x : Int) (l : List Int) :
    ∀ (s : List (Int × Nat)),
      ((l.foldl inc_count s).lookup x).getD 0 = (s.lookup x).getD 0 + l.count x := by
  induction l with
  | nil => intro s; simp
  | cons a l ih =>
    intro s
    rw [List.foldl_cons, ih, inc_count_lookup, List.count_cons]
    by_cases h : x = a
    · simp [h]; omega
    · have : ¬ a = x := fun e => h e.symm
      simp [h, this]

theorem nr_err_eq (stats : List (Int × Nat)) :
    ∀ (acc : Nat), stats.foldl (fun nr_err kv => if kv.1 < 0 then nr_err + 1 else nr_err) acc =
      acc + ((stats.map Prod.fst).filter (fun k => decide (k < 0))).length := by
  induction stats with
  | nil => intro acc; simp
  | cons kv rest ih =>
    intro acc
    rw [List.foldl_cons, ih]
    by_cases h : kv.1 < 0
    · simp [h]; omega
    · simp [h]

/-- What `dump_node_percent` publishes: the first number is `100 * (entries equal to 0) / len`;
`nr_err` is the number of distinct negative status values, not the number of entries with
a negative status. -/
theorem dump_node_percent_eq (migrate_status : List Int) :
    dump_node_percent migrate_status =
      (100 * migrate_status.count 0 / migrate_status.length,
        if ((migrate_status.filter (fun k => decide (k < 0))).dedup).length ≠ 0 then
          some (100 * ((migrate_status.filter (fun k => decide (k < 0))).dedup).length /
            migrate_status.length)
        else none) := by
  obtain ⟨hnd, hmem⟩ := stats_keys migrate_status [] (by simp)
  have hcount := stats_lookup 0 migrate_status []
  have herr : ((((migrate_status.foldl inc_count []).map Prod.fst).filter
      (fun k => decide (k < 0))).length) =
      ((migrate_status.filter (fun k => decide (k < 0))).dedup).length := by
    apply List.Perm.length_eq
    rw [List.perm_ext_iff_of_nodup (hnd.filter _) (List.nodup_dedup _)]
    intro x
    simp only [List.mem_filter, List.mem_dedup, hmem, List.map_nil, List.not_mem_nil, false_or]
  simp only [dump_node_percent, calc_migrate_stats, percent, nr_err_eq, Nat.zero_add, herr]
  simp only [List.lookup, Option.getD_none, Nat.zero_add] at hcount
  rw [hcount]

/-- C14 fails on the code: for the statuses `[0, 0, -EBUSY, 0, -EBUSY]` (`EBUSY` is 16) the
stats are `{0: 3, -16: 2}` and the first number published is 60, but the error number
published is 20, not `100 * 2 / 5 = 40`: the loop of lines 304-310 counts the negative keys of
the map (one here) and not the entries that have them.  In general the error number is
`100 * (number of distinct negative status values) / len`. -/
theorem dump_node_percent_error (migrate_status : List Int) :
    calc_migrate_stats [0, 0, -16, 0, -16] = [(0, 3), (-16, 2)] ∧
    dump_node_percent [0, 0, -16, 0, -16] = (60, some 20) ∧
    (dump_node_percent migrate_status).2 =
      (if ((migrate_status.filter (fun k => decide (k < 0))).dedup).length ≠ 0 then
        some (100 * ((migrate_status.filter (fun k => decide (k < 0))).dedup).length /
          migrate_status.length)
      else none) := by
  refine ⟨by decide, by decide, ?_⟩
  rw [dump_node_percent_eq]

/-! ## Claims on `parse_migrate_name` -/

theorem takeWhile_digits (ds rest : List Char) (hds : ∀ c ∈ ds, isdigit c = true)
    (hr : isdigit (rest.headD (Char.ofNat 0)) = false) :
    (ds ++ rest).takeWhile isdigit = ds := by
  induction ds with
  | nil =>
    cases rest with
    | nil => rfl
    | cons r rs =>
      have : isdigit r = false := by simpa using hr
      simp [List.takeWhile_cons, this]
  | cons d ds ih =>
    have hd : isdigit d = true := hds d (List.mem_cons_self _ _)
    simp only [List.cons_append, List.takeWhile_cons, hd, if_true]
    rw [ih (fun c hc => hds c (List.mem_cons_of_mem _ hc))]

theorem foldl_digits (ds : List Char) :
    ∀ acc : Nat, ds.foldl (fun acc c => 10 * acc + (c.toNat - '0'.toNat)) acc =
      acc * 10 ^ ds.length + decimal_value ds := by
  induction ds with
  | nil =>
    intro acc
    simp [decimal_value]
  | cons d ds ih =>
    intro acc
    rw [List.foldl_cons, ih]
    simp only [decimal_value, List.map_cons, List.reverse_cons, Nat.ofDigits_append,
      Nat.ofDigits_singleton, List.length_reverse, List.length_map, List.length_cons]
    ring

/-- The long that `strtol` reads from a digit run followed by a non-digit. -/
theorem strtol_digits (ds rest : List Char) (hds : ∀ c ∈ ds, isdigit c = true)
    (hr : isdigit (rest.headD (Char.ofNat 0)) = false) :
    strtol (ds ++ rest) = min (decimal_value ds : Int) (2 ^ 63 - 1) := by
  unfold strtol
  rw [takeWhile_digits ds rest hds hr, foldl_digits]
  simp

/-- C16 as stated fails: `"2abc"` is none of the eight spellings, it starts with a digit, and
`atoi` reads it as 2, so it maps to `MIGRATE_COLD`, not to `MIGRATE_NONE`; likewise `"03"`
maps to `MIGRATE_BOTH`.  A digit run that does not fit an `int` is narrowed before the test
of line 44: `"4294967297"` maps to `MIGRATE_HOT`, and `"2147483648"` gives the cast of
`INT_MIN`, which is none of the four modes. -/
theorem parse_migrate_name_counterexample :
    "2abc" ∉ ["0", "none", "1", "hot", "2", "cold", "3", "both"] ∧
    parse_migrate_name "2abc" = Except.ok MIGRATE_COLD ∧
    "03" ∉ ["0", "none", "1", "hot", "2", "cold", "3", "both"] ∧
    parse_migrate_name "03" = Except.ok MIGRATE_BOTH ∧
    parse_migrate_name "4294967297" = Except.ok MIGRATE_HOT ∧
    parse_migrate_name "2147483648" = Except.error (-2147483648) := by
  refine ⟨by decide, rfl, by decide, rfl, rfl, rfl⟩

/-- C16, amended: `parse_migrate_name` maps the numeric and the named spelling of a mode to
the same mode (`"0"` and `"none"`, `"1"` and `"hot"`, `"2"` and `"cold"`, `"3"` and
`"both"`); every other string that does not start with a decimal digit maps to
`MIGRATE_NONE`; and a string that starts with a decimal digit is read by `atoi`: with `v` the
number its leading run of digits spells, for `v < 2 ^ 31` it maps to the mode numbered `v`
when `v <= 3` and to `MIGRATE_NONE` otherwise; in general `v` is narrowed to the `int`
`m` (saturated at `LONG_MAX`, then reduced to 32 bits), and the string maps to
`MIGRATE_NONE` when `m > 3`, to the mode numbered `m` when `0 <= m <= 3`, and to the cast of
`m`, which is none of the four modes, when `m < 0`. -/
theorem parse_migrate_name_spec (name : String) (ds rest : List Char) :
    (parse_migrate_name "0" = Except.ok MIGRATE_NONE ∧
      parse_migrate_name "none" = Except.ok MIGRATE_NONE ∧
      parse_migrate_name "1" = Except.ok MIGRATE_HOT ∧
      parse_migrate_name "hot" = Except.ok MIGRATE_HOT ∧
      parse_migrate_name "2" = Except.ok MIGRATE_COLD ∧
      parse_migrate_name "cold" = Except.ok MIGRATE_COLD ∧
      parse_migrate_name "3" = Except.ok MIGRATE_BOTH ∧
      parse_migrate_name "both" = Except.ok MIGRATE_BOTH) ∧
    (isdigit (name.data.headD (Char.ofNat 0)) = false →
      name ∉ ["none", "hot", "cold", "both"] →
      parse_migrate_name name = Except.ok MIGRATE_NONE) ∧
    (name.data = ds ++ rest → ds ≠ [] → (∀ c ∈ ds, isdigit c = true) →
      isdigit (rest.headD (Char.ofNat 0)) = false →
      (decimal_value ds < 2 ^ 31 →
        parse_migrate_name name =
          Except.ok (if decimal_value ds = 1 then MIGRATE_HOT
            else if decimal_value ds = 2 then MIGRATE_COLD
            else if decimal_value ds = 3 then MIGRATE_BOTH
            else MIGRATE_NONE)) ∧
      parse_migrate_name name =
        if 3 < to_int (min (decimal_value ds : Int) (2 ^ 63 - 1)) then Except.ok MIGRATE_NONE
        else if to_int (min (decimal_value ds : Int) (2 ^ 63 - 1)) = 0 then
          Except.ok MIGRATE_NONE
        else if to_int (min (decimal_value ds : Int) (2 ^ 63 - 1)) = 1 then
          Except.ok MIGRATE_HOT
        else if to_int (min (decimal_value ds : Int) (2 ^ 63 - 1)) = 2 then
          Except.ok MIGRATE_COLD
        else if to_int (min (decimal_value ds : Int) (2 ^ 63 - 1)) = 3 then
          Except.ok MIGRATE_BOTH
        else Except.error (to_int (min (decimal_value ds : Int) (2 ^ 63 - 1)))) := by
  refine ⟨⟨rfl, rfl, rfl, rfl, rfl, rfl, rfl, rfl⟩, ?_, ?_⟩
  · intro hd hn
    simp only [List.mem_cons, List.mem_singleton, List.not_mem_nil, or_false, not_or] at hn
    obtain ⟨h1, h2, h3, h4⟩ := hn
    have b1 : (name == "none") = false := by simpa using h1
    have b2 : (name == "hot") = false := by simpa using h2
    have b3 : (name == "cold") = false := by simpa using h3
    have b4 : (name == "both") = false := by simpa using h4
    unfold parse_migrate_name
    rw [if_neg (by rw [hd]; decide)]
    simp [migrate_name_map, List.lookup, b1, b2, b3, b4]
  · intro hdata hne hds hr
    have hhead : isdigit (name.data.headD (Char.ofNat 0)) = true := by
      rw [hdata]
      cases ds with
      | nil => exact absurd rfl hne
      | cons d ds => exact hds d (List.mem_cons_self _ _)
    have hat : atoi name.data = to_int (min (decimal_value ds : Int) (2 ^ 63 - 1)) := by
      unfold atoi
      rw [hdata, strtol_digits ds rest hds hr]
    have hgen : parse_migrate_name name =
        if 3 < to_int (min (decimal_value ds : Int) (2 ^ 63 - 1)) then Except.ok MIGRATE_NONE
        else if to_int (min (decimal_value ds : Int) (2 ^ 63 - 1)) = 0 then
          Except.ok MIGRATE_NONE
        else if to_int (min (decimal_value ds : Int) (2 ^ 63 - 1)) = 1 then
          Except.ok MIGRATE_HOT
        else if to_int (min (decimal_value ds : Int) (2 ^ 63 - 1)) = 2 then
          Except.ok MIGRATE_COLD
        else if to_int (min (decimal_value ds : Int) (2 ^ 63 - 1)) = 3 then
          Except.ok MIGRATE_BOTH
        else Except.error (to_int (min (decimal_value ds : Int) (2 ^ 63 - 1))) := by
      unfold parse_migrate_name
      rw [if_pos hhead]
      simp only [hat, MigrateWhat.toNat, MigrateWhat.of_int]
      generalize to_int (min (decimal_value ds : Int) (2 ^ 63 - 1)) = m
      split_ifs <;> first | rfl | omega
    refine ⟨fun hv => ?_, hgen⟩
    have hm : to_int (min (decimal_value ds : Int) (2 ^ 63 - 1)) = decimal_value ds := by
      have h1 : min (decimal_value ds : Int) (2 ^ 63 - 1) = decimal_value ds :=
        min_eq_left (by omega)
      rw [h1]
      unfold to_int
      omega
    rw [hgen, hm]
    generalize decimal_value ds = v
    split_ifs <;> first | rfl | omega

/-- An instance of C16 amended: `"fast"` does not start with a digit and is no mode name;
`"2abc"` starts with the digit run `2`; `"4294967297"` is a digit run that is narrowed
to 1. -/
theorem parse_migrate_name_spec_witness :
    parse_migrate_name "fast" = Except.ok MIGRATE_NONE ∧
    parse_migrate_name "2abc" = Except.ok MIGRATE_COLD ∧
    parse_migrate_name "4294967297" = Except.ok MIGRATE_HOT := by
  refine ⟨(parse_migrate_name_spec "fast" [] []).2.1 (by decide) (by decide), ?_, ?_⟩
  · have h := ((parse_migrate_name_spec "2abc" ['2'] ['a', 'b', 'c']).2.2 rfl (by decide)
      (by decide) (by decide)).1 (by decide)
    exact h.trans rfl
  · have h := ((parse_migrate_name_spec "4294967297" "4294967297".data []).2.2 rfl (by decide)
      (by decide) (by decide)).2
    exact h.trans rfl

/-! ## Claims on `dump_vma_nodes` -/

theorem PAGE_SIZE_eq : PAGE_SIZE = 4096 := by decide

theorem fill_loop_eq :
    ∀ (l : List Nat) (start : Nat), start < 2 ^ 64 →
      fill_loop l start =
        (List.range l.length).map (fun j => (start + j * PAGE_SIZE) % 2 ^ 64) := by
  intro l
  induction l with
  | nil => intro start _; rfl
  | cons a rest ih =>
    intro start hs
    have hlt : to_ulong (start + PAGE_SIZE) < 2 ^ 64 := Nat.mod_lt _ (by norm_num)
    rw [fill_loop, ih _ hlt, List.length_cons, List.range_succ_eq_map, List.map_cons,
      List.map_map]
    refine congrArg₂ List.cons ?_ ?_
    · simp only [Nat.zero_mul, Nat.add_zero]
      exact (Nat.mod_eq_of_lt hs).symm
    · apply List.map_congr_left
      intro j _
      simp only [Function.comp, to_ulong, PAGE_SIZE_eq, Nat.succ_eq_add_one]
      omega

/-- With every query answered by 0, the loop of lines 337-352 issues the placement queries of
the slots from `i` on, one for each slot, and publishes one pair of numbers for each. -/
theorem probe_loop_spec (kernel : Kernel) (h0 : ∀ t c, (kernel t c).ret = 0) (pid : Int)
    (vma : proc_maps_entry) (S : Nat) (hfit : vma.start + 10 * S * 4096 ≤ 2 ^ 64) :
    ∀ (fuel i : Nat) (addrs : List Nat) (status : List Int) (trace : List MoveCall)
      (out : List (Nat × Option Nat)), addrs.length = S → i + fuel = 10 →
      (probe_loop kernel pid vma S 10 fuel i 0 addrs status trace out).1 = 0 ∧
      (probe_loop kernel pid vma S 10 fuel i 0 addrs status trace out).2.2.1 =
        trace ++ (List.range' i fuel).map (slot_call pid vma S) ∧
      (probe_loop kernel pid vma S 10 fuel i 0 addrs status trace out).2.2.2.length =
        out.length + fuel := by
  intro fuel
  induction fuel with
  | zero =>
    intro i addrs status trace out _ _
    simp [probe_loop]
  | succ f ih =>
    intro i addrs status trace out hlen hi
    have hi10 : i < 10 := by omega
    have hiS : i * S ≤ 9 * S := Nat.mul_le_mul_right S (by omega)
    have hfill : fill_addrs addrs (to_ulong (vma.start + i * addrs.length * PAGE_SIZE)) =
        (List.range S).map (fun j => vma.start + (i * S + j) * PAGE_SIZE) := by
      have hlt : to_ulong (vma.start + i * addrs.length * PAGE_SIZE) < 2 ^ 64 :=
        Nat.mod_lt _ (by norm_num)
      unfold fill_addrs
      rw [fill_loop_eq _ _ hlt, hlen]
      apply List.map_congr_left
      intro j hj
      have hj' : j < S := List.mem_range.mp hj
      simp only [to_ulong, PAGE_SIZE_eq]
      omega
    have hfl : (fill_addrs addrs (to_ulong (vma.start + i * addrs.length * PAGE_SIZE))).length =
        S := by
      rw [hfill, List.length_map, List.length_range]
    have hstep : probe_loop kernel pid vma S 10 (f + 1) i 0 addrs status trace out =
        probe_loop kernel pid vma S 10 f (i + 1) 0
          (fill_addrs addrs (to_ulong (vma.start + i * addrs.length * PAGE_SIZE)))
          (write_at status 0 ((kernel trace (slot_call pid vma S i)).status.take S))
          (trace ++ [slot_call pid vma S i])
          (out ++ [dump_node_percent
            (write_at status 0 ((kernel trace (slot_call pid vma S i)).status.take S))]) := by
      have hz : to_int (0 : Int) = 0 := by decide
      simp only [probe_loop, hi10, if_true, hfill, h0, hz, ne_eq, not_true_eq_false, if_false,
        slot_call]
    rw [hstep]
    obtain ⟨i1, i2, i3⟩ := ih (i + 1) _ _ (trace ++ [slot_call pid vma S i])
      (out ++ [dump_node_percent
        (write_at status 0 ((kernel trace (slot_call pid vma S i)).status.take S))]) hfl
      (by omega)
    refine ⟨i1, ?_, ?_⟩
    · rw [i2, List.range'_succ, List.map_cons, List.append_assoc]
      rfl
    · rw [i3, List.length_append, List.length_singleton]
      omega

theorem ulong_sub_eq {a b : Nat} (hab : b ≤ a) (ha : a < 2 ^ 64) : ulong_sub a b = a - b := by
  unfold ulong_sub
  omega

theorem vma_nr_pages_eq (vma : proc_maps_entry) (hs : vma.start ≤ vma.end_)
    (he : vma.end_ < 2 ^ 64) : vma_nr_pages vma = (vma.end_ - vma.start) / 4096 := by
  unfold vma_nr_pages
  rw [ulong_sub_eq hs he, Nat.shiftRight_eq_div_pow]
  rfl

/-- C17: occupancy probe slots.  For every VMA (`start <= end < 2^64`) of size at least 1 GiB,
when every query succeeds (returns 0), `dump_vma_nodes` returns 0 and issues exactly 10
placement queries (no destination, flag `MPOL_MF_MOVE`), query `i` over
`slot_pages = nr_pages / 10` addresses whose `j`-th address is
`vma.start + (i * slot_pages + j) * PAGE_SIZE`, all of them inside `[vma.start, vma.end)`, and
publishes 10 slot rows; for every VMA smaller than 1 GiB it issues no query and returns 0.
For a 2 GiB VMA `nr_pages = 524288` and `slot_pages = 52428`. -/
theorem dump_vma_nodes_slots (kernel : Kernel) (trace : List MoveCall) (m : Migration)
    (vma : proc_maps_entry) (hs : vma.start ≤ vma.end_) (he : vma.end_ < 2 ^ 64) :
    (vma.end_ - vma.start < 2 ^ 30 → dump_vma_nodes kernel trace m vma = (0, m, trace, [])) ∧
    (2 ^ 30 ≤ vma.end_ - vma.start → (∀ t c, (kernel t c).ret = 0) →
      (dump_vma_nodes kernel trace m vma).1 = 0 ∧
      (dump_vma_nodes kernel trace m vma).2.2.1 =
        trace ++ (List.range 10).map (slot_call m.pid vma (vma_slot_pages vma)) ∧
      (dump_vma_nodes kernel trace m vma).2.2.2.length = 10 ∧
      vma_slot_pages vma = (vma.end_ - vma.start) / PAGE_SIZE / 10 ∧
      (∀ i j, i < 10 → j < vma_slot_pages vma →
        vma.start ≤ vma.start + (i * vma_slot_pages vma + j) * PAGE_SIZE ∧
        vma.start + (i * vma_slot_pages vma + j) * PAGE_SIZE < vma.end_)) ∧
    (vma.end_ - vma.start = 2 ^ 31 → vma_nr_pages vma = 524288 ∧ vma_slot_pages vma = 52428) := by
  have hnr := vma_nr_pages_eq vma hs he
  have hsub := ulong_sub_eq hs he
  have h30 : (1 <<< 30 : Nat) = 2 ^ 30 := by decide
  refine ⟨?_, ?_, ?_⟩
  · intro hsmall
    simp only [dump_vma_nodes, hsub, h30, hsmall, if_true]
  · intro hbig h0
    have hS : vma_slot_pages vma = (vma.end_ - vma.start) / 4096 / 10 := by
      unfold vma_slot_pages; rw [hnr]
    have hS10 : 10 * vma_slot_pages vma * 4096 ≤ vma.end_ - vma.start := by
      rw [hS]; omega
    have hnot : ¬ (vma.end_ - vma.start < 2 ^ 30) := by omega
    obtain ⟨p1, p2, p3⟩ := probe_loop_spec kernel h0 m.pid vma (vma_slot_pages vma)
      (by omega) 10 0 (resize [] (vma_slot_pages vma) 0)
      (resize m.migrate_status (vma_slot_pages vma) 0) trace [] (resize_length _ _ _) rfl
    refine ⟨?_, ?_, ?_, ?_, ?_⟩
    · simp only [dump_vma_nodes, hsub, h30, hnot, if_false]
      exact p1
    · simp only [dump_vma_nodes, hsub, h30, hnot, if_false]
      rw [p2, List.range_eq_range']
    · simp only [dump_vma_nodes, hsub, h30, hnot, if_false]
      simpa using p3
    · rw [hS, PAGE_SIZE_eq]
    · intro i j hi hj
      have hiS : i * vma_slot_pages vma ≤ 9 * vma_slot_pages vma :=
        Nat.mul_le_mul_right _ (by omega)
      rw [PAGE_SIZE_eq]
      omega
  · intro h2g
    unfold vma_slot_pages
    rw [hnr, h2g]
    exact ⟨by norm_num, by norm_num⟩

/-- An instance of C17: a 512 MiB VMA is skipped, and a 2 GiB VMA gets the 10 queries. -/
theorem dump_vma_nodes_slots_witness :
    dump_vma_nodes ex_kernel [] (Migration.new ex_option 1 8 fun _ => ex_refs_hot)
        ⟨0x40000000, 0x60000000⟩ =
      (0, Migration.new ex_option 1 8 fun _ => ex_refs_hot, [], []) ∧
    (dump_vma_nodes ex_kernel [] (Migration.new ex_option 1 8 fun _ => ex_refs_hot)
        ⟨0x40000000, 0xc0000000⟩).2.2.1 =
      [] ++ (List.range 10).map
        (slot_call 1 ⟨0x40000000, 0xc0000000⟩ (vma_slot_pages ⟨0x40000000, 0xc0000000⟩)) ∧
    (vma_nr_pages ⟨0x40000000, 0xc0000000⟩ = 524288 ∧
      vma_slot_pages ⟨0x40000000, 0xc0000000⟩ = 52428) :=
  ⟨(dump_vma_nodes_slots ex_kernel [] (Migration.new ex_option 1 8 fun _ => ex_refs_hot)
      ⟨0x40000000, 0x60000000⟩ (by decide) (by decide)).1 (by decide),
    ((dump_vma_nodes_slots ex_kernel [] (Migration.new ex_option 1 8 fun _ => ex_refs_hot)
      ⟨0x40000000, 0xc0000000⟩ (by decide) (by decide)).2.1 (by decide)
        (fun _ _ => rfl)).2.1,
    (dump_vma_nodes_slots ex_kernel [] (Migration.new ex_option 1 8 fun _ => ex_refs_hot)
      ⟨0x40000000, 0xc0000000⟩ (by decide) (by decide)).2.2 (by decide)⟩

/-! ## The upward scan of the idle classes -/

theorem cum_zero_succ (rc : List Nat) (j : Nat) :
    cum rc 0 (j + 1) = cum rc 0 j + rc.getD (j + 1) 0 := by
  unfold cum
  have : Finset.Icc 0 (j + 1) = insert (j + 1) (Finset.Icc 0 j) := by
    ext x
    simp only [Finset.mem_Icc, Finset.mem_insert]
    omega
  rw [this, Finset.sum_insert (by simp), Nat.add_comm]

theorem cum_zero_zero (rc : List Nat) : cum rc 0 0 = rc.getD 0 0 := by
  simp [cum]

/-- What the upward scan computes, when no subtraction wraps: started at `m` with the quota
that is left after the buckets below `m`, none of whose cumulative counts reached `portion`,
it stops at the least index in `[m, limit)` whose cumulative count reaches `portion`, or else
at `limit`. -/
theorem cold_loop_spec (rc : List Nat) (hrc : ∀ c ∈ rc, c < 2 ^ 63) (L : Nat) (q0 : Int)
    (h0 : 0 ≤ q0) (h63 : q0 < 2 ^ 63) :
    ∀ (fuel m : Nat) (q : Int), m ≤ L → L ≤ m + fuel →
      (∀ j, j < m → (cum rc 0 j : Int) < q0) →
      (m = 0 → q = q0) → (∀ m', m = m' + 1 → q = q0 - cum rc 0 m') →
      ∃ k : Nat, cold_loop rc L fuel m q = k ∧ m ≤ k ∧ k ≤ L ∧
        (∀ j, j < k → (cum rc 0 j : Int) < q0) ∧ (k < L → q0 ≤ cum rc 0 k) := by
  intro fuel
  induction fuel with
  | zero =>
    intro m q hmL hfuel hinv _ _
    exact ⟨m, by simp [cold_loop], le_refl _, hmL, hinv, fun h => by omega⟩
  | succ f ih =>
    intro m q hmL hfuel hinv hq0 hqs
    have hc : rc.getD m 0 < 2 ^ 63 := getD_lt_of_forall (by norm_num) hrc _
    by_cases hlt : m < L
    · have hqc : q - (rc.getD m 0 : Int) = q0 - cum rc 0 m := by
        rcases m with _ | m'
        · rw [hq0 rfl, cum_zero_zero]
        · rw [hqs m' rfl, cum_zero_succ]
          push_cast
          omega
      have hqr : 0 ≤ q ∧ q < 2 ^ 63 := by
        rcases m with _ | m'
        · rw [hq0 rfl]; exact ⟨h0, h63⟩
        · rw [hqs m' rfl]
          have := hinv m' (by omega)
          omega
      have e : to_long (q - ↑(rc.getD m 0)) = q0 - cum rc 0 m := by
        rw [to_long_eq (by omega) (by omega), hqc]
      have hmi : ((m : Int) < (L : Int)) := by exact_mod_cast hlt
      simp only [cold_loop, hmi, if_true, Int.toNat_ofNat, e]
      split_ifs with h2
      · exact ⟨m, rfl, le_refl _, hmL, hinv, fun _ => by omega⟩
      · have hinv' : ∀ j, j < m + 1 → (cum rc 0 j : Int) < q0 := by
          intro j hj
          rcases Nat.eq_or_lt_of_le (by omega : j ≤ m) with h | h
          · rw [h]; omega
          · exact hinv j h
        obtain ⟨k, hk1, hk2, hk3, hk4, hk5⟩ :=
          ih (m + 1) (q0 - cum rc 0 m) (by omega) (by omega) hinv' (fun h => by omega)
            (fun m' hm' => by
              have : m' = m := by omega
              rw [this])
        have e1 : ((m : Int) + 1) = ((m + 1 : Nat) : Int) := by push_cast; rfl
        rw [e1, hk1]
        exact ⟨k, rfl, by omega, hk3, hk4, hk5⟩
    · have hmi : ¬ ((m : Int) < (L : Int)) := by
        intro h
        exact hlt (by exact_mod_cast h)
      simp only [cold_loop, hmi, if_false]
      exact ⟨m, rfl, le_refl _, hmL, hinv, fun h => by omega⟩

/-- C18: for an idle class on the capacity path (`cold_max_refs < 0`, `nr_walks >= 0`) with
`quota = portion` (the portion fits a `long`, and so does every bucket), `get_threshold_refs`
returns `min_refs = 0` and `max_refs = floor(k / 2)`, where `k` is the least index in
`[0, nr_walks / 2)` whose cumulative count `refs_count[0] + ... + refs_count[k]` reaches
`portion`, or `k = nr_walks / 2` if there is none; and `max_refs <= nr_walks / 4` for every
histogram and every portion. -/
theorem get_threshold_refs_idle_scan (option : Options) (vmstat : ProcVmstat) (m : Migration)
    (type : ProcIdlePageType) :
    (accessed type = false → option.cold_max_refs < 0 → 0 ≤ m.nr_walks →
      portion option vmstat m type < 2 ^ 63 →
      (∀ c ∈ (m.pagetype_refs type).refs_count, c < 2 ^ 63) →
      ∃ k : Nat,
        is_cold_index (m.pagetype_refs type).refs_count (m.nr_walks / 2).toNat
          (portion option vmstat m type) k ∧
        get_threshold_refs option vmstat m type =
          (0, ((k / 2 : Nat) : Int), portion option vmstat m type)) ∧
    (accessed type = false → option.cold_max_refs < 0 → 0 ≤ m.nr_walks →
      (get_threshold_refs option vmstat m type).1 = 0 ∧
      (get_threshold_refs option vmstat m type).2.1 ≤ m.nr_walks / 4) := by
  constructor
  · intro ha hc hN hp hrc
    have hq : to_long (portion option vmstat m type) = portion option vmstat m type :=
      to_long_eq (by omega) (by exact_mod_cast hp)
    have hlim : Int.tdiv m.nr_walks 2 = (((m.nr_walks / 2).toNat : Nat) : Int) := by
      rw [Int.tdiv_eq_ediv hN (by decide), Int.toNat_of_nonneg (by omega)]
    obtain ⟨k, hk1, _, hk3, hk4, hk5⟩ :=
      cold_loop_spec (m.pagetype_refs type).refs_count hrc (m.nr_walks / 2).toNat
        (portion option vmstat m type) (by omega) (by exact_mod_cast hp)
        (m.nr_walks / 2).toNat 0 (portion option vmstat m type) (by omega) (by omega)
        (fun j hj => by omega) (fun _ => rfl) (fun m' hm' => by omega)
    refine ⟨k, ?_, ?_⟩
    · rcases Nat.lt_or_ge k (m.nr_walks / 2).toNat with h | h
      · left
        refine ⟨h, ?_, fun j hj => ?_⟩
        · exact_mod_cast hk5 h
        · exact_mod_cast hk4 j hj
      · right
        refine ⟨by omega, fun j hj => ?_⟩
        exact_mod_cast hk4 j (by omega)
    · rw [get_threshold_refs_idle_eq option vmstat m type ha hc, hq, hlim, Int.toNat_ofNat]
      simp only [Nat.cast_zero] at hk1
      rw [hk1, Int.shiftRight_eq_div_pow]
      norm_num
  · intro ha hc hN
    have hlim : Int.tdiv m.nr_walks 2 = m.nr_walks / 2 := Int.tdiv_eq_ediv hN (by decide)
    have hge := cold_loop_ge (m.pagetype_refs type).refs_count (Int.tdiv m.nr_walks 2)
      (Int.tdiv m.nr_walks 2).toNat 0 (to_long (portion option vmstat m type))
    have hle := cold_loop_le (m.pagetype_refs type).refs_count (Int.tdiv m.nr_walks 2)
      (Int.tdiv m.nr_walks 2).toNat 0 (to_long (portion option vmstat m type))
    have hmax : max 0 (Int.tdiv m.nr_walks 2) = m.nr_walks / 2 := by
      rw [hlim]; exact max_eq_right (by omega)
    rw [hmax] at hle
    rw [get_threshold_refs_idle_eq option vmstat m type ha hc]
    dsimp only
    refine ⟨rfl, ?_⟩
    rw [Int.shiftRight_eq_div_pow]
    have h2 : ((2 ^ 1 : Nat) : Int) = 2 := by norm_num
    rw [h2]
    omega

/-- An instance of C18: the six-page histogram at `dram_percent` 50 (portion 3). -/
theorem get_threshold_refs_idle_scan_witness :
    (∃ k : Nat,
      is_cold_index ex_refs_cold.refs_count 4
        (portion ex_option ex_vmstat (Migration.new ex_option 1 8 fun _ => ex_refs_cold)
          PTE_IDLE) k ∧
      get_threshold_refs ex_option ex_vmstat (Migration.new ex_option 1 8 fun _ => ex_refs_cold)
          PTE_IDLE =
        (0, ((k / 2 : Nat) : Int),
          portion ex_option ex_vmstat (Migration.new ex_option 1 8 fun _ => ex_refs_cold)
            PTE_IDLE)) ∧
    ((get_threshold_refs ex_option ex_vmstat (Migration.new ex_option 1 8 fun _ => ex_refs_cold)
        PTE_IDLE).1 = 0 ∧
      (get_threshold_refs ex_option ex_vmstat (Migration.new ex_option 1 8 fun _ => ex_refs_cold)
        PTE_IDLE).2.1 ≤ 8 / 4) := by
  have hp : portion ex_option ex_vmstat (Migration.new ex_option 1 8 fun _ => ex_refs_cold)
      PTE_IDLE < 2 ^ 63 := by
    have h6 : fl (6 : ℚ) = 6 := by simpa using fl_natCast 6 (by norm_num)
    have h3 : fl (3 : ℚ) = 3 := by simpa using fl_natCast 3 (by norm_num)
    have : portion ex_option ex_vmstat (Migration.new ex_option 1 8 fun _ => ex_refs_cold)
        PTE_IDLE = 3 := by
      simp only [portion, ratio, ex_option, Migration.new, ex_refs_cold, AddrSequence.size]
      norm_num [fl_fifty, fl_half, h6, h3, to_size_t]
    rw [this]
    norm_num
  exact ⟨(get_threshold_refs_idle_scan ex_option ex_vmstat
      (Migration.new ex_option 1 8 fun _ => ex_refs_cold) PTE_IDLE).1 rfl (by decide)
      (by decide) hp (by decide),
    (get_threshold_refs_idle_scan ex_option ex_vmstat
      (Migration.new ex_option 1 8 fun _ => ex_refs_cold) PTE_IDLE).2 rfl (by decide)
      (by decide)⟩

/-! ## The band of the downward scan -/

/-- The pages of a list whose count lies in `[a, N]`, counted bucket by bucket. -/
theorem countP_in_band_eq_sum (a N : Nat) (l : List (Nat × Nat)) :
    l.countP (in_band a N) =
      ∑ i in Finset.Icc a N, l.countP (fun p => decide (p.2 = i)) := by
  induction l with
  | nil => simp
  | cons p l ih =>
    simp only [List.countP_cons, Finset.sum_add_distrib, ih, Finset.sum_ite_eq, decide_eq_true_eq,
      Finset.mem_Icc, in_band, Nat.cast_le]

/-- Under the histogram invariant the cumulative count of the buckets `a .. nr_walks` is the
number of pages whose count lies in the band `[a, nr_walks]`. -/
theorem countP_in_band_eq_cum (r : ProcIdleRefs) (N : Nat) (h : refs_consistent r N) (a : Nat) :
    r.page_refs.entries.countP (in_band a N) = cum r.refs_count a N := by
  rw [countP_in_band_eq_sum]
  unfold cum
  apply Finset.sum_congr rfl
  intro i hi
  rw [Finset.mem_Icc] at hi
  unfold refs_consistent at h
  rw [h]
  simp [List.getD_eq_getElem?_getD, List.getElem?_range, Nat.lt_succ_of_le hi.2]

/-- The corrected `min_refs` of lines 102-110, when no subtraction wraps: it is an index `a` in
`[1, N]`; the buckets `a .. N` hold at most `P` pages if the hottest bucket alone does, and
`a = N` if the hottest bucket reaches `P`. -/
theorem hot_min_refs_band (rc : List Nat) (hrc : ∀ c ∈ rc, c < 2 ^ 63) (N P : Nat) (hN : 1 ≤ N)
    (hP : P < 2 ^ 63) :
    ∃ a : Nat,
      (if hot_loop rc N N (to_long P) < N then hot_loop rc N N (to_long P) + 1
        else hot_loop rc N N (to_long P)) = (a : Int) ∧
      (rc.getD N 0 ≤ P → cum rc a N ≤ P) ∧ (P ≤ rc.getD N 0 → a = N) := by
  have hq : to_long (P : Int) = P := to_long_eq (by omega) (by exact_mod_cast hP)
  obtain ⟨k, hk1, hk2, hk3, hk4, hk5⟩ :=
    hot_loop_spec rc hrc N P (by omega) (by exact_mod_cast hP) N N (le_refl _) (by omega)
      (fun j h1 h2 => by omega)
  rw [cum_of_lt _ (by omega : N < N + 1)] at hk1
  simp only [Nat.cast_zero, sub_zero] at hk1
  have hNN : cum rc N N = rc.getD N 0 := by
    rw [cum_succ_left rc (le_refl N), cum_of_lt rc (by omega : N < N + 1)]
    rfl
  rw [hq, hk1]
  rcases Nat.lt_or_ge k N with h | h
  · refine ⟨k + 1, ?_, fun _ => ?_, fun hb => ?_⟩
    · rw [if_pos (by exact_mod_cast h)]
      push_cast
      rfl
    · have := hk4 (k + 1) (by omega) (by omega)
      have : cum rc (k + 1) N < P := by exact_mod_cast this
      omega
    · have := hk4 N h (le_refl _)
      have : cum rc N N < P := by exact_mod_cast this
      omega
  · have hkN : k = N := by omega
    subst hkN
    refine ⟨k, ?_, fun ha => ?_, fun _ => rfl⟩
    · rw [if_neg (by omega)]
    · omega

/-- C20: the `+1` correction keeps the partial bucket out.  For an accessed class on the
capacity path (`option.nr_walks != 0`, `hot_min_refs <= 0`) with `nr_walks >= 1` and
`refs_count` consistent with `page_refs` (fewer than `2 ^ 63` pages): if the hottest bucket
alone does not exceed the quota (`refs_count[nr_walks] <= portion`), then the number of pages
whose count lies in the returned band `[min_refs, nr_walks]` is at most `portion`; and if
`refs_count[nr_walks] >= portion` then `min_refs = nr_walks`. -/
theorem get_threshold_refs_partial_bucket (option : Options) (vmstat : ProcVmstat)
    (m : Migration) (type : ProcIdlePageType) (ha : accessed type = true)
    (hn : option.nr_walks ≠ 0) (hh : option.hot_min_refs ≤ 0) (hN : 1 ≤ m.nr_walks)
    (hc : refs_consistent (m.pagetype_refs type) m.nr_walks)
    (hs : (m.pagetype_refs type).page_refs.size < 2 ^ 63) :
    ((m.pagetype_refs type).refs_count.getD m.nr_walks.toNat 0 ≤ portion option vmstat m type →
      (m.pagetype_refs type).page_refs.entries.countP
          (in_band (get_threshold_refs option vmstat m type).1 m.nr_walks) ≤
        portion option vmstat m type) ∧
    (portion option vmstat m type ≤ (m.pagetype_refs type).refs_count.getD m.nr_walks.toNat 0 →
      (get_threshold_refs option vmstat m type).1 = m.nr_walks) := by
  rw [get_threshold_refs_accessed_eq option vmstat m type ha hn hh]
  dsimp only
  generalize portion option vmstat m type = P
  obtain ⟨N, hNe⟩ : ∃ N : Nat, m.nr_walks = (N : Int) := ⟨m.nr_walks.toNat, by omega⟩
  rw [hNe] at hc ⊢
  rw [Int.toNat_ofNat]
  have hN1 : 1 ≤ N := by omega
  have hlen : ∀ q : Nat × Nat → Bool,
      (m.pagetype_refs type).page_refs.entries.countP q < 2 ^ 63 := fun q =>
    lt_of_le_of_lt (List.countP_le_length q) hs
  have hrc : ∀ c ∈ (m.pagetype_refs type).refs_count, c < 2 ^ 63 := by
    intro c hcm
    have h := hc
    unfold refs_consistent at h
    rw [h, List.mem_map] at hcm
    obtain ⟨i, _, rfl⟩ := hcm
    exact hlen _
  have hNN : (m.pagetype_refs type).refs_count.getD N 0 < 2 ^ 63 :=
    getD_lt_of_forall (by norm_num) hrc N
  rcases Nat.lt_or_ge P (2 ^ 63) with hP | hP
  · obtain ⟨a, ha1, ha2, ha3⟩ :=
      hot_min_refs_band (m.pagetype_refs type).refs_count hrc N P hN1 hP
    rw [ha1]
    refine ⟨fun h => ?_, fun h => ?_⟩
    · rw [countP_in_band_eq_cum (m.pagetype_refs type) N hc a]
      exact ha2 h
    · rw [ha3 h]
  · refine ⟨fun _ => le_trans (le_of_lt (hlen _)) hP, fun h => ?_⟩
    omega

/-- An instance of C20: three pages with the counts 8, 7 and 6 at `dram_percent` 50; the
portion is 1 and the hottest bucket holds one page, so both parts apply. -/
theorem get_threshold_refs_partial_bucket_witness :
    (ex_refs_hot.page_refs.entries.countP
        (in_band (get_threshold_refs ex_option ex_vmstat
          (Migration.new ex_option 1 8 fun _ => ex_refs_hot) PTE_ACCESSED).1 8) ≤
      portion ex_option ex_vmstat (Migration.new ex_option 1 8 fun _ => ex_refs_hot)
        PTE_ACCESSED) ∧
    (get_threshold_refs ex_option ex_vmstat
      (Migration.new ex_option 1 8 fun _ => ex_refs_hot) PTE_ACCESSED).1 = 8 := by
  have h3 : fl (3 : ℚ) = 3 := by simpa using fl_natCast 3 (by norm_num)
  have h32 : fl (3 / 2 : ℚ) = 3 / 2 := by
    have := fl_dyadic 3 (-1) (by norm_num)
    norm_num at this
    simpa using this
  have hf : ⌊(3 / 2 : ℚ)⌋₊ = 1 := by
    rw [Nat.floor_eq_iff (by norm_num)]
    constructor <;> norm_num
  have p50 : portion ex_option ex_vmstat
      (Migration.new ex_option 1 8 fun _ => ex_refs_hot) PTE_ACCESSED = 1 := by
    simp only [portion, ratio, ex_option, Migration.new, ex_refs_hot, AddrSequence.size]
    norm_num [fl_fifty, fl_half, h3, h32, to_size_t, hf]
  exact ⟨(get_threshold_refs_partial_bucket ex_option ex_vmstat
      (Migration.new ex_option 1 8 fun _ => ex_refs_hot) PTE_ACCESSED rfl (by decide)
      (by decide) (by decide) (by decide) (by decide)).1 (by rw [p50]; decide),
    (get_threshold_refs_partial_bucket ex_option ex_vmstat
      (Migration.new ex_option 1 8 fun _ => ex_refs_hot) PTE_ACCESSED rfl (by decide)
      (by decide) (by decide) (by decide) (by decide)).2 (by rw [p50]; decide)⟩

/-! ## The error of the `double` operations of line 96 -/

theorem roundNE_sub_le (q : ℚ) : (roundNE q : ℚ) - q ≤ 1 / 2 ∧ q - (roundNE q : ℚ) ≤ 1 / 2 := by
  have h1 := Int.floor_le q
  have h2 := Int.lt_floor_add_one q
  unfold roundNE
  simp only
  split_ifs <;> push_cast <;> constructor <;> linarith

theorem roundNE_eq_of_lt_half {q : ℚ} {z : ℤ} (h1 : (z : ℚ) ≤ q) (h2 : q < z + 1 / 2) :
    roundNE q = z := by
  have hf : ⌊q⌋ = z := by
    rw [Int.floor_eq_iff]
    constructor <;> linarith
  unfold roundNE
  simp only
  rw [hf, if_pos (by linarith)]

/-- One rounding to `double` moves a positive value by at most the fraction `2 ^ -53`. -/
theorem fl_error {x : ℚ} (hx : 0 < x) :
    x * (1 - 1 / 2 ^ 53) ≤ fl x ∧ fl x ≤ x * (1 + 1 / 2 ^ 53) := by
  rw [fl_of_pos hx]
  have hA : (0 : ℚ) < 2 ^ Int.log 2 x := zpow_pos (by norm_num) _
  have hAx : (2 : ℚ) ^ Int.log 2 x ≤ x := by
    simpa using Int.zpow_log_le_self (b := 2) (by norm_num) hx
  have hu : (2 : ℚ) ^ (Int.log 2 x - 52) = 2 ^ Int.log 2 x / 2 ^ 52 := by
    rw [zpow_sub₀ (by norm_num)]
    norm_num
  rw [hu]
  generalize (2 : ℚ) ^ Int.log 2 x = A at hA hAx
  have hu0 : (0 : ℚ) < A / 2 ^ 52 := by positivity
  obtain ⟨r1, r2⟩ := roundNE_sub_le (x / (A / 2 ^ 52))
  generalize (roundNE (x / (A / 2 ^ 52)) : ℚ) = R at r1 r2
  have e : x / (A / 2 ^ 52) * (A / 2 ^ 52) = x := div_mul_cancel₀ _ hu0.ne'
  have m1 := mul_le_mul_of_nonneg_right r1 hu0.le
  have m2 := mul_le_mul_of_nonneg_right r2 hu0.le
  rw [sub_mul, e] at m1 m2
  constructor
  · have : x * (1 - 1 / 2 ^ 53) = x - x / 2 ^ 53 := by ring
    rw [this]
    have : 1 / 2 * (A / 2 ^ 52) ≤ x / 2 ^ 53 := by
      have : 1 / 2 * (A / 2 ^ 52) = A / 2 ^ 53 := by ring
      rw [this]
      exact div_le_div_of_nonneg_right hAx (by positivity)
    linarith
  · have : x * (1 + 1 / 2 ^ 53) = x + x / 2 ^ 53 := by ring
    rw [this]
    have : 1 / 2 * (A / 2 ^ 52) ≤ x / 2 ^ 53 := by
      have : 1 / 2 * (A / 2 ^ 52) = A / 2 ^ 53 := by ring
      rw [this]
      exact div_le_div_of_nonneg_right hAx (by positivity)
    linarith

/-- The value line 96 computes from `n` pages and the percentage `p`, as a `double`: it lies
within `3 / 512` of `n * p / 100` for at most `2 ^ 44` pages. -/
theorem product_error (n p : Nat) (hn : n ≤ 2 ^ 44) (hp : p ≤ 100) :
    (n : ℚ) * p / 100 - 3 / 512 ≤ fl (fl (n : ℚ) * fl ((p : ℚ) / 100)) ∧
      fl (fl (n : ℚ) * fl ((p : ℚ) / 100)) ≤ (n : ℚ) * p / 100 + 3 / 512 := by
  have hnq : (n : ℚ) ≤ 2 ^ 44 := by exact_mod_cast hn
  have hpq : (p : ℚ) ≤ 100 := by exact_mod_cast hp
  rw [fl_natCast n (by omega)]
  rcases Nat.eq_zero_or_pos n with h0 | h0
  · subst h0
    simp only [Nat.cast_zero, zero_mul, zero_div, fl_zero]
    norm_num
  rcases Nat.eq_zero_or_pos p with hp0 | hp0
  · subst hp0
    simp only [Nat.cast_zero, zero_div, mul_zero, fl_zero]
    norm_num
  have hn0 : (0 : ℚ) < n := by exact_mod_cast h0
  have hp0' : (0 : ℚ) < p := by exact_mod_cast hp0
  have hr : (0 : ℚ) < (p : ℚ) / 100 := by positivity
  obtain ⟨x1, x2⟩ := fl_error hr
  generalize fl ((p : ℚ) / 100) = x at x1 x2
  have hx : 0 < x := lt_of_lt_of_le (by positivity) x1
  have hy : 0 < (n : ℚ) * x := mul_pos hn0 hx
  obtain ⟨v1, v2⟩ := fl_error hy
  generalize fl ((n : ℚ) * x) = v at v1 v2
  have y1 := mul_le_mul_of_nonneg_left x1 hn0.le
  have y2 := mul_le_mul_of_nonneg_left x2 hn0.le
  have z1 := mul_le_mul_of_nonneg_right y1 (by norm_num : (0 : ℚ) ≤ 1 - 1 / 2 ^ 53)
  have z2 := mul_le_mul_of_nonneg_right y2 (by norm_num : (0 : ℚ) ≤ 1 + 1 / 2 ^ 53)
  have ht : (n : ℚ) * p / 100 ≤ 2 ^ 44 := by
    have : (n : ℚ) * p ≤ 2 ^ 44 * 100 := mul_le_mul hnq hpq hp0'.le (by positivity)
    linarith
  have ht0 : (0 : ℚ) ≤ (n : ℚ) * p / 100 := by positivity
  generalize ht' : (n : ℚ) * p / 100 = t at ht ht0
  have e1 : (n : ℚ) * (p / 100 * (1 - 1 / 2 ^ 53)) * (1 - 1 / 2 ^ 53) =
      t - t * (2 / 2 ^ 53 - 1 / 2 ^ 106) := by
    rw [← ht']; ring
  have e2 : (n : ℚ) * (p / 100 * (1 + 1 / 2 ^ 53)) * (1 + 1 / 2 ^ 53) =
      t + t * (2 / 2 ^ 53 + 1 / 2 ^ 106) := by
    rw [← ht']; ring
  rw [e1] at z1
  rw [e2] at z2
  have b1 : t * (2 / 2 ^ 53 - 1 / 2 ^ 106) ≤ 2 ^ 44 * (2 / 2 ^ 53 - 1 / 2 ^ 106) :=
    mul_le_mul_of_nonneg_right ht (by norm_num)
  have b2 : t * (2 / 2 ^ 53 + 1 / 2 ^ 106) ≤ 2 ^ 44 * (2 / 2 ^ 53 + 1 / 2 ^ 106) :=
    mul_le_mul_of_nonneg_right ht (by norm_num)
  have c1 : (2 : ℚ) ^ 44 * (2 / 2 ^ 53 - 1 / 2 ^ 106) ≤ 3 / 512 := by norm_num
  have c2 : (2 : ℚ) ^ 44 * (2 / 2 ^ 53 + 1 / 2 ^ 106) ≤ 3 / 512 := by norm_num
  constructor <;> linarith

/-- Line 96 for `n` pages (at most `2 ^ 44`) and the percentage `p`: the portion is
`floor(n * p / 100)` or one less, and it is `floor(n * p / 100)` whenever 100 does not divide
`n * p`. -/
theorem portion_value (n p : Nat) (hn : n ≤ 2 ^ 44) (hp : p ≤ 100) :
    to_size_t (fl (fl (n : ℚ) * fl ((p : ℚ) / 100))) ≤ n * p / 100 ∧
      n * p / 100 ≤ to_size_t (fl (fl (n : ℚ) * fl ((p : ℚ) / 100))) + 1 ∧
      (n * p % 100 ≠ 0 → to_size_t (fl (fl (n : ℚ) * fl ((p : ℚ) / 100))) = n * p / 100) := by
  obtain ⟨v1, v2⟩ := product_error n p hn hp
  have hv0 : 0 ≤ fl (fl (n : ℚ) * fl ((p : ℚ) / 100)) :=
    fl_nonneg (mul_nonneg (fl_nonneg (by positivity)) (fl_nonneg (by positivity)))
  generalize fl (fl (n : ℚ) * fl ((p : ℚ) / 100)) = v at v1 v2 hv0
  have hdm : n * p = 100 * (n * p / 100) + n * p % 100 := (Nat.div_add_mod _ _).symm
  have hr : n * p % 100 < 100 := Nat.mod_lt _ (by norm_num)
  have hf : n * p / 100 ≤ 2 ^ 44 := by
    have : n * p ≤ 2 ^ 44 * 100 := Nat.mul_le_mul hn hp
    omega
  generalize n * p / 100 = f at hdm hf ⊢
  generalize n * p % 100 = r at hdm hr ⊢
  have ht : (n : ℚ) * p / 100 = f + (r : ℚ) / 100 := by
    have : ((n * p : ℕ) : ℚ) = ((100 * f + r : ℕ) : ℚ) := by rw [hdm]
    push_cast at this
    rw [this]; ring
  rw [ht] at v1 v2
  have hr0 : (0 : ℚ) ≤ r := by positivity
  have hr99 : (r : ℚ) ≤ 99 := by exact_mod_cast (by omega : r ≤ 99)
  have up : ⌊v⌋₊ ≤ f := by
    have : ⌊v⌋₊ < f + 1 := by
      rw [Nat.floor_lt hv0]
      push_cast
      linarith
    omega
  have lo : f ≤ ⌊v⌋₊ + 1 := by
    rcases Nat.eq_zero_or_pos f with h | h
    · omega
    · have : f - 1 ≤ ⌊v⌋₊ := by
        apply Nat.le_floor
        rw [Nat.cast_sub h]
        push_cast
        linarith
      omega
  have hmod : ⌊v⌋₊ % 2 ^ 64 = ⌊v⌋₊ := Nat.mod_eq_of_lt (by omega)
  unfold to_size_t
  rw [hmod]
  refine ⟨up, lo, fun hne => ?_⟩
  have hr1 : (1 : ℚ) ≤ r := by exact_mod_cast (by omega : 1 ≤ r)
  have : f ≤ ⌊v⌋₊ := by
    apply Nat.le_floor
    linarith
  omega

/-! ## Claims on the portion -/

theorem fl_29_percent : fl (29 / 100 : ℚ) = 5224175567749775 / 2 ^ 54 := by
  rw [fl_eq_of_bounds (x := 29 / 100) (e := -2) (by norm_num) (by norm_num)]
  rw [roundNE_eq_of_lt_half (q := 29 / 100 / 2 ^ ((-2 : ℤ) - 52)) (z := 5224175567749775)
    (by norm_num) (by norm_num)]
  norm_num

theorem fl_100_times_29_percent :
    fl (100 * (5224175567749775 / 2 ^ 54) : ℚ) = 8162774324609023 / 2 ^ 48 := by
  rw [fl_eq_of_bounds (x := 100 * (5224175567749775 / 2 ^ 54)) (e := 4) (by norm_num)
    (by norm_num)]
  rw [roundNE_eq_of_lt_half (q := 100 * (5224175567749775 / 2 ^ 54) / 2 ^ ((4 : ℤ) - 52))
    (z := 8162774324609023) (by norm_num) (by norm_num)]
  norm_num

/-- C19 as stated fails in two ways.  At `dram_percent = 0`, which the code reads as unset,
the portion comes from vmstat: three pages give 3 under a vmstat ratio of 1 and 0 under a
ratio of 0, where `floor(3 * 0 / 100) = 0`.  And the two roundings to `double` can lose a
page: 100 pages at `dram_percent = 29` give the portion 28, where
`floor(100 * 29 / 100) = 29`. -/
theorem get_threshold_refs_portion_counterexample :
    (get_threshold_refs { ex_option with dram_percent := 0 } ex_vmstat
        (Migration.new ex_option 1 8 fun _ => ex_refs_hot) PTE_ACCESSED).2.2 = 3 ∧
    (get_threshold_refs { ex_option with dram_percent := 0 } ex_vmstat_zero
        (Migration.new ex_option 1 8 fun _ => ex_refs_hot) PTE_ACCESSED).2.2 = 0 ∧
    ex_refs_hot.page_refs.size * 0 / 100 = 0 ∧
    (get_threshold_refs { ex_option with dram_percent := 29 } ex_vmstat
        (Migration.new ex_option 1 8 fun _ => ex_refs_100) PTE_ACCESSED).2.2 = 28 ∧
    ex_refs_100.page_refs.size * 29 / 100 = 29 := by
  have h3 : fl (3 : ℚ) = 3 := by simpa using fl_natCast 3 (by norm_num)
  have h29 : fl (29 : ℚ) = 29 := by simpa using fl_natCast 29 (by norm_num)
  have hm : fl (130604389193744375 / 4503599627370496 : ℚ) =
      8162774324609023 / 281474976710656 := by
    have := fl_100_times_29_percent
    norm_num at this
    exact this
  have hf : ⌊(8162774324609023 / 281474976710656 : ℚ)⌋₊ = 28 := by
    rw [Nat.floor_eq_iff (by norm_num)]
    constructor <;> norm_num
  have p0 : portion { ex_option with dram_percent := 0 } ex_vmstat
      (Migration.new ex_option 1 8 fun _ => ex_refs_hot) PTE_ACCESSED = 3 := by
    simp only [portion, ratio, ex_vmstat, Migration.new, ex_refs_hot, AddrSequence.size]
    norm_num [fl_one, h3, to_size_t]
  have pz : portion { ex_option with dram_percent := 0 } ex_vmstat_zero
      (Migration.new ex_option 1 8 fun _ => ex_refs_hot) PTE_ACCESSED = 0 := by
    simp only [portion, ratio, ex_vmstat_zero, Migration.new, ex_refs_hot, AddrSequence.size]
    norm_num [fl_one, fl_zero, h3, to_size_t]
  have p29 : portion { ex_option with dram_percent := 29 } ex_vmstat
      (Migration.new ex_option 1 8 fun _ => ex_refs_100) PTE_ACCESSED = 28 := by
    simp only [portion, ratio, ex_option, Migration.new, ex_refs_100, AddrSequence.size,
      List.length_map, List.length_range]
    norm_num [fl_hundred, h29, fl_29_percent, hm, to_size_t, hf]
  refine ⟨?_, ?_, by decide, ?_, by decide⟩
  · rw [get_threshold_refs_accessed_eq { ex_option with dram_percent := 0 } ex_vmstat
      (Migration.new ex_option 1 8 fun _ => ex_refs_hot) PTE_ACCESSED rfl (by decide)
      (by decide)]
    exact p0
  · rw [get_threshold_refs_accessed_eq { ex_option with dram_percent := 0 } ex_vmstat_zero
      (Migration.new ex_option 1 8 fun _ => ex_refs_hot) PTE_ACCESSED rfl (by decide)
      (by decide)]
    exact pz
  · rw [get_threshold_refs_accessed_eq { ex_option with dram_percent := 29 } ex_vmstat
      (Migration.new ex_option 1 8 fun _ => ex_refs_100) PTE_ACCESSED rfl (by decide)
      (by decide)]
    exact p29

/-- Line 96 with the DRAM-side ratio `dram_percent / 100.0`. -/
theorem percent_portion (n : Nat) (p : Int) (h0 : 0 ≤ p) (h100 : p ≤ 100) (hn : n ≤ 2 ^ 44) :
    is_percent_portion n p (to_size_t (fl (fl (n : ℚ) * fl (fl (p : ℚ) / 100)))) := by
  obtain ⟨k, rfl⟩ : ∃ k : Nat, p = (k : Int) := ⟨p.toNat, by omega⟩
  have hk : k ≤ 100 := by omega
  rw [Int.cast_natCast, fl_natCast k (by omega)]
  obtain ⟨a, b, c⟩ := portion_value n k hn hk
  generalize to_size_t (fl (fl (n : ℚ) * fl ((k : ℚ) / 100))) = P at a b c
  refine ⟨by exact_mod_cast a, by exact_mod_cast b, fun h => ?_⟩
  have : n * k % 100 ≠ 0 := by
    intro h'
    apply h
    exact_mod_cast h'
  exact_mod_cast c this

/-- Line 96 with the ratio `(100.0 - dram_percent) / 100.0` of the other side. -/
theorem percent_portion_compl (n : Nat) (p : Int) (h0 : 0 ≤ p) (h100 : p ≤ 100)
    (hn : n ≤ 2 ^ 44) :
    is_percent_portion n (100 - p)
      (to_size_t (fl (fl (n : ℚ) * fl (fl (100 - fl (p : ℚ)) / 100)))) := by
  obtain ⟨k, rfl⟩ : ∃ k : Nat, p = (k : Int) := ⟨p.toNat, by omega⟩
  have hk : k ≤ 100 := by omega
  have e : (100 : ℚ) - (k : ℚ) = ((100 - k : ℕ) : ℚ) := by
    rw [Nat.cast_sub hk]
    norm_num
  have e' : (100 : Int) - (k : Int) = ((100 - k : ℕ) : Int) := by omega
  rw [Int.cast_natCast, fl_natCast k (by omega), e, fl_natCast (100 - k) (by omega), e']
  obtain ⟨a, b, c⟩ := portion_value n (100 - k) hn (by omega)
  generalize to_size_t (fl (fl (n : ℚ) * fl (((100 - k : ℕ) : ℚ) / 100))) = P at a b c
  generalize 100 - k = q at a b c ⊢
  refine ⟨by exact_mod_cast a, by exact_mod_cast b, fun h => ?_⟩
  have : n * q % 100 ≠ 0 := by
    intro h'
    apply h
    exact_mod_cast h'
  exact_mod_cast c this

/-- C19, amended: on the capacity path, for a `dram_percent` p in `[1, 100]` (0 is read as
unset) and a histogram of n pages, `n <= 2 ^ 44`, the value `get_threshold_refs` returns does
not depend on the vmstat collaborator; for a class whose target is the DRAM node it is
`floor(n * p / 100)` or one less, and exactly `floor(n * p / 100)` when 100 does not divide
`n * p`; for a class with another target the same holds with `100 - p` in place of `p`. -/
theorem get_threshold_refs_portion (option : Options) (vmstat : ProcVmstat) (m : Migration)
    (type : ProcIdlePageType)
    (hcap : (accessed type = true ∧ option.nr_walks ≠ 0 ∧ option.hot_min_refs ≤ 0) ∨
      (accessed type = false ∧ option.cold_max_refs < 0))
    (h1 : 1 ≤ option.dram_percent) (h100 : option.dram_percent ≤ 100)
    (hn : (m.pagetype_refs type).page_refs.size ≤ 2 ^ 44) :
    (∀ vmstat' : ProcVmstat,
      get_threshold_refs option vmstat' m type = get_threshold_refs option vmstat m type) ∧
    (m.migrate_target_node type = option.DRAM_NUMA_NODE →
      is_percent_portion (m.pagetype_refs type).page_refs.size option.dram_percent
        (get_threshold_refs option vmstat m type).2.2) ∧
    (m.migrate_target_node type ≠ option.DRAM_NUMA_NODE →
      is_percent_portion (m.pagetype_refs type).page_refs.size (100 - option.dram_percent)
        (get_threshold_refs option vmstat m type).2.2) := by
  have hne : option.dram_percent ≠ 0 := by omega
  have hr : ∀ v : ProcVmstat, ratio option v m type = ratio option vmstat m type := fun v => by
    simp only [ratio, hne, ne_eq, not_false_eq_true, if_true]
  have hp : ∀ v : ProcVmstat, portion option v m type = portion option vmstat m type :=
    fun v => by
      unfold portion
      rw [hr v]
  have hret : (get_threshold_refs option vmstat m type).2.2 = portion option vmstat m type := by
    rcases hcap with ⟨ha, hw, hh⟩ | ⟨ha, hc⟩
    · rw [get_threshold_refs_accessed_eq option vmstat m type ha hw hh]
    · rw [get_threshold_refs_idle_eq option vmstat m type ha hc]
  refine ⟨fun v => ?_, fun ht => ?_, fun ht => ?_⟩
  · simp only [get_threshold_refs, hp v]
  · rw [hret]
    unfold portion ratio
    rw [if_pos hne, if_pos ht]
    exact percent_portion _ _ (by omega) h100 hn
  · rw [hret]
    unfold portion ratio
    rw [if_pos hne, if_neg ht]
    exact percent_portion_compl _ _ (by omega) h100 hn

/-- An instance of C19: three pages at `dram_percent` 50, for the accessed class (target
DRAM) and the idle class (target PMEM). -/
theorem get_threshold_refs_portion_witness :
    (get_threshold_refs ex_option ex_vmstat_zero
        (Migration.new ex_option 1 8 fun _ => ex_refs_hot) PTE_ACCESSED =
      get_threshold_refs ex_option ex_vmstat
        (Migration.new ex_option 1 8 fun _ => ex_refs_hot) PTE_ACCESSED) ∧
    is_percent_portion 3 50
      (get_threshold_refs ex_option ex_vmstat
        (Migration.new ex_option 1 8 fun _ => ex_refs_hot) PTE_ACCESSED).2.2 ∧
    is_percent_portion 3 (100 - 50)
      (get_threshold_refs ex_option ex_vmstat
        (Migration.new ex_option 1 8 fun _ => ex_refs_hot) PTE_IDLE).2.2 :=
  ⟨(get_threshold_refs_portion ex_option ex_vmstat
      (Migration.new ex_option 1 8 fun _ => ex_refs_hot) PTE_ACCESSED
      (Or.inl ⟨rfl, by decide, by decide⟩) (by decide) (by decide) (by decide)).1
      ex_vmstat_zero,
    (get_threshold_refs_portion ex_option ex_vmstat
      (Migration.new ex_option 1 8 fun _ => ex_refs_hot) PTE_ACCESSED
      (Or.inl ⟨rfl, by decide, by decide⟩) (by decide) (by decide) (by decide)).2.1 rfl,
    (get_threshold_refs_portion ex_option ex_vmstat
      (Migration.new ex_option 1 8 fun _ => ex_refs_hot) PTE_IDLE
      (Or.inr ⟨rfl, by decide⟩) (by decide) (by decide) (by decide)).2.2 (by decide)⟩

end MemoryOptimizer
